import Mathlib

/-!
# FCurlHttpManager: the throttled multi-transfer scheduler

A shallow embedding of `Engine/Source/Runtime/Online/HTTP/Private/Curl/CurlHttpManager.cpp`:
the registry `HandlesToRequests`, `FindNextEasyHandle`, `HttpThreadTick`,
`StartThreadedRequest` and `CompleteThreadedRequest`, and the process-wide context set up by
`InitCurl` and torn down by `ShutdownCurl`.

Conventions of the embedding.

* Pointers (`CURL*`, `CURLM*`, request pointers) are natural numbers, `0` is `NULL`.
* `int` members are `Int`. The counters move by one per call, so the embedding covers
  the executions in which no `int` overflows (overflow of a signed `int` is undefined in C++).
* `FDateTime` is a tick count. `FDateTime::MaxValue()` belongs to the Core module, which is
  not part of these sources, so it is a parameter `MaxValue` of every function that uses it.
* `TMap` is the list of its key/value pairs in iteration order. Where a new key lands in
  the iteration order is decided by the container (outside these sources); `Add` therefore
  takes the landing position as a parameter `Slot`.
* The multiplexer (libcurl) is an environment: what `curl_multi_perform`,
  `curl_multi_info_read` and `curl_multi_add_handle` answer during one tick are parameters
  of `HttpThreadTick`. The set of handles the multiplexer currently holds and the sequence
  of calls made to the outside are recorded in two ghost fields, `ActiveSet` and `Trace`.
* `check(...)` is fatal and is modelled by the result `Result.checkFailed`, and so is a log
  entry of verbosity `Fatal`; `ensure(...)` only logs and has no effect on the state.
* What `InitCurl` reads from the command line, the file system, the configuration and
  libcurl is an environment too, the record `InitEnvironment`.
-/

namespace CurlHttp

/-- Easy handle pointer `CURL*`. -/
abbrev CURL := Nat

/-- Multi handle pointer `CURLM*`; `0` is `NULL`. -/
abbrev CURLM := Nat

/-- Result code of a transfer (`CURLcode`). -/
abbrev CURLcode := Int

/-- Result code of a multi-interface call (`CURLMcode`). -/
abbrev CURLMcode := Int

/-- The success code `CURLM_OK`. -/
def CURLM_OK : CURLMcode := 0

/-- Tick count of an `FDateTime`. -/
abbrev FDateTime := Nat

/-- Message kinds of `curl_multi_info_read`. -/
inductive CURLMSG where
  | NONE
  | DONE
  | LAST
  deriving DecidableEq, Repr

/-- One `CURLMsg` as read from the multiplexer: kind, easy handle and `data.result`. -/
structure CURLMsg where
  msg : CURLMSG
  easy_handle : CURL
  result : CURLcode
  deriving DecidableEq, Repr

/-- A threaded request object: its address and the easy handle `GetEasyHandle()` returns. -/
structure FCurlHttpRequest where
  Address : Nat
  EasyHandle : CURL
  deriving DecidableEq, Repr

/-- Accessor `FCurlHttpRequest::GetEasyHandle`. -/
def FCurlHttpRequest.GetEasyHandle (Request : FCurlHttpRequest) : CURL :=
  Request.EasyHandle

/-- Per-handle bookkeeping `CurlEasyRequestData` (the value type of `HandlesToRequests`). -/
structure CurlEasyRequestData where
  DateTime : FDateTime
  bProcessingStarted : Bool
  bAddedToMulti : Bool
  Request : FCurlHttpRequest
  deriving DecidableEq, Repr

/-- Modelled from the spec: the constructor `CurlEasyRequestData(Request)` is declared in
`CurlHttpManager.h`, which is not among the sources. The spec says a submission
"inserts a RegistryEntry with `admitted=false, inFlight=false`, timestamped now";
`Now` is the clock reading at the time of the call. -/
def CurlEasyRequestData.ctor (InRequest : FCurlHttpRequest) (Now : FDateTime) :
    CurlEasyRequestData :=
  { DateTime := Now, bProcessingStarted := false, bAddedToMulti := false, Request := InRequest }

/-- The registry type `TMap<CURL*, CurlEasyRequestData>`, as its pairs in iteration order. -/
abbrev TMap := List (CURL × CurlEasyRequestData)

/-- Lookup `TMap::Find`: the value stored under `Key`, if any. -/
def TMap.Find : TMap → CURL → Option CurlEasyRequestData
  | [], _ => none
  | (k, v) :: rest, Key => if k = Key then some v else TMap.Find rest Key

/-- Membership test `TMap::Contains`. -/
def TMap.Contains (m : TMap) (Key : CURL) : Bool :=
  (TMap.Find m Key).isSome

/-- In-place write through the reference that `Find` or `FindChecked` returned. -/
def TMap.Update : TMap → CURL → (CurlEasyRequestData → CurlEasyRequestData) → TMap
  | [], _, _ => []
  | (k, v) :: rest, Key, f =>
      if k = Key then (k, f v) :: rest else (k, v) :: TMap.Update rest Key f

/-- Put a pair at position `Slot` of the iteration order (at the end when `Slot` is large). -/
def TMap.InsertAt : TMap → Nat → CURL × CurlEasyRequestData → TMap
  | [], _, p => [p]
  | m, 0, p => p :: m
  | q :: rest, Slot + 1, p => q :: TMap.InsertAt rest Slot p

/-- Insertion `TMap::Add`: an existing key keeps its place and gets the new value, a new key
is placed at `Slot`. -/
def TMap.Add (m : TMap) (Key : CURL) (Value : CurlEasyRequestData) (Slot : Nat) : TMap :=
  if TMap.Contains m Key then TMap.Update m Key (fun _ => Value)
  else TMap.InsertAt m Slot (Key, Value)

/-- Removal `TMap::Remove`: drops the pair stored under `Key`. -/
def TMap.Remove (m : TMap) (Key : CURL) : TMap :=
  m.filter (fun p => decide (p.1 ≠ Key))

/-- Calls that leave the manager, in the order they are made (ghost record). -/
inductive Call where
  | curl_multi_perform
  | curl_multi_info_read (Message : CURLMsg)
  | curl_multi_remove_handle (Handle : CURL)
  | curl_multi_add_handle (Handle : CURL) (AddResult : CURLMcode)
  | MarkAsCompleted (Request : FCurlHttpRequest) (Code : CURLcode)
  | SetAddToCurlMultiResult (Request : FCurlHttpRequest) (AddResult : CURLMcode)
  | RegistryAdd (Handle : CURL)
  | RegistryRemove (Handle : CURL)
  deriving DecidableEq, Repr

/-- The manager `FCurlHttpManager`: its members, then the two ghost fields. -/
structure FCurlHttpManager where
  MultiHandle : CURLM
  MaxSimultaneousRequests : Int
  MaxRequestsAddedPerFrame : Int
  NumRequestsAddedToMulti : Int
  HandlesToRequests : TMap
  ActiveSet : List CURL
  Trace : List Call
  deriving DecidableEq, Repr

/-- Outcome of a call that may hit a fatal `check` or exhaust the loop fuel of the model. -/
inductive Result (α : Type) where
  | ok (value : α)
  | checkFailed
  | outOfFuel
  deriving DecidableEq, Repr

/-- Constructor `FCurlHttpManager::FCurlHttpManager`. `GMultiHandle` is the process-wide
multi handle; `CfgSimultaneous` and `CfgPerFrame` are what `GConfig->GetInt` finds for
`CurlMaxSimultaneousRequests` and `CurlMaxRequestsAddedPerFrame` (`none` when `GConfig` is
null or the key is absent, in which case the member keeps its initial `0`). -/
def FCurlHttpManager.ctor (GMultiHandle : CURLM) (CfgSimultaneous CfgPerFrame : Option Int) :
    Result FCurlHttpManager :=
  if GMultiHandle = 0 then Result.checkFailed
  else Result.ok
    { MultiHandle := GMultiHandle
      MaxSimultaneousRequests := CfgSimultaneous.getD 0
      MaxRequestsAddedPerFrame := CfgPerFrame.getD 0
      NumRequestsAddedToMulti := 0
      HandlesToRequests := []
      ActiveSet := []
      Trace := [] }

/-- One step of the range-for in `FindNextEasyHandle`, on the pair of locals
`(LowestDateTime, *OutEasyHandle)`. -/
def FindNextEasyHandle.visit (Acc : FDateTime × Option CURL) (It : CURL × CurlEasyRequestData) :
    FDateTime × Option CURL :=
  if !It.2.bProcessingStarted then
    if It.2.DateTime < Acc.1 then (It.2.DateTime, some It.1) else Acc
  else Acc

/-- The scan of `FindNextEasyHandle`: the locals after the range-for over the map. -/
def FindNextEasyHandle.scan (MaxValue : FDateTime) (m : TMap) : FDateTime × Option CURL :=
  m.foldl FindNextEasyHandle.visit (MaxValue, none)

/-- Selection `FCurlHttpManager::FindNextEasyHandle`: the returned flag and the content of
`*OutEasyHandle` as far as the function wrote it. -/
def FindNextEasyHandle (MaxValue : FDateTime) (m : TMap) : Bool × Option CURL :=
  (decide ((FindNextEasyHandle.scan MaxValue m).1 ≠ MaxValue),
   (FindNextEasyHandle.scan MaxValue m).2)

/-- Body of the drain loop of `HttpThreadTick` for one message that `curl_multi_info_read`
returned. -/
def DrainMessage (s : FCurlHttpManager) (Message : CURLMsg) : FCurlHttpManager :=
  if Message.msg = CURLMSG.DONE then
    let CompletedHandle := Message.easy_handle
    match TMap.Find s.HandlesToRequests CompletedHandle with
    | some RequestData =>
        { s with
          NumRequestsAddedToMulti := s.NumRequestsAddedToMulti - 1
          HandlesToRequests :=
            TMap.Update s.HandlesToRequests CompletedHandle
              (fun d => { d with bAddedToMulti := false })
          ActiveSet := s.ActiveSet.filter (fun h => decide (h ≠ CompletedHandle))
          Trace := s.Trace ++ [Call.curl_multi_info_read Message,
                               Call.curl_multi_remove_handle CompletedHandle,
                               Call.MarkAsCompleted RequestData.Request Message.result] }
    | none =>
        { s with
          NumRequestsAddedToMulti := s.NumRequestsAddedToMulti - 1
          ActiveSet := s.ActiveSet.filter (fun h => decide (h ≠ CompletedHandle))
          Trace := s.Trace ++ [Call.curl_multi_info_read Message,
                               Call.curl_multi_remove_handle CompletedHandle] }
  else
    { s with Trace := s.Trace ++ [Call.curl_multi_info_read Message] }

/-- The drain loop `for(;;)` of `HttpThreadTick`: `Messages` are the messages
`curl_multi_info_read` hands out before it returns `NULL`. -/
def DrainLoop (s : FCurlHttpManager) (Messages : List CURLMsg) : FCurlHttpManager :=
  Messages.foldl DrainMessage s

/-- The first two conjuncts of the admission loop condition of `HttpThreadTick`. -/
def HasBudget (s : FCurlHttpManager) (NumAdded : Int) : Bool :=
  (decide (s.MaxSimultaneousRequests = 0) ||
      decide (s.NumRequestsAddedToMulti < s.MaxSimultaneousRequests)) &&
  (decide (s.MaxRequestsAddedPerFrame = 0) ||
      decide (NumAdded < s.MaxRequestsAddedPerFrame))

/-- Body of the admission loop of `HttpThreadTick` once `FindChecked` has found the entry:
`AddResult` is what `curl_multi_add_handle` answered. The result is the new manager and the
new value of the local `NumAdded`. -/
def AdmitHandle (s : FCurlHttpManager) (NumAdded : Int) (EasyHandle : CURL)
    (RequestData : CurlEasyRequestData) (AddResult : CURLMcode) : FCurlHttpManager × Int :=
  if AddResult = CURLM_OK then
    ({ s with
       NumRequestsAddedToMulti := s.NumRequestsAddedToMulti + 1
       HandlesToRequests :=
         TMap.Update s.HandlesToRequests EasyHandle
           (fun d => { d with bProcessingStarted := true, bAddedToMulti := true })
       ActiveSet := EasyHandle :: s.ActiveSet.filter (fun h => decide (h ≠ EasyHandle))
       Trace := s.Trace ++ [Call.curl_multi_add_handle EasyHandle AddResult,
                            Call.SetAddToCurlMultiResult RequestData.Request AddResult] },
     NumAdded + 1)
  else
    ({ s with
       HandlesToRequests :=
         TMap.Update s.HandlesToRequests EasyHandle
           (fun d => { d with bProcessingStarted := true })
       Trace := s.Trace ++ [Call.curl_multi_add_handle EasyHandle AddResult,
                            Call.SetAddToCurlMultiResult RequestData.Request AddResult] },
     NumAdded)

/-- The admission loop `while (...)` of `HttpThreadTick`. `AddResults i` is the answer of the
`i`-th `curl_multi_add_handle` call of this tick, `Index` counts the calls made so far and
the first argument is the fuel of the model. -/
def AdmissionLoop (MaxValue : FDateTime) (AddResults : Nat → CURLMcode) :
    Nat → Nat → Int → FCurlHttpManager → Result (FCurlHttpManager × Int)
  | 0, _, NumAdded, s =>
      if HasBudget s NumAdded && (FindNextEasyHandle MaxValue s.HandlesToRequests).1 then
        Result.outOfFuel
      else Result.ok (s, NumAdded)
  | Fuel + 1, Index, NumAdded, s =>
      if HasBudget s NumAdded then
        match FindNextEasyHandle MaxValue s.HandlesToRequests with
        | (true, some EasyHandle) =>
            match TMap.Find s.HandlesToRequests EasyHandle with
            | none => Result.checkFailed
            | some RequestData =>
                let Next := AdmitHandle s NumAdded EasyHandle RequestData (AddResults Index)
                AdmissionLoop MaxValue AddResults Fuel (Index + 1) Next.2 Next.1
        | (true, none) => Result.checkFailed
        | (false, _) => Result.ok (s, NumAdded)
      else Result.ok (s, NumAdded)

/-- The first half of the curl section of `HttpThreadTick`: the call of
`curl_multi_perform`, which stores `RunningRequests` in its out-parameter, and the drain
loop when the number of running transfers calls for it. -/
def PerformAndDrain (s : FCurlHttpManager) (RunningRequests : Int) (Messages : List CURLMsg) :
    FCurlHttpManager :=
  let s1 := { s with Trace := s.Trace ++ [Call.curl_multi_perform] }
  if RunningRequests = 0 ∨ RunningRequests ≠ s1.NumRequestsAddedToMulti then
    DrainLoop s1 Messages
  else s1

/-- The curl section of `FCurlHttpManager::HttpThreadTick`.

* `RunningThreadedRequestsNum` is `RunningThreadedRequests.Num()`, an array of the base class
  `FHttpManager` which these sources do not maintain.
* `RunningRequests` is what `curl_multi_perform` stores in its out-parameter.
* `Messages` and `AddResults` are the answers of the multiplexer, as in `DrainLoop` and
  `AdmissionLoop`.

The call of the base class tick and the hitch log that follow do not touch the members
modelled here. -/
def HttpThreadTick (MaxValue : FDateTime) (s : FCurlHttpManager)
    (RunningThreadedRequestsNum : Nat) (RunningRequests : Int) (Messages : List CURLMsg)
    (AddResults : Nat → CURLMcode) : Result FCurlHttpManager :=
  if s.MultiHandle = 0 then Result.checkFailed
  else if RunningThreadedRequestsNum > 0 then
    match AdmissionLoop MaxValue AddResults
        (PerformAndDrain s RunningRequests Messages).HandlesToRequests.length 0 0
        (PerformAndDrain s RunningRequests Messages) with
    | Result.ok Out => Result.ok Out.1
    | Result.checkFailed => Result.checkFailed
    | Result.outOfFuel => Result.outOfFuel
  else Result.ok s

/-- Submission `FCurlHttpManager::StartThreadedRequest`; `Now` is the clock reading taken by
the `CurlEasyRequestData` constructor and `Slot` the place the map gives a new key. The
function always returns `true`. -/
def StartThreadedRequest (s : FCurlHttpManager) (Request : FCurlHttpRequest) (Now : FDateTime)
    (Slot : Nat) : FCurlHttpManager :=
  let EasyHandle := Request.GetEasyHandle
  { s with
    HandlesToRequests :=
      TMap.Add s.HandlesToRequests EasyHandle (CurlEasyRequestData.ctor Request Now) Slot
    Trace := s.Trace ++ [Call.RegistryAdd EasyHandle] }

/-- Retirement `FCurlHttpManager::CompleteThreadedRequest`. -/
def CompleteThreadedRequest (s : FCurlHttpManager) (Request : FCurlHttpRequest) :
    FCurlHttpManager :=
  let EasyHandle := Request.GetEasyHandle
  match TMap.Find s.HandlesToRequests EasyHandle with
  | some RequestData =>
      if RequestData.bAddedToMulti then
        { s with
          NumRequestsAddedToMulti := s.NumRequestsAddedToMulti - 1
          HandlesToRequests := TMap.Remove s.HandlesToRequests EasyHandle
          ActiveSet := s.ActiveSet.filter (fun h => decide (h ≠ EasyHandle))
          Trace := s.Trace ++ [Call.curl_multi_remove_handle EasyHandle,
                               Call.RegistryRemove EasyHandle] }
      else
        { s with
          HandlesToRequests := TMap.Remove s.HandlesToRequests EasyHandle
          Trace := s.Trace ++ [Call.RegistryRemove EasyHandle] }
  | none => s

/-- One call made on the manager from outside, with the answers of the environment. -/
inductive Event where
  | Start (Request : FCurlHttpRequest) (Now : FDateTime) (Slot : Nat)
  | Tick (RunningThreadedRequestsNum : Nat) (RunningRequests : Int) (Messages : List CURLMsg)
      (AddResults : Nat → CURLMcode)
  | Complete (Request : FCurlHttpRequest)

/-- The effect of one call on the manager. -/
def Step (MaxValue : FDateTime) (s : FCurlHttpManager) : Event → Result FCurlHttpManager
  | Event.Start Request Now Slot => Result.ok (StartThreadedRequest s Request Now Slot)
  | Event.Tick n RunningRequests Messages AddResults =>
      HttpThreadTick MaxValue s n RunningRequests Messages AddResults
  | Event.Complete Request => Result.ok (CompleteThreadedRequest s Request)

/-- The effect of a sequence of calls, stopping at the first fatal outcome. -/
def Run (MaxValue : FDateTime) : FCurlHttpManager → List Event → Result FCurlHttpManager
  | s, [] => Result.ok s
  | s, e :: rest =>
      match Step MaxValue s e with
      | Result.ok s1 => Run MaxValue s1 rest
      | Result.checkFailed => Result.checkFailed
      | Result.outOfFuel => Result.outOfFuel

/-- Handles offered to `curl_multi_add_handle` according to a trace, in call order. -/
def OfferedHandles (Trace : List Call) : List CURL :=
  Trace.filterMap fun c =>
    match c with
    | Call.curl_multi_add_handle Handle _ => some Handle
    | _ => none

/-- Handles the multiplexer accepted (`CURLM_OK`) according to a trace, in call order. -/
def AcceptedHandles (Trace : List Call) : List CURL :=
  Trace.filterMap fun c =>
    match c with
    | Call.curl_multi_add_handle Handle AddResult =>
        if AddResult = CURLM_OK then some Handle else none
    | _ => none

/-- The entries of a registry that have not been admitted yet (`bProcessingStarted` false). -/
def Unadmitted (m : TMap) : TMap :=
  m.filter (fun p => !p.2.bProcessingStarted)

/-! ### The process-wide context: `InitCurl` and `ShutdownCurl` -/

/-- Share handle pointer `CURLSH*`; `0` is `NULL`. -/
abbrev CURLSH := Nat

/-- The static member `CurlRequestOptions` of type `FCurlRequestOptions`; a null
`CertBundlePath` is `none`. -/
structure FCurlRequestOptions where
  bVerifyPeer : Bool
  bUseHttpProxy : Bool
  bDontReuseConnections : Bool
  HttpProxyAddress : String
  CertBundlePath : Option String
  deriving DecidableEq, Repr

/-- Modelled from the spec: the default constructor of `FCurlRequestOptions` is declared in
`CurlHttpManager.h`, which is not among the sources. The spec gives the defaults
"`verifyPeer: bool (default true, ...)`", "`reuseConnections: bool (default true)`", an
optional proxy address and a trust bundle path that is derived at `Init`. -/
def FCurlRequestOptions.ctor : FCurlRequestOptions :=
  { bVerifyPeer := true, bUseHttpProxy := false, bDontReuseConnections := false,
    HttpProxyAddress := "", CertBundlePath := none }

/-- Calls into libcurl made by `InitCurl` and `ShutdownCurl`, in order (ghost record). -/
inductive LibraryCall where
  | curl_global_init_mem (InitResult : CURLcode)
  | curl_multi_init (Handle : CURLM)
  | curl_share_init (Handle : CURLSH)
  | curl_share_setopt (Handle : CURLSH)
  | curl_multi_cleanup (Handle : CURLM)
  | curl_share_cleanup (Handle : CURLSH)
  | curl_global_cleanup
  deriving DecidableEq, Repr

/-- The static members of `FCurlHttpManager`, then the ghost record of library calls. -/
structure CurlStatics where
  GMultiHandle : CURLM
  GShareHandle : CURLSH
  CurlRequestOptions : FCurlRequestOptions
  LibraryCalls : List LibraryCall
  deriving DecidableEq, Repr

/-- The statics at process start: both handles are initialised to `NULL` (lines 9 and 10),
the options hold whatever their constructor left. -/
def CurlStatics.initial (Options : FCurlRequestOptions) : CurlStatics :=
  { GMultiHandle := 0, GShareHandle := 0, CurlRequestOptions := Options, LibraryCalls := [] }

/-- What `InitCurl` reads from outside.

* `InitResult`, `MultiInit`, `ShareInit`: the results of `curl_global_init_mem`,
  `curl_multi_init` and `curl_share_init`.
* `HttpProxy`: the value `FParse::Value` finds for `httpproxy=` on the command line, if any.
* `NoReuseConn`: whether `FParse::Param` finds `noreuseconn`.
* `PLATFORM_LINUX`, `PLATFORM_ANDROID`: the two platform macros.
* `FileExists`: the answer of `FPaths::FileExists`.
* `capath`, `WriterCreated`: on Android, the buffer `capath` after the copy of the PEM file
  name, and whether `CreateFileWriter` returned an archive. `PEMFilename` is that file name.
* `VerifyPeer`: the value `GConfig->GetBool` finds for `n.VerifyPeer`, if any (`GConfig` is
  dereferenced unchecked, so it is taken to be set). -/
structure InitEnvironment where
  InitResult : CURLcode
  MultiInit : CURLM
  ShareInit : CURLSH
  HttpProxy : Option String
  NoReuseConn : Bool
  PLATFORM_LINUX : Bool
  PLATFORM_ANDROID : Bool
  FileExists : String → Bool
  PEMFilename : String
  capath : String
  WriterCreated : Bool
  VerifyPeer : Option Bool

/-- The table `KnownBundlePaths` of `InitCurl`, without its terminating `nullptr`. -/
def KnownBundlePaths : List String :=
  ["/etc/pki/tls/certs/ca-bundle.crt", "/etc/ssl/certs/ca-certificates.crt",
   "/etc/ssl/ca-bundle.pem"]

/-- The loop over `KnownBundlePaths` in the Linux branch of `InitCurl`: the value of
`CertBundlePath` after it, `Current` being the value before. -/
def DiscoverBundle (FileExists : String → Bool) : List String → Option String → Option String
  | [], Current => Current
  | CurrentBundle :: rest, Current =>
      if FileExists CurrentBundle then some CurrentBundle
      else DiscoverBundle FileExists rest Current

/-- The command line part of `InitCurl`: `httpproxy=` and `noreuseconn`. -/
def InitCurl.commandLine (Options : FCurlRequestOptions) (env : InitEnvironment) :
    FCurlRequestOptions :=
  let o1 :=
    match env.HttpProxy with
    | some ProxyAddress =>
        if ProxyAddress ≠ "" then
          { Options with bUseHttpProxy := true, HttpProxyAddress := ProxyAddress }
        else Options
    | none => Options
  if env.NoReuseConn then { o1 with bDontReuseConnections := true } else o1

/-- The cert discovery part of `InitCurl`: the Linux branch, or else the Android branch. -/
def InitCurl.certLocation (Options : FCurlRequestOptions) (env : InitEnvironment) :
    FCurlRequestOptions :=
  if env.PLATFORM_LINUX then
    { Options with
      CertBundlePath := DiscoverBundle env.FileExists KnownBundlePaths Options.CertBundlePath }
  else if env.PLATFORM_ANDROID then
    if !env.FileExists env.PEMFilename then
      if env.WriterCreated then { Options with CertBundlePath := some env.capath }
      else Options
    else { Options with CertBundlePath := some env.capath }
  else Options

/-- The last part of `InitCurl`: "set certificate verification". -/
def InitCurl.verifyPeer (Options : FCurlRequestOptions) (env : InitEnvironment) :
    FCurlRequestOptions :=
  if Options.CertBundlePath = none then { Options with bVerifyPeer := false }
  else
    match env.VerifyPeer with
    | some bVerifyPeer => { Options with bVerifyPeer := bVerifyPeer }
    | none => Options

/-- Initialisation `FCurlHttpManager::InitCurl`. A `Fatal` log entry stops the process and is
modelled, like a failed `check`, by `Result.checkFailed`. -/
def InitCurl (g : CurlStatics) (env : InitEnvironment) : Result CurlStatics :=
  if g.GMultiHandle ≠ 0 then Result.ok g
  else if env.InitResult = 0 then
    if env.MultiInit = 0 then Result.checkFailed
    else if env.ShareInit = 0 then Result.checkFailed
    else
      Result.ok
        { GMultiHandle := env.MultiInit
          GShareHandle := env.ShareInit
          CurlRequestOptions :=
            InitCurl.verifyPeer
              (InitCurl.certLocation (InitCurl.commandLine g.CurlRequestOptions env) env) env
          LibraryCalls := g.LibraryCalls ++
            [LibraryCall.curl_global_init_mem env.InitResult,
             LibraryCall.curl_multi_init env.MultiInit,
             LibraryCall.curl_share_init env.ShareInit,
             LibraryCall.curl_share_setopt env.ShareInit,
             LibraryCall.curl_share_setopt env.ShareInit,
             LibraryCall.curl_share_setopt env.ShareInit] }
  else Result.checkFailed

/-- Teardown `FCurlHttpManager::ShutdownCurl`. -/
def ShutdownCurl (g : CurlStatics) : CurlStatics :=
  if g.GMultiHandle ≠ 0 then
    { g with
      GMultiHandle := 0
      LibraryCalls := g.LibraryCalls ++
        [LibraryCall.curl_multi_cleanup g.GMultiHandle, LibraryCall.curl_global_cleanup] }
  else { g with LibraryCalls := g.LibraryCalls ++ [LibraryCall.curl_global_cleanup] }

/-- One call on the statics, with the environment `InitCurl` meets. -/
inductive StaticsCall where
  | InitCurl (env : InitEnvironment)
  | ShutdownCurl

/-- The effect of a sequence of `InitCurl` and `ShutdownCurl` calls, stopping at the first
fatal outcome. -/
def StaticsRun : CurlStatics → List StaticsCall → Result CurlStatics
  | g, [] => Result.ok g
  | g, StaticsCall.InitCurl env :: rest =>
      match InitCurl g env with
      | Result.ok g1 => StaticsRun g1 rest
      | Result.checkFailed => Result.checkFailed
      | Result.outOfFuel => Result.outOfFuel
  | g, StaticsCall.ShutdownCurl :: rest => StaticsRun (ShutdownCurl g) rest

/-- The value `FCurlHttpManager::StartThreadedRequest` returns: its only `return` statement
is `return true`. -/
def StartThreadedRequest.Returned (_s : FCurlHttpManager) (_Request : FCurlHttpRequest) :
    Bool :=
  true

/-- Number of registry entries marked `bAddedToMulti`. -/
def InFlightCount (m : TMap) : Nat :=
  (m.filter (fun p => p.2.bAddedToMulti)).length

/-- The entry `(h, d)` is the first one, in iteration order, among the unadmitted entries
of `m` with the least timestamp, and that timestamp is below `L`. -/
def FirstMinBelow (L : FDateTime) (m : TMap) (h : CURL) (d : CurlEasyRequestData) : Prop :=
  ∃ pre post, m = pre ++ (h, d) :: post ∧ d.bProcessingStarted = false ∧ d.DateTime < L ∧
    (∀ e ∈ pre, e.2.bProcessingStarted = false → d.DateTime < e.2.DateTime) ∧
    (∀ e ∈ post, e.2.bProcessingStarted = false → d.DateTime ≤ e.2.DateTime)

/-- Reference selection, following the words of the spec for `FindOldestUnadmitted`: among
the entries with `admitted = false` take the earliest timestamp, and of the entries that
carry it the first one; none when there is no unadmitted entry. -/
def FindOldestUnadmitted (m : TMap) : Option CURL :=
  match ((Unadmitted m).map (fun e => e.2.DateTime)).min? with
  | none => none
  | some t => ((Unadmitted m).find? (fun e => decide (e.2.DateTime = t))).map Prod.fst

/-- The entries whose timestamp is strictly below `FDateTime::MaxValue()`. -/
def BelowMaxValue (MaxValue : FDateTime) (m : TMap) : TMap :=
  m.filter (fun e => decide (e.2.DateTime < MaxValue))

/-- Keys of a registry, in iteration order. -/
def TMap.Keys (m : TMap) : List CURL := m.map Prod.fst

/-- The entries `FindNextEasyHandle` can select: unadmitted, timestamp below the sentinel. -/
def Eligible (MaxValue : FDateTime) (m : TMap) : TMap :=
  m.filter (fun e => !e.2.bProcessingStarted && decide (e.2.DateTime < MaxValue))

/-- What every call on a constructed manager relies on: the multi handle is set and the
registry has one entry per key. -/
def WellFormed (s : FCurlHttpManager) : Prop :=
  s.MultiHandle ≠ 0 ∧ (TMap.Keys s.HandlesToRequests).Nodup

/-- The in-flight counter respects the configured cap `Simultaneous`. -/
def WithinCap (Simultaneous : Int) (s : FCurlHttpManager) : Prop :=
  s.MaxSimultaneousRequests = Simultaneous ∧
    s.NumRequestsAddedToMulti ≤ s.MaxSimultaneousRequests

/-- The registry invariant `inFlight ⇒ admitted`. -/
def InFlightImpliesAdmitted (s : FCurlHttpManager) : Prop :=
  ∀ e ∈ s.HandlesToRequests, e.2.bAddedToMulti = true → e.2.bProcessingStarted = true

/-- Handles the multiplexer refused (any code but `CURLM_OK`) according to a trace. -/
def RejectedHandles (Trace : List Call) : List CURL :=
  Trace.filterMap fun c =>
    match c with
    | Call.curl_multi_add_handle Handle AddResult =>
        if AddResult = CURLM_OK then none else some Handle
    | _ => none

/-- Completion notifications `MarkAsCompleted` recorded in a trace: request and result code,
in call order. -/
def Completions (Trace : List Call) : List (FCurlHttpRequest × CURLcode) :=
  Trace.filterMap fun c =>
    match c with
    | Call.MarkAsCompleted Request Code => some (Request, Code)
    | _ => none

/-- Handles of the `CURLMSG_DONE` messages read from the multiplexer according to a trace. -/
def ReportedDone (Trace : List Call) : List CURL :=
  Trace.filterMap fun c =>
    match c with
    | Call.curl_multi_info_read Message =>
        if Message.msg = CURLMSG.DONE then some Message.easy_handle else none
    | _ => none

/-- Bookkeeping of the admission loop between its entry state `s0` with `NumAdded = n0` and
a later state `t` with `NumAdded = n`, in terms of the calls made in between. -/
def LoopLedger (AddResults : Nat → CURLMcode) (s0 : FCurlHttpManager) (n0 : Int)
    (t : FCurlHttpManager) (n : Int) : Prop :=
  ∃ T, t.Trace = s0.Trace ++ T ∧
    n = n0 + ((AcceptedHandles T).length : Int) ∧
    t.NumRequestsAddedToMulti = s0.NumRequestsAddedToMulti + ((AcceptedHandles T).length : Int) ∧
    (OfferedHandles T).length = (AcceptedHandles T).length + (RejectedHandles T).length ∧
    ((∀ j, AddResults j = CURLM_OK) → OfferedHandles T = AcceptedHandles T) ∧
    t.MaxRequestsAddedPerFrame = s0.MaxRequestsAddedPerFrame ∧
    (0 < s0.MaxRequestsAddedPerFrame → n0 ≤ s0.MaxRequestsAddedPerFrame →
      n ≤ s0.MaxRequestsAddedPerFrame) ∧
    (s0.MaxRequestsAddedPerFrame < 0 → 0 ≤ n0 → T = []) ∧
    Completions T = [] ∧ ReportedDone T = []

/-- The part of the state that the drain leaves alone, relative to a state `s0`: members
set by the constructor, and no call of `curl_multi_add_handle` since `s0`. -/
def DrainFrame (s0 t : FCurlHttpManager) : Prop :=
  t.MultiHandle = s0.MultiHandle ∧
  t.MaxSimultaneousRequests = s0.MaxSimultaneousRequests ∧
  t.MaxRequestsAddedPerFrame = s0.MaxRequestsAddedPerFrame ∧
  ∃ T, t.Trace = s0.Trace ++ T ∧ OfferedHandles T = []

/-- The unadmitted entries of a registry as pairs of handle and submission timestamp, in
iteration order. -/
def PendingStamps (m : TMap) : List (CURL × FDateTime) :=
  (Unadmitted m).map (fun e => (e.1, e.2.DateTime))

/-- Progress of the admission loop with both caps at zero, relative to its entry state:
`done` lists the handles offered so far with their timestamps. -/
def FifoProgress (s0 t : FCurlHttpManager) : Prop :=
  t.MaxSimultaneousRequests = 0 ∧ t.MaxRequestsAddedPerFrame = 0 ∧
  ((PendingStamps t.HandlesToRequests).map Prod.snd).Nodup ∧
  ∃ T done, t.Trace = s0.Trace ++ T ∧ OfferedHandles T = done.map Prod.fst ∧
    List.Sorted (fun a b : CURL × FDateTime => a.2 < b.2) done ∧
    (done ++ PendingStamps t.HandlesToRequests).Perm (PendingStamps s0.HandlesToRequests) ∧
    ∀ a ∈ done, ∀ b ∈ PendingStamps t.HandlesToRequests, a.2 < b.2

/-- The write of the drain body on the entry of the completed handle. -/
def ClearAdded (d : CurlEasyRequestData) : CurlEasyRequestData :=
  { d with bAddedToMulti := false }

/-- The write of the admission body on the entry of the selected handle. -/
def MarkStarted (AddResult : CURLMcode) (d : CurlEasyRequestData) : CurlEasyRequestData :=
  if AddResult = CURLM_OK then { d with bProcessingStarted := true, bAddedToMulti := true }
  else { d with bProcessingStarted := true }

/-- Every call of the sequence satisfies the side condition `V` in the state it is made
in. -/
def Guarded (MaxValue : FDateTime) (V : FCurlHttpManager → Event → Prop) :
    FCurlHttpManager → List Event → Prop
  | _, [] => True
  | s, e :: rest =>
      V s e ∧
      match Step MaxValue s e with
      | Result.ok s1 => Guarded MaxValue V s1 rest
      | Result.checkFailed => True
      | Result.outOfFuel => True

/-- The messages of one drain are completions of handles the multiplexer holds: each `DONE`
message names a handle of the active set, which the drain then removes from it. -/
def ReportsValid : List CURL → List CURLMsg → Prop
  | _, [] => True
  | Active, Message :: rest =>
      if Message.msg = CURLMSG.DONE then
        Message.easy_handle ∈ Active ∧
          ReportsValid (Active.filter (fun h => decide (h ≠ Message.easy_handle))) rest
      else ReportsValid Active rest

/-- Every registry entry is stored under the easy handle of its own request. -/
def OwnsKey (s : FCurlHttpManager) : Prop :=
  ∀ k d, TMap.Find s.HandlesToRequests k = some d → d.Request.EasyHandle = k

/-- The entry invariant `inFlight ⇒ admitted`, read through the lookup. -/
def AddedIsStarted (s : FCurlHttpManager) : Prop :=
  ∀ k d, TMap.Find s.HandlesToRequests k = some d → d.bAddedToMulti = true →
    d.bProcessingStarted = true

/-- The two entry invariants of a running manager. -/
def Sound (s : FCurlHttpManager) : Prop :=
  OwnsKey s ∧ AddedIsStarted s

/-- Bookkeeping of the drain relative to a state `s0`: no add since `s0`, and the counter
has gone down by one per `DONE` message read. -/
def DrainLedger (s0 t : FCurlHttpManager) : Prop :=
  ∃ T, t.Trace = s0.Trace ++ T ∧ OfferedHandles T = [] ∧
    t.NumRequestsAddedToMulti = s0.NumRequestsAddedToMulti - ((ReportedDone T).length : Int)

/-- What the admission loop has done with the handles it offered since its entry state
`s0`: each was offered once and is marked `bProcessingStarted`, and each rejected one is
not `bAddedToMulti` and its request was told the failing code. -/
def LoopRejections (s0 t : FCurlHttpManager) : Prop :=
  ∃ T, t.Trace = s0.Trace ++ T ∧ (OfferedHandles T).Nodup ∧
    (∀ h ∈ OfferedHandles T, ∃ d, TMap.Find t.HandlesToRequests h = some d ∧
      d.bProcessingStarted = true) ∧
    ∀ h r, Call.curl_multi_add_handle h r ∈ T → r ≠ CURLM_OK →
      ∃ d, TMap.Find t.HandlesToRequests h = some d ∧ d.bProcessingStarted = true ∧
        d.bAddedToMulti = false ∧ Call.SetAddToCurlMultiResult d.Request r ∈ T

/-- The handle `h` has no pending entry in `t`, and no add of `h` was made since `s1`. -/
def NeverOffered (h : CURL) (s1 t : FCurlHttpManager) : Prop :=
  (∀ d, TMap.Find t.HandlesToRequests h = some d → d.bProcessingStarted = true) ∧
    ∃ T, t.Trace = s1.Trace ++ T ∧ h ∉ OfferedHandles T

/-- The side condition "this call is not a submission of the handle `h`". -/
def NotStartOf (h : CURL) : Event → Prop
  | Event.Start Request _ _ => Request.EasyHandle ≠ h
  | _ => True

/-- Handle and result code of the `CURLMSG_DONE` messages read from the multiplexer
according to a trace, in call order. -/
def ReportedResults (Trace : List Call) : List (CURL × CURLcode) :=
  Trace.filterMap fun c =>
    match c with
    | Call.curl_multi_info_read Message =>
        if Message.msg = CURLMSG.DONE then some (Message.easy_handle, Message.result) else none
    | _ => none

/-- Easy handle of the notified request and result code of the `MarkAsCompleted` calls
recorded in a trace, in call order. -/
def NotifiedResults (Trace : List Call) : List (CURL × CURLcode) :=
  Trace.filterMap fun c =>
    match c with
    | Call.MarkAsCompleted Request Code => some (Request.EasyHandle, Code)
    | _ => none

/-- Handles registered by `StartThreadedRequest` according to a trace. -/
def RegisteredHandles (Trace : List Call) : List CURL :=
  Trace.filterMap fun c =>
    match c with
    | Call.RegistryAdd Handle => some Handle
    | _ => none

/-- Handles whose entry `CompleteThreadedRequest` removed according to a trace. -/
def RetiredHandles (Trace : List Call) : List CURL :=
  Trace.filterMap fun c =>
    match c with
    | Call.RegistryRemove Handle => some Handle
    | _ => none

/-- The side condition of a call for the accounting of completions: a submission is for a
handle that is not registered, and the messages of a tick are valid reports. -/
def ValidCall (s : FCurlHttpManager) : Event → Prop
  | Event.Start Request _ _ => TMap.Find s.HandlesToRequests Request.EasyHandle = none
  | Event.Tick _ _ Messages _ => ReportsValid s.ActiveSet Messages
  | Event.Complete _ => True

/-- The multiplexer holds exactly the handles whose entry is marked `bAddedToMulti`. -/
def ActiveMatches (s : FCurlHttpManager) : Prop :=
  ∀ h, h ∈ s.ActiveSet ↔
    ∃ d, TMap.Find s.HandlesToRequests h = some d ∧ d.bAddedToMulti = true

/-- The accounting of completions and retirements in a state, over its whole trace. -/
def Accounts (s : FCurlHttpManager) : Prop :=
  Sound s ∧ ActiveMatches s ∧
  NotifiedResults s.Trace = ReportedResults s.Trace ∧
  (∀ h, ((ReportedResults s.Trace).map Prod.fst).count h +
      (if h ∈ s.ActiveSet then 1 else 0) ≤ (AcceptedHandles s.Trace).count h) ∧
  (∀ h, (RegisteredHandles s.Trace).count h =
      (RetiredHandles s.Trace).count h +
        (if (TMap.Find s.HandlesToRequests h).isSome then 1 else 0))

/-- Handle and result code of the `CURLMSG_DONE` messages among the messages the multiplexer
hands out in one drain, in order. -/
def DoneResults (Messages : List CURLMsg) : List (CURL × CURLcode) :=
  Messages.filterMap fun Message =>
    if Message.msg = CURLMSG.DONE then some (Message.easy_handle, Message.result) else none

/-- For the `CURLMSG_DONE` messages of one drain, in order: the request that owns the
reported handle in the registry `m` (when the handle has an entry) and the reported code. -/
def OwnerNotices (m : TMap) (Messages : List CURLMsg) : List (FCurlHttpRequest × CURLcode) :=
  Messages.filterMap fun Message =>
    if Message.msg = CURLMSG.DONE then
      (TMap.Find m Message.easy_handle).map fun d => (d.Request, Message.result)
    else none

/-- The counter invariant: `NumRequestsAddedToMulti` is the number of registry entries marked
`bAddedToMulti`. -/
def CounterMatches (s : FCurlHttpManager) : Prop :=
  s.NumRequestsAddedToMulti = (InFlightCount s.HandlesToRequests : Int)

/-- The accounting invariant together with the counter invariant. -/
def Consistent (s : FCurlHttpManager) : Prop :=
  Accounts s ∧ CounterMatches s

/-- While the multiplexer exists, a null `CertBundlePath` goes with `bVerifyPeer` off. -/
def VerifyForced (g : CurlStatics) : Prop :=
  g.GMultiHandle ≠ 0 → g.CurlRequestOptions.CertBundlePath = none →
    g.CurlRequestOptions.bVerifyPeer = false

/-- The answers `curl_multi_add_handle` gave according to a trace, in call order. -/
def AddAnswers (Trace : List Call) : List CURLMcode :=
  Trace.filterMap fun c =>
    match c with
    | Call.curl_multi_add_handle _ AddResult => some AddResult
    | _ => none

/-- What the admission loop has offered since its entry state `s0`, where it started with
`Index = 0`: the `i` adds made so far carry the answers `AddResults 0, ..., AddResults (i-1)`
in this order, and the handles offered are exactly the entries that are no longer
unadmitted. -/
def LoopOffers (AddResults : Nat → CURLMcode) (s0 t : FCurlHttpManager) (i : Nat) : Prop :=
  ∃ T es, t.Trace = s0.Trace ++ T ∧ i = (OfferedHandles T).length ∧
    AddAnswers T = (List.range i).map AddResults ∧
    OfferedHandles T = es.map Prod.fst ∧
    (es ++ PendingStamps t.HandlesToRequests).Perm (PendingStamps s0.HandlesToRequests)

/-! ## Theorems -/

theorem foldl_visit (m : TMap) : ∀ (L : FDateTime) (o : Option CURL),
    ((∀ e ∈ m, e.2.bProcessingStarted = false → L ≤ e.2.DateTime) ∧
        m.foldl FindNextEasyHandle.visit (L, o) = (L, o)) ∨
    ∃ h d, FirstMinBelow L m h d ∧
        m.foldl FindNextEasyHandle.visit (L, o) = (d.DateTime, some h) := by
  induction m with
  | nil => intro L o; left; simp
  | cons e rest ih =>
    intro L o
    obtain ⟨k, v⟩ := e
    by_cases hsel : v.bProcessingStarted = false ∧ v.DateTime < L
    · obtain ⟨hs, hlt⟩ := hsel
      have hv : FindNextEasyHandle.visit (L, o) (k, v) = (v.DateTime, some k) := by
        simp [FindNextEasyHandle.visit, hs, hlt]
      rw [List.foldl_cons, hv]
      right
      rcases ih v.DateTime (some k) with ⟨hall, heq⟩ | ⟨h, d, ⟨pre, post, hm, hds, hdl, hpre, hpost⟩, heq⟩
      · exact ⟨k, v, ⟨[], rest, rfl, hs, hlt, by simp, hall⟩, heq⟩
      · refine ⟨h, d, ⟨(k, v) :: pre, post, by simp [hm], hds, lt_trans hdl hlt, ?_, hpost⟩, heq⟩
        intro e he hes
        rcases List.mem_cons.1 he with rfl | he
        · exact hdl
        · exact hpre e he hes
    · have hv : FindNextEasyHandle.visit (L, o) (k, v) = (L, o) := by
        unfold FindNextEasyHandle.visit
        by_cases hs : v.bProcessingStarted = false
        · have : ¬ v.DateTime < L := fun h => hsel ⟨hs, h⟩
          simp [hs, this]
        · simp at hs; simp [hs]
      rw [List.foldl_cons, hv]
      have hk : v.bProcessingStarted = false → L ≤ v.DateTime := fun hs =>
        Nat.le_of_not_lt fun h => hsel ⟨hs, h⟩
      rcases ih L o with ⟨hall, heq⟩ | ⟨h, d, ⟨pre, post, hm, hds, hdl, hpre, hpost⟩, heq⟩
      · left
        refine ⟨?_, heq⟩
        intro e he hes
        rcases List.mem_cons.1 he with rfl | he
        · exact hk hes
        · exact hall e he hes
      · right
        refine ⟨h, d, ⟨(k, v) :: pre, post, by simp [hm], hds, hdl, ?_, hpost⟩, heq⟩
        intro e he hes
        rcases List.mem_cons.1 he with rfl | he
        · exact lt_of_lt_of_le hdl (hk hes)
        · exact hpre e he hes

/-- What `FindNextEasyHandle` returns: either nothing is eligible and the answer is
`(false, none)`, or the answer is `(true, some h)` for the first least eligible entry. -/
theorem FindNextEasyHandle_cases (MaxValue : FDateTime) (m : TMap) :
    ((∀ e ∈ m, e.2.bProcessingStarted = false → MaxValue ≤ e.2.DateTime) ∧
        FindNextEasyHandle MaxValue m = (false, none)) ∨
    ∃ h d, FirstMinBelow MaxValue m h d ∧ FindNextEasyHandle MaxValue m = (true, some h) := by
  rcases foldl_visit m MaxValue none with ⟨hall, heq⟩ | ⟨h, d, hf, heq⟩
  · left
    refine ⟨hall, ?_⟩
    simp [FindNextEasyHandle, FindNextEasyHandle.scan, heq]
  · right
    refine ⟨h, d, hf, ?_⟩
    obtain ⟨pre, post, hm, hds, hdl, hpre, hpost⟩ := hf
    simp [FindNextEasyHandle, FindNextEasyHandle.scan, heq]
    exact Nat.ne_of_lt hdl

theorem FindOldestUnadmitted_of_FirstMinBelow {L : FDateTime} {m : TMap} {h : CURL}
    {d : CurlEasyRequestData} (hf : FirstMinBelow L m h d) :
    FindOldestUnadmitted m = some h := by
  obtain ⟨pre, post, hm, hds, _, hpre, hpost⟩ := hf
  have hU : Unadmitted m = Unadmitted pre ++ (h, d) :: Unadmitted post := by
    simp [Unadmitted, hm, List.filter_cons, hds]
  have hmin : ((Unadmitted m).map (fun e => e.2.DateTime)).min? = some d.DateTime := by
    rw [List.min?_eq_some_iff']
    constructor
    · rw [hU]; simp
    · intro b hb
      rw [hU] at hb
      simp only [List.map_append, List.map_cons, List.mem_append, List.mem_cons,
        List.mem_map] at hb
      rcases hb with ⟨e, he, rfl⟩ | rfl | ⟨e, he, rfl⟩
      · simp only [Unadmitted, List.mem_filter] at he
        exact Nat.le_of_lt (hpre e he.1 (by simpa using he.2))
      · exact Nat.le_refl _
      · simp only [Unadmitted, List.mem_filter] at he
        exact hpost e he.1 (by simpa using he.2)
  have hnone : (Unadmitted pre).find? (fun e => decide (e.2.DateTime = d.DateTime)) = none := by
    rw [List.find?_eq_none]
    intro e he
    simp only [Unadmitted, List.mem_filter] at he
    have := hpre e he.1 (by simpa using he.2)
    simp only [decide_eq_true_eq]
    exact Nat.ne_of_gt this
  unfold FindOldestUnadmitted
  rw [hmin]
  simp only
  rw [hU, List.find?_append, hnone]
  simp

theorem FindOldestUnadmitted_none {m : TMap} (hm : ∀ e ∈ m, e.2.bProcessingStarted = true) :
    FindOldestUnadmitted m = none := by
  have hU : Unadmitted m = [] := by
    simp only [Unadmitted, List.filter_eq_nil_iff]
    intro e he
    simp [hm e he]
  simp [FindOldestUnadmitted, hU]

theorem FirstMinBelow_filter {MaxValue : FDateTime} {m : TMap} {h : CURL}
    {d : CurlEasyRequestData} (hf : FirstMinBelow MaxValue m h d) :
    FirstMinBelow MaxValue (BelowMaxValue MaxValue m) h d := by
  obtain ⟨pre, post, hm, hds, hdl, hpre, hpost⟩ := hf
  refine ⟨BelowMaxValue MaxValue pre, BelowMaxValue MaxValue post, ?_, hds, hdl, ?_, ?_⟩
  · simp [BelowMaxValue, hm, List.filter_cons, hdl]
  · intro e he
    exact hpre e (List.mem_filter.1 he).1
  · intro e he
    exact hpost e (List.mem_filter.1 he).1

/-- C4 (amended): `FindNextEasyHandle` is the reference selection `FindOldestUnadmitted`
applied to the entries whose `DateTime` is below `FDateTime::MaxValue()`: it returns true
with the key of the first entry, in the iteration order of the map, among the unadmitted
entries of least `DateTime`, and it returns false (writing nothing) exactly when every
unadmitted entry carries the sentinel timestamp or a later one, in particular when there is
no unadmitted entry. -/
theorem FindNextEasyHandle_reference (MaxValue : FDateTime) (m : TMap) :
    FindNextEasyHandle MaxValue m =
        ((FindOldestUnadmitted (BelowMaxValue MaxValue m)).isSome,
          FindOldestUnadmitted (BelowMaxValue MaxValue m)) ∧
      ((FindNextEasyHandle MaxValue m).1 = false ↔
        ∀ e ∈ m, e.2.bProcessingStarted = false → MaxValue ≤ e.2.DateTime) := by
  rcases FindNextEasyHandle_cases MaxValue m with ⟨hall, heq⟩ | ⟨h, d, hf, heq⟩
  · have hnone : FindOldestUnadmitted (BelowMaxValue MaxValue m) = none := by
      apply FindOldestUnadmitted_none
      intro e he
      simp only [BelowMaxValue, List.mem_filter, decide_eq_true_eq] at he
      by_contra hs
      have := hall e he.1 (by simpa using hs)
      exact absurd he.2 (Nat.not_lt.2 this)
    rw [heq, hnone]
    simpa using hall
  · rw [heq, FindOldestUnadmitted_of_FirstMinBelow (FirstMinBelow_filter hf)]
    obtain ⟨pre, post, hm, hds, hdl, _, _⟩ := hf
    simp only [Option.isSome_some, true_and]
    constructor
    · intro hc; cases hc
    · intro hall
      have := hall (h, d) (by simp [hm]) hds
      exact absurd hdl (Nat.not_lt.2 this)

/-- C4 as stated fails, in two ways. A registry whose only entry is unadmitted and carries
the timestamp `FDateTime::MaxValue()` has an entry with `bProcessingStarted == false`, and
`FindNextEasyHandle` returns false on it. And when request 3 is submitted after request 2,
at the same time 10, and the map iterates the new key first (it takes the place that the
retired request 1 left free), `FindNextEasyHandle` selects handle 3, not the handle 2 that
was inserted first. -/
theorem FindNextEasyHandle_counterexample :
    ((∃ e ∈ [((1 : CURL), (⟨3155378975999999999, false, false, ⟨1, 1⟩⟩ : CurlEasyRequestData))],
        e.2.bProcessingStarted = false) ∧
      FindNextEasyHandle 3155378975999999999
        [(1, ⟨3155378975999999999, false, false, ⟨1, 1⟩⟩)] = (false, none)) ∧
    (∃ s0 s1 s2, FCurlHttpManager.ctor 1 none none = Result.ok s0 ∧
      Run 1000 s0 [Event.Start ⟨1, 1⟩ 5 0, Event.Start ⟨2, 2⟩ 10 1, Event.Complete ⟨1, 1⟩]
        = Result.ok s1 ∧
      s1.HandlesToRequests = [(2, ⟨10, false, false, ⟨2, 2⟩⟩)] ∧
      Run 1000 s1 [Event.Start ⟨3, 3⟩ 10 0] = Result.ok s2 ∧
      s2.HandlesToRequests =
        [(3, ⟨10, false, false, ⟨3, 3⟩⟩), (2, ⟨10, false, false, ⟨2, 2⟩⟩)] ∧
      FindNextEasyHandle 1000 s2.HandlesToRequests = (true, some 3)) :=
  ⟨⟨⟨_, List.mem_singleton.2 rfl, rfl⟩, by decide⟩,
   ⟨_, _, _, rfl, rfl, by decide, rfl, by decide, by decide⟩⟩

theorem TMap.Find_mem {m : TMap} {k : CURL} {d : CurlEasyRequestData}
    (h : TMap.Find m k = some d) : (k, d) ∈ m := by
  induction m with
  | nil => simp [TMap.Find] at h
  | cons p rest ih =>
    obtain ⟨k0, v0⟩ := p
    by_cases hk : k0 = k
    · subst hk
      simp [TMap.Find] at h
      subst h
      simp
    · simp [TMap.Find, hk] at h
      exact List.mem_cons_of_mem _ (ih h)

theorem TMap.Find_none_iff {m : TMap} {k : CURL} :
    TMap.Find m k = none ↔ k ∉ TMap.Keys m := by
  induction m with
  | nil => simp [TMap.Find, TMap.Keys]
  | cons p rest ih =>
    obtain ⟨k0, v0⟩ := p
    by_cases hk : k0 = k
    · subst hk; simp [TMap.Find, TMap.Keys]
    · have hk2 : ¬ k = k0 := fun h => hk h.symm
      simp [TMap.Find, hk, TMap.Keys, hk2]
      simpa [TMap.Keys] using ih

theorem TMap.Find_of_mem {m : TMap} {k : CURL} {d : CurlEasyRequestData}
    (hnd : (TMap.Keys m).Nodup) (h : (k, d) ∈ m) : TMap.Find m k = some d := by
  induction m with
  | nil => simp at h
  | cons p rest ih =>
    obtain ⟨k0, v0⟩ := p
    simp only [TMap.Keys, List.map_cons, List.nodup_cons] at hnd
    rcases List.mem_cons.1 h with heq | hmem
    · cases heq
      simp [TMap.Find]
    · have hk : k0 ≠ k := by
        rintro rfl
        exact hnd.1 (List.mem_map.2 ⟨(k0, d), hmem, rfl⟩)
      simp only [TMap.Find, hk, if_false]
      exact ih hnd.2 hmem

theorem TMap.Keys_Update (m : TMap) (k : CURL) (f : CurlEasyRequestData → CurlEasyRequestData) :
    TMap.Keys (TMap.Update m k f) = TMap.Keys m := by
  induction m with
  | nil => rfl
  | cons p rest ih =>
    obtain ⟨k0, v0⟩ := p
    by_cases hk : k0 = k
    · simp [TMap.Update, hk, TMap.Keys]
    · simp only [TMap.Update, hk, if_false, TMap.Keys, List.map_cons]
      rw [show List.map Prod.fst (TMap.Update rest k f) = List.map Prod.fst rest from ih]

theorem TMap.length_Update (m : TMap) (k : CURL)
    (f : CurlEasyRequestData → CurlEasyRequestData) :
    (TMap.Update m k f).length = m.length := by
  have := congrArg List.length (TMap.Keys_Update m k f)
  simpa [TMap.Keys] using this

theorem TMap.mem_Update {m : TMap} {k : CURL} {f : CurlEasyRequestData → CurlEasyRequestData}
    {p : CURL × CurlEasyRequestData} (h : p ∈ TMap.Update m k f) :
    p ∈ m ∨ ∃ d, (k, d) ∈ m ∧ p = (k, f d) := by
  induction m with
  | nil => simp [TMap.Update] at h
  | cons q rest ih =>
    obtain ⟨k0, v0⟩ := q
    by_cases hk : k0 = k
    · subst hk
      simp only [TMap.Update, if_true] at h
      rcases List.mem_cons.1 h with rfl | hmem
      · exact Or.inr ⟨v0, by simp, rfl⟩
      · exact Or.inl (List.mem_cons_of_mem _ hmem)
    · simp only [TMap.Update, hk, if_false] at h
      rcases List.mem_cons.1 h with rfl | hmem
      · exact Or.inl (by simp)
      · rcases ih hmem with h1 | ⟨d, hd, rfl⟩
        · exact Or.inl (List.mem_cons_of_mem _ h1)
        · exact Or.inr ⟨d, List.mem_cons_of_mem _ hd, rfl⟩

theorem TMap.Find_Update (m : TMap) (k k1 : CURL)
    (f : CurlEasyRequestData → CurlEasyRequestData) :
    TMap.Find (TMap.Update m k f) k1 =
      if k1 = k then (TMap.Find m k).map f else TMap.Find m k1 := by
  induction m with
  | nil => simp [TMap.Update, TMap.Find]
  | cons q rest ih =>
    obtain ⟨k0, v0⟩ := q
    by_cases hk : k0 = k
    · subst hk
      by_cases hk1 : k1 = k0
      · subst hk1; simp [TMap.Update, TMap.Find]
      · have : ¬ k0 = k1 := fun h => hk1 h.symm
        simp [TMap.Update, TMap.Find, hk1, this]
    · by_cases hk1 : k1 = k
      · subst hk1
        simp [TMap.Update, TMap.Find, hk, ih]
      · by_cases hk01 : k0 = k1
        · simp [TMap.Update, TMap.Find, hk, hk1, hk01]
        · simp [TMap.Update, TMap.Find, hk, hk1, hk01, ih]

theorem TMap.mem_InsertAt {m : TMap} {Slot : Nat} {p q : CURL × CurlEasyRequestData} :
    q ∈ TMap.InsertAt m Slot p ↔ q = p ∨ q ∈ m := by
  induction m generalizing Slot with
  | nil => simp [TMap.InsertAt]
  | cons a rest ih =>
    cases Slot with
    | zero => simp [TMap.InsertAt]
    | succ n =>
      simp only [TMap.InsertAt, List.mem_cons, ih]
      tauto

theorem TMap.InsertAt_perm (m : TMap) (Slot : Nat) (p : CURL × CurlEasyRequestData) :
    (TMap.InsertAt m Slot p).Perm (p :: m) := by
  induction m generalizing Slot with
  | nil => simp [TMap.InsertAt]
  | cons a rest ih =>
    cases Slot with
    | zero => simp [TMap.InsertAt]
    | succ n =>
      simp only [TMap.InsertAt]
      exact ((ih n).cons a).trans (List.Perm.swap p a rest)

theorem TMap.Find_InsertAt {m : TMap} {Slot : Nat} {k : CURL} {v : CurlEasyRequestData}
    (hk : TMap.Find m k = none) (k1 : CURL) :
    TMap.Find (TMap.InsertAt m Slot (k, v)) k1 = if k1 = k then some v else TMap.Find m k1 := by
  induction m generalizing Slot with
  | nil =>
    by_cases h : k = k1
    · subst h; simp [TMap.InsertAt, TMap.Find]
    · have : ¬ k1 = k := fun e => h e.symm
      simp [TMap.InsertAt, TMap.Find, h, this]
  | cons a rest ih =>
    obtain ⟨k0, v0⟩ := a
    have hk0 : k0 ≠ k := by
      intro e; subst e; simp [TMap.Find] at hk
    have hrest : TMap.Find rest k = none := by
      simpa [TMap.Find, hk0] using hk
    cases Slot with
    | zero =>
      by_cases h : k = k1
      · subst h; simp [TMap.InsertAt, TMap.Find]
      · have : ¬ k1 = k := fun e => h e.symm
        simp [TMap.InsertAt, TMap.Find, h, this]
    | succ n =>
      by_cases h01 : k0 = k1
      · subst h01
        simp [TMap.InsertAt, TMap.Find, hk0]
      · simp [TMap.InsertAt, TMap.Find, h01, ih hrest]

theorem TMap.Find_Add (m : TMap) (k : CURL) (v : CurlEasyRequestData) (Slot : Nat) (k1 : CURL) :
    TMap.Find (TMap.Add m k v Slot) k1 = if k1 = k then some v else TMap.Find m k1 := by
  unfold TMap.Add TMap.Contains
  cases hf : TMap.Find m k with
  | none => simpa using TMap.Find_InsertAt hf k1
  | some d =>
    simp only [Option.isSome_some, if_true]
    rw [TMap.Find_Update, hf]
    simp

theorem TMap.mem_Add {m : TMap} {k : CURL} {v : CurlEasyRequestData} {Slot : Nat}
    {p : CURL × CurlEasyRequestData} (h : p ∈ TMap.Add m k v Slot) : p = (k, v) ∨ p ∈ m := by
  unfold TMap.Add at h
  by_cases hc : TMap.Contains m k = true
  · simp only [hc, if_true] at h
    rcases TMap.mem_Update h with h1 | ⟨d, _, rfl⟩
    · exact Or.inr h1
    · exact Or.inl rfl
  · simp only [hc] at h
    exact TMap.mem_InsertAt.1 h

theorem TMap.Keys_Add_nodup {m : TMap} (hnd : (TMap.Keys m).Nodup) (k : CURL)
    (v : CurlEasyRequestData) (Slot : Nat) : (TMap.Keys (TMap.Add m k v Slot)).Nodup := by
  unfold TMap.Add TMap.Contains
  cases hf : TMap.Find m k with
  | none =>
    simp only [Option.isSome_none]
    have hp := (TMap.InsertAt_perm m Slot (k, v)).map Prod.fst
    have : (List.map Prod.fst ((k, v) :: m)).Nodup := by
      simp only [List.map_cons, List.nodup_cons]
      exact ⟨TMap.Find_none_iff.1 hf, hnd⟩
    exact hp.nodup_iff.2 this
  | some d =>
    simp only [Option.isSome_some, if_true]
    rw [TMap.Keys_Update]; exact hnd

theorem TMap.Keys_Remove_nodup {m : TMap} (hnd : (TMap.Keys m).Nodup) (k : CURL) :
    (TMap.Keys (TMap.Remove m k)).Nodup := by
  unfold TMap.Remove TMap.Keys
  exact List.Nodup.sublist (List.Sublist.map _ (List.filter_sublist m)) hnd

theorem TMap.Find_Remove (m : TMap) (k k1 : CURL) :
    TMap.Find (TMap.Remove m k) k1 = if k1 = k then none else TMap.Find m k1 := by
  induction m with
  | nil => simp [TMap.Remove, TMap.Find]
  | cons q rest ih =>
    obtain ⟨k0, v0⟩ := q
    unfold TMap.Remove at ih ⊢
    by_cases hk : k0 = k
    · subst hk
      by_cases hk1 : k1 = k0
      · simp [List.filter_cons, hk1] at ih ⊢
        simpa [hk1] using ih
      · have : ¬ k0 = k1 := fun h => hk1 h.symm
        simp [List.filter_cons, hk1, TMap.Find, this] at ih ⊢
        exact ih
    · by_cases hk01 : k0 = k1
      · subst hk01
        simp [List.filter_cons, hk, TMap.Find]
      · simp [List.filter_cons, hk, TMap.Find, hk01]
        simpa using ih

theorem TMap.mem_Remove {m : TMap} {k : CURL} {p : CURL × CurlEasyRequestData}
    (h : p ∈ TMap.Remove m k) : p ∈ m ∧ p.1 ≠ k := by
  simpa [TMap.Remove] using h

theorem FirstMinBelow.mem {L : FDateTime} {m : TMap} {h : CURL} {d : CurlEasyRequestData}
    (hf : FirstMinBelow L m h d) : (h, d) ∈ m := by
  obtain ⟨pre, post, hm, _⟩ := hf
  simp [hm]

theorem FirstMinBelow.started {L : FDateTime} {m : TMap} {h : CURL} {d : CurlEasyRequestData}
    (hf : FirstMinBelow L m h d) : d.bProcessingStarted = false := by
  obtain ⟨pre, post, _, hs, _⟩ := hf
  exact hs

theorem FirstMinBelow.below {L : FDateTime} {m : TMap} {h : CURL} {d : CurlEasyRequestData}
    (hf : FirstMinBelow L m h d) : d.DateTime < L := by
  obtain ⟨pre, post, _, _, hl, _⟩ := hf
  exact hl

theorem FirstMinBelow.least {L : FDateTime} {m : TMap} {h : CURL} {d : CurlEasyRequestData}
    (hf : FirstMinBelow L m h d) {e : CURL × CurlEasyRequestData} (he : e ∈ m)
    (hs : e.2.bProcessingStarted = false) : d.DateTime ≤ e.2.DateTime := by
  obtain ⟨pre, post, hm, _, _, hpre, hpost⟩ := hf
  subst hm
  rcases List.mem_append.1 he with h1 | h1
  · exact Nat.le_of_lt (hpre e h1 hs)
  · rcases List.mem_cons.1 h1 with rfl | h2
    · exact Nat.le_refl _
    · exact hpost e h2 hs

/-- The three possible answers of `FindNextEasyHandle`, with the entry found by the lookup
that follows in the admission loop (keys are unique in a map). -/
theorem FindNextEasyHandle_select (MaxValue : FDateTime) {m : TMap}
    (hnd : (TMap.Keys m).Nodup) :
    (Eligible MaxValue m = [] ∧ FindNextEasyHandle MaxValue m = (false, none)) ∨
    ∃ h d, FirstMinBelow MaxValue m h d ∧ TMap.Find m h = some d ∧
      FindNextEasyHandle MaxValue m = (true, some h) := by
  rcases FindNextEasyHandle_cases MaxValue m with ⟨hall, heq⟩ | ⟨h, d, hf, heq⟩
  · left
    refine ⟨?_, heq⟩
    simp only [Eligible, List.filter_eq_nil_iff]
    intro e he
    cases hs : e.2.bProcessingStarted with
    | true => simp
    | false =>
      have := hall e he hs
      simp only [Bool.not_false, Bool.true_and, decide_eq_true_eq]
      exact Nat.not_lt.2 this
  · right
    exact ⟨h, d, hf, TMap.Find_of_mem hnd hf.mem, heq⟩

theorem Eligible_length_Update {MaxValue : FDateTime} {m : TMap} {h : CURL}
    {d : CurlEasyRequestData} {f : CurlEasyRequestData → CurlEasyRequestData}
    (hfind : TMap.Find m h = some d) (hs : d.bProcessingStarted = false)
    (hl : d.DateTime < MaxValue) (hf : (f d).bProcessingStarted = true) :
    (Eligible MaxValue (TMap.Update m h f)).length + 1 = (Eligible MaxValue m).length := by
  induction m with
  | nil => simp [TMap.Find] at hfind
  | cons q rest ih =>
    obtain ⟨k0, v0⟩ := q
    by_cases hk : k0 = h
    · subst hk
      simp only [TMap.Find, if_true, Option.some.injEq] at hfind
      subst hfind
      simp [TMap.Update, Eligible, List.filter_cons, hs, hl, hf]
    · simp only [TMap.Find, hk, if_false] at hfind
      have := ih hfind
      simp only [TMap.Update, hk, if_false, Eligible, List.filter_cons] at this ⊢
      split
      · simp only [List.length_cons]; omega
      · exact this

theorem AdmitHandle_Keys (s : FCurlHttpManager) (n : Int) (h : CURL) (d : CurlEasyRequestData)
    (r : CURLMcode) :
    TMap.Keys (AdmitHandle s n h d r).1.HandlesToRequests = TMap.Keys s.HandlesToRequests := by
  unfold AdmitHandle
  split <;> simp [TMap.Keys_Update]

theorem AdmitHandle_Trace (s : FCurlHttpManager) (n : Int) (h : CURL) (d : CurlEasyRequestData)
    (r : CURLMcode) :
    (AdmitHandle s n h d r).1.Trace =
      s.Trace ++ [Call.curl_multi_add_handle h r, Call.SetAddToCurlMultiResult d.Request r] := by
  unfold AdmitHandle
  split <;> rfl

theorem AdmitHandle_config (s : FCurlHttpManager) (n : Int) (h : CURL) (d : CurlEasyRequestData)
    (r : CURLMcode) :
    (AdmitHandle s n h d r).1.MultiHandle = s.MultiHandle ∧
    (AdmitHandle s n h d r).1.MaxSimultaneousRequests = s.MaxSimultaneousRequests ∧
    (AdmitHandle s n h d r).1.MaxRequestsAddedPerFrame = s.MaxRequestsAddedPerFrame := by
  unfold AdmitHandle
  split <;> exact ⟨rfl, rfl, rfl⟩

theorem AdmitHandle_counters (s : FCurlHttpManager) (n : Int) (h : CURL)
    (d : CurlEasyRequestData) (r : CURLMcode) :
    (AdmitHandle s n h d r).1.NumRequestsAddedToMulti =
        s.NumRequestsAddedToMulti + (if r = CURLM_OK then 1 else 0) ∧
    (AdmitHandle s n h d r).2 = n + (if r = CURLM_OK then 1 else 0) := by
  unfold AdmitHandle
  split <;> simp

theorem AdmitHandle_Eligible (MaxValue : FDateTime) (s : FCurlHttpManager) (n : Int) {h : CURL}
    {d : CurlEasyRequestData} (r : CURLMcode)
    (hfind : TMap.Find s.HandlesToRequests h = some d) (hs : d.bProcessingStarted = false)
    (hl : d.DateTime < MaxValue) :
    (Eligible MaxValue (AdmitHandle s n h d r).1.HandlesToRequests).length + 1 =
      (Eligible MaxValue s.HandlesToRequests).length := by
  unfold AdmitHandle
  split
  · exact Eligible_length_Update hfind hs hl rfl
  · exact Eligible_length_Update hfind hs hl rfl

/-- Proof rule for the admission loop on a registry with unique keys: with fuel for every
eligible entry the loop returns, it leaves through its condition, and every property kept by
the loop body holds at the exit. -/
theorem AdmissionLoop_rule (MaxValue : FDateTime) (AddResults : Nat → CURLMcode)
    (P : FCurlHttpManager → Int → Nat → Prop)
    (hstep : ∀ s n i h d, (TMap.Keys s.HandlesToRequests).Nodup → P s n i →
      HasBudget s n = true → FirstMinBelow MaxValue s.HandlesToRequests h d →
      TMap.Find s.HandlesToRequests h = some d →
      P (AdmitHandle s n h d (AddResults i)).1 (AdmitHandle s n h d (AddResults i)).2 (i + 1)) :
    ∀ (Fuel i : Nat) (n : Int) (s : FCurlHttpManager),
      (TMap.Keys s.HandlesToRequests).Nodup →
      (Eligible MaxValue s.HandlesToRequests).length ≤ Fuel → P s n i →
      ∃ out j, AdmissionLoop MaxValue AddResults Fuel i n s = Result.ok out ∧
        P out.1 out.2 j ∧ (TMap.Keys out.1.HandlesToRequests).Nodup ∧
        (HasBudget out.1 out.2 && (FindNextEasyHandle MaxValue out.1.HandlesToRequests).1)
          = false := by
  intro Fuel
  induction Fuel with
  | zero =>
    intro i n s hnd hfuel hP
    have hE : Eligible MaxValue s.HandlesToRequests = [] :=
      List.length_eq_zero.1 (Nat.le_zero.1 hfuel)
    have hF : FindNextEasyHandle MaxValue s.HandlesToRequests = (false, none) := by
      rcases FindNextEasyHandle_select MaxValue hnd with ⟨_, h2⟩ | ⟨h, d, hf, _, _⟩
      · exact h2
      · have hmem : (h, d) ∈ Eligible MaxValue s.HandlesToRequests := by
          simp only [Eligible, List.mem_filter]
          exact ⟨hf.mem, by simp [hf.started, hf.below]⟩
        rw [hE] at hmem
        cases hmem
    refine ⟨(s, n), i, ?_, hP, hnd, ?_⟩
    · simp [AdmissionLoop, hF]
    · simp [hF]
  | succ Fuel ih =>
    intro i n s hnd hfuel hP
    by_cases hb : HasBudget s n = true
    · rcases FindNextEasyHandle_select MaxValue hnd with
        ⟨_, hF⟩ | ⟨h, d, hf, hfind, hF⟩
      · refine ⟨(s, n), i, ?_, hP, hnd, ?_⟩
        · simp [AdmissionLoop, hb, hF]
        · simp [hF]
      · have hnd1 : (TMap.Keys (AdmitHandle s n h d (AddResults i)).1.HandlesToRequests).Nodup := by
          rw [AdmitHandle_Keys]; exact hnd
        have hlen := AdmitHandle_Eligible MaxValue s n (AddResults i) hfind
          hf.started hf.below
        have hfuel1 :
            (Eligible MaxValue (AdmitHandle s n h d (AddResults i)).1.HandlesToRequests).length
              ≤ Fuel := by omega
        obtain ⟨out, j, hrun, hPout, hndout, hexit⟩ :=
          ih (i + 1) _ _ hnd1 hfuel1 (hstep s n i h d hnd hP hb hf hfind)
        refine ⟨out, j, ?_, hPout, hndout, hexit⟩
        simp only [AdmissionLoop, hb, if_true, hF, hfind]
        exact hrun
    · refine ⟨(s, n), i, ?_, hP, hnd, ?_⟩
      · simp [AdmissionLoop, hb]
      · simp [hb]

theorem Eligible_length_le (MaxValue : FDateTime) (m : TMap) :
    (Eligible MaxValue m).length ≤ m.length :=
  List.length_filter_le _ _

theorem DrainMessage_Keys (s : FCurlHttpManager) (Message : CURLMsg) :
    TMap.Keys (DrainMessage s Message).HandlesToRequests = TMap.Keys s.HandlesToRequests := by
  unfold DrainMessage
  dsimp only
  split
  · split <;> simp [TMap.Keys_Update]
  · rfl

theorem DrainMessage_config (s : FCurlHttpManager) (Message : CURLMsg) :
    (DrainMessage s Message).MultiHandle = s.MultiHandle ∧
    (DrainMessage s Message).MaxSimultaneousRequests = s.MaxSimultaneousRequests ∧
    (DrainMessage s Message).MaxRequestsAddedPerFrame = s.MaxRequestsAddedPerFrame := by
  unfold DrainMessage
  dsimp only
  split
  · split <;> exact ⟨rfl, rfl, rfl⟩
  · exact ⟨rfl, rfl, rfl⟩

theorem DrainMessage_WellFormed {s : FCurlHttpManager} (h : WellFormed s) (Message : CURLMsg) :
    WellFormed (DrainMessage s Message) := by
  refine ⟨?_, ?_⟩
  · rw [(DrainMessage_config s Message).1]; exact h.1
  · rw [DrainMessage_Keys]; exact h.2

/-- Proof rule for the drain loop: a property kept by the body for every message holds
after the loop. -/
theorem DrainLoop_rule (P : FCurlHttpManager → Prop)
    (hstep : ∀ s Message, WellFormed s → P s → P (DrainMessage s Message)) :
    ∀ (Messages : List CURLMsg) (s : FCurlHttpManager), WellFormed s → P s →
      WellFormed (DrainLoop s Messages) ∧ P (DrainLoop s Messages) := by
  intro Messages
  induction Messages with
  | nil => intro s hw hP; exact ⟨hw, hP⟩
  | cons Message rest ih =>
    intro s hw hP
    simp only [DrainLoop, List.foldl_cons]
    exact ih _ (DrainMessage_WellFormed hw Message) (hstep s Message hw hP)

/-- Proof rule for a whole tick: on a well-formed manager the tick returns, and it keeps
every property that `curl_multi_perform`, the drain body and the admission body keep. -/
theorem HttpThreadTick_rule (MaxValue : FDateTime) (P : FCurlHttpManager → Prop)
    (hperform : ∀ s, WellFormed s → P s →
      P { s with Trace := s.Trace ++ [Call.curl_multi_perform] })
    (hdrain : ∀ s Message, WellFormed s → P s → P (DrainMessage s Message))
    (hbody : ∀ s n h d r, WellFormed s → P s → HasBudget s n = true →
      FirstMinBelow MaxValue s.HandlesToRequests h d →
      TMap.Find s.HandlesToRequests h = some d → P (AdmitHandle s n h d r).1)
    (s : FCurlHttpManager) (RunningThreadedRequestsNum : Nat) (RunningRequests : Int)
    (Messages : List CURLMsg) (AddResults : Nat → CURLMcode) (hw : WellFormed s) (hP : P s) :
    ∃ s1, HttpThreadTick MaxValue s RunningThreadedRequestsNum RunningRequests Messages
        AddResults = Result.ok s1 ∧ WellFormed s1 ∧ P s1 := by
  unfold HttpThreadTick
  simp only [hw.1, if_false]
  by_cases hn : RunningThreadedRequestsNum > 0
  · simp only [hn, if_true]
    obtain ⟨hw2, hP2⟩ : WellFormed (PerformAndDrain s RunningRequests Messages) ∧
        P (PerformAndDrain s RunningRequests Messages) := by
      have hw1 : WellFormed { s with Trace := s.Trace ++ [Call.curl_multi_perform] } := hw
      have hP1 := hperform s hw hP
      unfold PerformAndDrain
      dsimp only
      split
      · exact DrainLoop_rule P hdrain Messages _ hw1 hP1
      · exact ⟨hw1, hP1⟩
    obtain ⟨out, j, hrun, ⟨hm, hPout⟩, hnd, _⟩ :=
      AdmissionLoop_rule MaxValue AddResults
        (fun t _ _ => t.MultiHandle ≠ 0 ∧ P t)
        (fun t n i h d hnd hPt hb hf hfind =>
          ⟨by rw [(AdmitHandle_config t n h d (AddResults i)).1]; exact hPt.1,
           hbody t n h d (AddResults i) ⟨hPt.1, hnd⟩ hPt.2 hb hf hfind⟩)
        (PerformAndDrain s RunningRequests Messages).HandlesToRequests.length 0 0 _ hw2.2
        (Eligible_length_le _ _) ⟨hw2.1, hP2⟩
    exact ⟨out.1, by rw [hrun], ⟨hm, hnd⟩, hPout⟩
  · simp only [hn, if_false]
    exact ⟨s, rfl, hw, hP⟩

theorem StartThreadedRequest_WellFormed {s : FCurlHttpManager} (h : WellFormed s)
    (Request : FCurlHttpRequest) (Now : FDateTime) (Slot : Nat) :
    WellFormed (StartThreadedRequest s Request Now Slot) :=
  ⟨h.1, TMap.Keys_Add_nodup h.2 _ _ _⟩

theorem CompleteThreadedRequest_WellFormed {s : FCurlHttpManager} (h : WellFormed s)
    (Request : FCurlHttpRequest) : WellFormed (CompleteThreadedRequest s Request) := by
  unfold CompleteThreadedRequest
  dsimp only
  split
  · split
    · exact ⟨h.1, TMap.Keys_Remove_nodup h.2 _⟩
    · exact ⟨h.1, TMap.Keys_Remove_nodup h.2 _⟩
  · exact h

/-- Proof rule for a sequence of calls: from a well-formed manager every sequence runs to
the end, and a property kept by each of the three calls holds in the state reached. -/
theorem Run_rule (MaxValue : FDateTime) (P : FCurlHttpManager → Prop)
    (hstart : ∀ s Request Now Slot, WellFormed s → P s →
      P (StartThreadedRequest s Request Now Slot))
    (htick : ∀ s n RunningRequests Messages AddResults s1, WellFormed s → P s →
      HttpThreadTick MaxValue s n RunningRequests Messages AddResults = Result.ok s1 → P s1)
    (hcomplete : ∀ s Request, WellFormed s → P s → P (CompleteThreadedRequest s Request)) :
    ∀ (evs : List Event) (s : FCurlHttpManager), WellFormed s → P s →
      ∃ s1, Run MaxValue s evs = Result.ok s1 ∧ WellFormed s1 ∧ P s1 := by
  intro evs
  induction evs with
  | nil => intro s hw hP; exact ⟨s, rfl, hw, hP⟩
  | cons e rest ih =>
    intro s hw hP
    cases e with
    | Start Request Now Slot =>
      simp only [Run, Step]
      exact ih _ (StartThreadedRequest_WellFormed hw _ _ _) (hstart s _ _ _ hw hP)
    | Tick n RunningRequests Messages AddResults =>
      obtain ⟨s1, hrun, hw1, _⟩ :=
        HttpThreadTick_rule MaxValue (fun _ => True) (fun _ _ _ => trivial)
          (fun _ _ _ _ => trivial) (fun _ _ _ _ _ _ _ _ _ _ => trivial)
          s n RunningRequests Messages AddResults hw trivial
      simp only [Run, Step, hrun]
      exact ih s1 hw1 (htick s n RunningRequests Messages AddResults s1 hw hP hrun)
    | Complete Request =>
      simp only [Run, Step]
      exact ih _ (CompleteThreadedRequest_WellFormed hw _) (hcomplete s _ hw hP)

theorem ctor_ok {GMultiHandle : CURLM} (hG : GMultiHandle ≠ 0)
    (CfgSimultaneous CfgPerFrame : Option Int) :
    ∃ s, FCurlHttpManager.ctor GMultiHandle CfgSimultaneous CfgPerFrame = Result.ok s ∧
      WellFormed s ∧ s.MaxSimultaneousRequests = CfgSimultaneous.getD 0 ∧
      s.MaxRequestsAddedPerFrame = CfgPerFrame.getD 0 ∧ s.NumRequestsAddedToMulti = 0 ∧
      s.HandlesToRequests = [] ∧ s.ActiveSet = [] ∧ s.Trace = [] := by
  simp only [FCurlHttpManager.ctor, hG, if_false]
  refine ⟨_, rfl, ⟨hG, ?_⟩, rfl, rfl, rfl, rfl, rfl, rfl⟩
  simp [TMap.Keys]

theorem HttpThreadTick_keeps (MaxValue : FDateTime) (P : FCurlHttpManager → Prop)
    (hperform : ∀ s, WellFormed s → P s →
      P { s with Trace := s.Trace ++ [Call.curl_multi_perform] })
    (hdrain : ∀ s Message, WellFormed s → P s → P (DrainMessage s Message))
    (hbody : ∀ s n h d r, WellFormed s → P s → HasBudget s n = true →
      FirstMinBelow MaxValue s.HandlesToRequests h d →
      TMap.Find s.HandlesToRequests h = some d → P (AdmitHandle s n h d r).1)
    (s : FCurlHttpManager) (n : Nat) (RunningRequests : Int)
    (Messages : List CURLMsg) (AddResults : Nat → CURLMcode) (s1 : FCurlHttpManager)
    (hw : WellFormed s) (hP : P s)
    (hrun : HttpThreadTick MaxValue s n RunningRequests Messages AddResults = Result.ok s1) :
    P s1 := by
  obtain ⟨s2, hrun2, _, hP2⟩ := HttpThreadTick_rule MaxValue P hperform hdrain hbody s n
    RunningRequests Messages AddResults hw hP
  rw [hrun] at hrun2
  cases hrun2
  exact hP2

theorem DrainMessage_counter_le (s : FCurlHttpManager) (Message : CURLMsg) :
    (DrainMessage s Message).NumRequestsAddedToMulti ≤ s.NumRequestsAddedToMulti := by
  unfold DrainMessage
  dsimp only
  split
  · split <;> simp
  · simp

theorem CompleteThreadedRequest_counter_le (s : FCurlHttpManager) (Request : FCurlHttpRequest) :
    (CompleteThreadedRequest s Request).NumRequestsAddedToMulti ≤ s.NumRequestsAddedToMulti ∧
    (CompleteThreadedRequest s Request).MaxSimultaneousRequests = s.MaxSimultaneousRequests := by
  unfold CompleteThreadedRequest
  dsimp only
  split
  · split <;> simp
  · simp

theorem HasBudget_simultaneous {s : FCurlHttpManager} {n : Int} (hb : HasBudget s n = true)
    (hne : s.MaxSimultaneousRequests ≠ 0) :
    s.NumRequestsAddedToMulti < s.MaxSimultaneousRequests := by
  simp only [HasBudget, Bool.and_eq_true, Bool.or_eq_true, decide_eq_true_eq] at hb
  rcases hb.1 with h | h
  · exact absurd h hne
  · exact h

theorem HasBudget_perFrame {s : FCurlHttpManager} {n : Int} (hb : HasBudget s n = true)
    (hne : s.MaxRequestsAddedPerFrame ≠ 0) : n < s.MaxRequestsAddedPerFrame := by
  simp only [HasBudget, Bool.and_eq_true, Bool.or_eq_true, decide_eq_true_eq] at hb
  rcases hb.2 with h | h
  · exact absurd h hne
  · exact h

theorem DrainMessage_WithinCap {Simultaneous : Int} {s : FCurlHttpManager} (Message : CURLMsg)
    (hP : WithinCap Simultaneous s) : WithinCap Simultaneous (DrainMessage s Message) := by
  refine ⟨by rw [(DrainMessage_config s Message).2.1]; exact hP.1, ?_⟩
  rw [(DrainMessage_config s Message).2.1]
  exact le_trans (DrainMessage_counter_le s Message) hP.2

theorem AdmitHandle_WithinCap {Simultaneous : Int} {s : FCurlHttpManager} (n : Int) (h : CURL)
    (d : CurlEasyRequestData) (r : CURLMcode) (hpos : 0 < Simultaneous)
    (hb : HasBudget s n = true) (hP : WithinCap Simultaneous s) :
    WithinCap Simultaneous (AdmitHandle s n h d r).1 := by
  have hlt := HasBudget_simultaneous hb (by rw [hP.1]; exact ne_of_gt hpos)
  refine ⟨by rw [(AdmitHandle_config s n h d r).2.1]; exact hP.1, ?_⟩
  rw [(AdmitHandle_config s n h d r).2.1, (AdmitHandle_counters s n h d r).1]
  split <;> omega

theorem CompleteThreadedRequest_WithinCap {Simultaneous : Int} {s : FCurlHttpManager}
    (Request : FCurlHttpRequest) (hP : WithinCap Simultaneous s) :
    WithinCap Simultaneous (CompleteThreadedRequest s Request) := by
  obtain ⟨h1, h2⟩ := CompleteThreadedRequest_counter_le s Request
  exact ⟨by rw [h2]; exact hP.1, by rw [h2]; exact le_trans h1 hP.2⟩

/-- C1 (amended): with a positive `MaxSimultaneousRequests`, after every sequence of
`StartThreadedRequest`, `HttpThreadTick` and `CompleteThreadedRequest` calls on a freshly
constructed manager, whatever the multiplexer answers, the calls all return and
`NumRequestsAddedToMulti` is at most `MaxSimultaneousRequests`. -/
theorem bounded_concurrency (MaxValue : FDateTime) (GMultiHandle : CURLM) (Simultaneous : Int)
    (CfgPerFrame : Option Int) (evs : List Event) (hG : GMultiHandle ≠ 0)
    (hpos : 0 < Simultaneous) :
    ∃ s0 s, FCurlHttpManager.ctor GMultiHandle (some Simultaneous) CfgPerFrame = Result.ok s0 ∧
      Run MaxValue s0 evs = Result.ok s ∧ s.MaxSimultaneousRequests = Simultaneous ∧
      s.NumRequestsAddedToMulti ≤ s.MaxSimultaneousRequests := by
  obtain ⟨s0, hctor, hw0, hmax, _, hnum, _⟩ := ctor_ok hG (some Simultaneous) CfgPerFrame
  have hrule := Run_rule MaxValue (WithinCap Simultaneous)
    (fun s _ _ _ _ hP => hP)
    (fun s n RunningRequests Messages AddResults s1 hw hP hrun =>
      HttpThreadTick_keeps MaxValue (WithinCap Simultaneous) (fun _ _ h => h)
        (fun _ Message _ ht => DrainMessage_WithinCap Message ht)
        (fun _ k h d r _ ht hb _ _ => AdmitHandle_WithinCap k h d r hpos hb ht)
        s n RunningRequests Messages AddResults s1 hw hP hrun)
    (fun s Request _ hP => CompleteThreadedRequest_WithinCap Request hP)
    evs s0 hw0 ⟨by simpa using hmax, by rw [hnum, hmax]; simpa using le_of_lt hpos⟩
  obtain ⟨s, hrun, _, hP⟩ := hrule
  exact ⟨s0, s, hctor, hrun, hP.1, hP.2⟩

/-- C1, instance: the bound holds along a run with a rejected and an accepted add. -/
theorem bounded_concurrency_witness :
    (1 : CURLM) ≠ 0 ∧ (0 : Int) < 1 ∧
    ∃ s0 s, FCurlHttpManager.ctor 1 (some 1) none = Result.ok s0 ∧
      Run 1000 s0 [Event.Start ⟨1, 1⟩ 10 0, Event.Start ⟨2, 2⟩ 20 1,
        Event.Tick 2 0 [] (fun _ => CURLM_OK)] = Result.ok s ∧
      s.MaxSimultaneousRequests = 1 ∧
      s.NumRequestsAddedToMulti ≤ s.MaxSimultaneousRequests :=
  ⟨by decide, by decide, bounded_concurrency 1000 1 1 none _ (by decide) (by decide)⟩

/-- C1 as stated fails: a manager constructed with the non-zero setting
`CurlMaxSimultaneousRequests = -1` starts with `NumRequestsAddedToMulti = 0`, which
exceeds `MaxSimultaneousRequests`. -/
theorem bounded_concurrency_counterexample :
    ∃ s0, FCurlHttpManager.ctor 1 (some (-1)) none = Result.ok s0 ∧
      Run 1000 s0 [] = Result.ok s0 ∧ s0.MaxSimultaneousRequests ≠ 0 ∧
      ¬ s0.NumRequestsAddedToMulti ≤ s0.MaxSimultaneousRequests :=
  ⟨_, rfl, rfl, by decide, by decide⟩

theorem DrainMessage_InFlightImpliesAdmitted {s : FCurlHttpManager} (Message : CURLMsg)
    (hP : InFlightImpliesAdmitted s) : InFlightImpliesAdmitted (DrainMessage s Message) := by
  unfold DrainMessage
  dsimp only
  split
  · split
    · intro e he
      rcases TMap.mem_Update he with h1 | ⟨d, _, rfl⟩
      · exact hP e h1
      · intro hc; simp at hc
    · exact hP
  · exact hP

theorem AdmitHandle_InFlightImpliesAdmitted {s : FCurlHttpManager} (n : Int) (h : CURL)
    (d : CurlEasyRequestData) (r : CURLMcode) (hP : InFlightImpliesAdmitted s) :
    InFlightImpliesAdmitted (AdmitHandle s n h d r).1 := by
  unfold AdmitHandle
  split
  · intro e he
    rcases TMap.mem_Update he with h1 | ⟨d, _, rfl⟩
    · exact hP e h1
    · intro _; rfl
  · intro e he
    rcases TMap.mem_Update he with h1 | ⟨d, _, rfl⟩
    · exact hP e h1
    · intro _; rfl

theorem StartThreadedRequest_InFlightImpliesAdmitted {s : FCurlHttpManager}
    (Request : FCurlHttpRequest) (Now : FDateTime) (Slot : Nat)
    (hP : InFlightImpliesAdmitted s) :
    InFlightImpliesAdmitted (StartThreadedRequest s Request Now Slot) := by
  intro e he
  rcases TMap.mem_Add he with rfl | h1
  · intro hc; simp [CurlEasyRequestData.ctor] at hc
  · exact hP e h1

theorem CompleteThreadedRequest_InFlightImpliesAdmitted {s : FCurlHttpManager}
    (Request : FCurlHttpRequest) (hP : InFlightImpliesAdmitted s) :
    InFlightImpliesAdmitted (CompleteThreadedRequest s Request) := by
  unfold CompleteThreadedRequest
  dsimp only
  split
  · split
    · intro e he; exact hP e (TMap.mem_Remove he).1
    · intro e he; exact hP e (TMap.mem_Remove he).1
  · exact hP

/-- Every state reached from a well-formed manager that satisfies `inFlight ⇒ admitted`
satisfies it too, and every sequence of calls runs to its end. -/
theorem Run_InFlightImpliesAdmitted (MaxValue : FDateTime) (evs : List Event)
    (s : FCurlHttpManager) (hw : WellFormed s) (hP : InFlightImpliesAdmitted s) :
    ∃ s1, Run MaxValue s evs = Result.ok s1 ∧ WellFormed s1 ∧ InFlightImpliesAdmitted s1 :=
  Run_rule MaxValue InFlightImpliesAdmitted
    (fun _ Request Now Slot _ hP => StartThreadedRequest_InFlightImpliesAdmitted Request Now Slot hP)
    (fun s n RunningRequests Messages AddResults s1 hw hP hrun =>
      HttpThreadTick_keeps MaxValue InFlightImpliesAdmitted (fun _ _ h => h)
        (fun _ Message _ ht => DrainMessage_InFlightImpliesAdmitted Message ht)
        (fun _ k h d r _ ht _ _ _ => AdmitHandle_InFlightImpliesAdmitted k h d r ht)
        s n RunningRequests Messages AddResults s1 hw hP hrun)
    (fun _ Request _ hP => CompleteThreadedRequest_InFlightImpliesAdmitted Request hP)
    evs s hw hP

/-- C10: in every state reached from a freshly constructed manager by
`StartThreadedRequest`, `HttpThreadTick` and `CompleteThreadedRequest` calls (which all
return), every registry entry with `bAddedToMulti` also has `bProcessingStarted`. -/
theorem inFlight_implies_admitted (MaxValue : FDateTime) (GMultiHandle : CURLM)
    (CfgSimultaneous CfgPerFrame : Option Int) (evs : List Event) (hG : GMultiHandle ≠ 0) :
    ∃ s0 s, FCurlHttpManager.ctor GMultiHandle CfgSimultaneous CfgPerFrame = Result.ok s0 ∧
      Run MaxValue s0 evs = Result.ok s ∧
      ∀ e ∈ s.HandlesToRequests, e.2.bAddedToMulti = true → e.2.bProcessingStarted = true := by
  obtain ⟨s0, hctor, hw0, _, _, _, hmap, _⟩ := ctor_ok hG CfgSimultaneous CfgPerFrame
  obtain ⟨s, hrun, _, hP⟩ := Run_InFlightImpliesAdmitted MaxValue evs s0 hw0
    (by intro e he; rw [hmap] at he; cases he)
  exact ⟨s0, s, hctor, hrun, hP⟩

/-- C10, instance: a run with an accepted add, a rejected add, a drained completion and a
retirement. -/
theorem inFlight_implies_admitted_witness :
    (7 : CURLM) ≠ 0 ∧
    ∃ s0 s, FCurlHttpManager.ctor 7 (some 2) (some 1) = Result.ok s0 ∧
      Run 1000 s0 [Event.Start ⟨1, 1⟩ 10 0, Event.Start ⟨2, 2⟩ 20 1,
        Event.Tick 2 0 [] (fun _ => CURLM_OK), Event.Tick 2 1 [] (fun _ => 2),
        Event.Tick 2 0 [⟨CURLMSG.DONE, 1, 7⟩] (fun _ => CURLM_OK),
        Event.Complete ⟨1, 1⟩] = Result.ok s ∧
      ∀ e ∈ s.HandlesToRequests, e.2.bAddedToMulti = true → e.2.bProcessingStarted = true :=
  ⟨by decide, inFlight_implies_admitted 1000 7 (some 2) (some 1) _ (by decide)⟩

theorem Completions_append (T1 T2 : List Call) :
    Completions (T1 ++ T2) = Completions T1 ++ Completions T2 := by
  simp [Completions]

theorem ReportedDone_append (T1 T2 : List Call) :
    ReportedDone (T1 ++ T2) = ReportedDone T1 ++ ReportedDone T2 := by
  simp [ReportedDone]

theorem OfferedHandles_append (T1 T2 : List Call) :
    OfferedHandles (T1 ++ T2) = OfferedHandles T1 ++ OfferedHandles T2 := by
  simp [OfferedHandles]

theorem AcceptedHandles_append (T1 T2 : List Call) :
    AcceptedHandles (T1 ++ T2) = AcceptedHandles T1 ++ AcceptedHandles T2 := by
  simp [AcceptedHandles]

theorem RejectedHandles_append (T1 T2 : List Call) :
    RejectedHandles (T1 ++ T2) = RejectedHandles T1 ++ RejectedHandles T2 := by
  simp [RejectedHandles]

theorem OfferedHandles_admit (h : CURL) (r : CURLMcode) (q : FCurlHttpRequest) :
    OfferedHandles [Call.curl_multi_add_handle h r, Call.SetAddToCurlMultiResult q r] = [h] := by
  simp [OfferedHandles]

theorem AcceptedHandles_admit (h : CURL) (r : CURLMcode) (q : FCurlHttpRequest) :
    AcceptedHandles [Call.curl_multi_add_handle h r, Call.SetAddToCurlMultiResult q r] =
      if r = CURLM_OK then [h] else [] := by
  by_cases hr : r = CURLM_OK <;> simp [AcceptedHandles, hr]

theorem RejectedHandles_admit (h : CURL) (r : CURLMcode) (q : FCurlHttpRequest) :
    RejectedHandles [Call.curl_multi_add_handle h r, Call.SetAddToCurlMultiResult q r] =
      if r = CURLM_OK then [] else [h] := by
  by_cases hr : r = CURLM_OK <;> simp [RejectedHandles, hr]

theorem LoopLedger_refl (AddResults : Nat → CURLMcode) (s0 : FCurlHttpManager) (n0 : Int) :
    LoopLedger AddResults s0 n0 s0 n0 :=
  ⟨[], by simp, by simp [AcceptedHandles], by simp [AcceptedHandles],
    by simp [OfferedHandles, AcceptedHandles, RejectedHandles], fun _ => rfl, rfl,
    fun _ h => h, fun _ _ => rfl, rfl, rfl⟩

theorem LoopLedger_step {AddResults : Nat → CURLMcode} {s0 : FCurlHttpManager} {n0 : Int}
    {t : FCurlHttpManager} {n : Int} (i : Nat) (h : CURL) (d : CurlEasyRequestData)
    (hb : HasBudget t n = true) (hL : LoopLedger AddResults s0 n0 t n) :
    LoopLedger AddResults s0 n0 (AdmitHandle t n h d (AddResults i)).1
      (AdmitHandle t n h d (AddResults i)).2 := by
  obtain ⟨T, hT, hn, hnum, hsplit, hall, hmax, hcap, hneg, hcomp, hrep⟩ := hL
  refine ⟨T ++ [Call.curl_multi_add_handle h (AddResults i),
    Call.SetAddToCurlMultiResult d.Request (AddResults i)], ?_, ?_, ?_, ?_, ?_, ?_, ?_, ?_,
    ?_, ?_⟩
  · rw [AdmitHandle_Trace, hT, List.append_assoc]
  · rw [(AdmitHandle_counters t n h d (AddResults i)).2, AcceptedHandles_append,
      AcceptedHandles_admit, hn]
    split <;> (simp; try omega)
  · rw [(AdmitHandle_counters t n h d (AddResults i)).1, AcceptedHandles_append,
      AcceptedHandles_admit, hnum]
    split <;> (simp; try omega)
  · rw [OfferedHandles_append, AcceptedHandles_append, RejectedHandles_append,
      OfferedHandles_admit, AcceptedHandles_admit, RejectedHandles_admit]
    split <;> (simp; omega)
  · intro hok
    rw [OfferedHandles_append, AcceptedHandles_append, OfferedHandles_admit,
      AcceptedHandles_admit, hall hok]
    simp [hok i]
  · rw [(AdmitHandle_config t n h d (AddResults i)).2.2]; exact hmax
  · intro hpos hle
    have hlt := HasBudget_perFrame hb (by rw [hmax]; exact ne_of_gt hpos)
    rw [hmax] at hlt
    rw [(AdmitHandle_counters t n h d (AddResults i)).2]
    split <;> omega
  · intro hlt0 hn0
    have hlt := HasBudget_perFrame hb (by rw [hmax]; exact ne_of_lt hlt0)
    rw [hmax] at hlt
    omega
  · rw [Completions_append, hcomp]; simp [Completions]
  · rw [ReportedDone_append, hrep]; simp [ReportedDone]

/-- The admission loop on a registry with unique keys returns and satisfies its ledger. -/
theorem AdmissionLoop_ledger (MaxValue : FDateTime) (AddResults : Nat → CURLMcode)
    (Fuel i : Nat) (n0 : Int) (s0 : FCurlHttpManager)
    (hnd : (TMap.Keys s0.HandlesToRequests).Nodup)
    (hfuel : (Eligible MaxValue s0.HandlesToRequests).length ≤ Fuel) :
    ∃ out, AdmissionLoop MaxValue AddResults Fuel i n0 s0 = Result.ok out ∧
      LoopLedger AddResults s0 n0 out.1 out.2 := by
  obtain ⟨out, _, hrun, hP, _, _⟩ :=
    AdmissionLoop_rule MaxValue AddResults (fun t n _ => LoopLedger AddResults s0 n0 t n)
      (fun t n i h d _ hP hb _ _ => LoopLedger_step i h d hb hP)
      Fuel i n0 s0 hnd hfuel (LoopLedger_refl AddResults s0 n0)
  exact ⟨out, hrun, hP⟩

theorem RejectedHandles_nil {T : List Call} (h : OfferedHandles T = []) :
    RejectedHandles T = [] := by
  induction T with
  | nil => rfl
  | cons c rest ih =>
    cases c <;> simp_all [OfferedHandles, RejectedHandles]

theorem AcceptedHandles_nil {T : List Call} (h : OfferedHandles T = []) :
    AcceptedHandles T = [] := by
  induction T with
  | nil => rfl
  | cons c rest ih =>
    cases c <;> simp_all [OfferedHandles, AcceptedHandles]

theorem DrainMessage_Trace (s : FCurlHttpManager) (Message : CURLMsg) :
    ∃ T, (DrainMessage s Message).Trace = s.Trace ++ T ∧ OfferedHandles T = [] := by
  unfold DrainMessage
  dsimp only
  split
  · split
    · exact ⟨_, rfl, by simp [OfferedHandles]⟩
    · exact ⟨_, rfl, by simp [OfferedHandles]⟩
  · exact ⟨_, rfl, by simp [OfferedHandles]⟩

theorem DrainMessage_DrainFrame {s0 t : FCurlHttpManager} (Message : CURLMsg)
    (hP : DrainFrame s0 t) : DrainFrame s0 (DrainMessage t Message) := by
  obtain ⟨h1, h2, h3, T, hT, hO⟩ := hP
  obtain ⟨c1, c2, c3⟩ := DrainMessage_config t Message
  obtain ⟨T1, hT1, hO1⟩ := DrainMessage_Trace t Message
  refine ⟨c1.trans h1, c2.trans h2, c3.trans h3, T ++ T1, ?_, ?_⟩
  · rw [hT1, hT, List.append_assoc]
  · rw [OfferedHandles_append, hO, hO1]; rfl

theorem PerformAndDrain_DrainFrame (s : FCurlHttpManager) (RunningRequests : Int)
    (Messages : List CURLMsg) (hw : WellFormed s) :
    WellFormed (PerformAndDrain s RunningRequests Messages) ∧
      DrainFrame s (PerformAndDrain s RunningRequests Messages) := by
  have hw1 : WellFormed { s with Trace := s.Trace ++ [Call.curl_multi_perform] } := hw
  have hP1 : DrainFrame s { s with Trace := s.Trace ++ [Call.curl_multi_perform] } :=
    ⟨rfl, rfl, rfl, [Call.curl_multi_perform], rfl, by simp [OfferedHandles]⟩
  unfold PerformAndDrain
  dsimp only
  split
  · exact DrainLoop_rule (DrainFrame s) (fun _ Message _ h => DrainMessage_DrainFrame Message h)
      Messages _ hw1 hP1
  · exact ⟨hw1, hP1⟩

theorem HttpThreadTick_unfold (MaxValue : FDateTime) (s : FCurlHttpManager) (n : Nat)
    (RunningRequests : Int) (Messages : List CURLMsg) (AddResults : Nat → CURLMcode)
    (hm : s.MultiHandle ≠ 0) (hn : 0 < n) (out : FCurlHttpManager × Int)
    (hrun : AdmissionLoop MaxValue AddResults
      (PerformAndDrain s RunningRequests Messages).HandlesToRequests.length 0 0
      (PerformAndDrain s RunningRequests Messages) = Result.ok out) :
    HttpThreadTick MaxValue s n RunningRequests Messages AddResults = Result.ok out.1 := by
  unfold HttpThreadTick
  simp only [hm, if_false, gt_iff_lt, hn, if_true, hrun]

/-- What one tick does to the trace, on a well-formed manager: the tick returns, and the
calls it makes satisfy the ledger of the admission loop started with `NumAdded = 0`. -/
theorem HttpThreadTick_ledger (MaxValue : FDateTime) (s : FCurlHttpManager) (n : Nat)
    (RunningRequests : Int) (Messages : List CURLMsg) (AddResults : Nat → CURLMcode)
    (hw : WellFormed s) :
    ∃ s1 T, HttpThreadTick MaxValue s n RunningRequests Messages AddResults = Result.ok s1 ∧
      s1.Trace = s.Trace ++ T ∧
      (OfferedHandles T).length = (AcceptedHandles T).length + (RejectedHandles T).length ∧
      ((∀ j, AddResults j = CURLM_OK) → OfferedHandles T = AcceptedHandles T) ∧
      (0 < s.MaxRequestsAddedPerFrame →
        ((AcceptedHandles T).length : Int) ≤ s.MaxRequestsAddedPerFrame) ∧
      (s.MaxRequestsAddedPerFrame < 0 → OfferedHandles T = []) := by
  by_cases hn : 0 < n
  · obtain ⟨hw2, c1, c2, c3, T0, hT0, hO0⟩ :=
      PerformAndDrain_DrainFrame s RunningRequests Messages hw
    obtain ⟨out, hrun, T, hT, hnum, _, hsplit, hall, hmax, hcap, hneg, _, _⟩ :=
      AdmissionLoop_ledger MaxValue AddResults
        (PerformAndDrain s RunningRequests Messages).HandlesToRequests.length 0 0
        (PerformAndDrain s RunningRequests Messages) hw2.2 (Eligible_length_le _ _)
    have hA0 := AcceptedHandles_nil hO0
    have hR0 := RejectedHandles_nil hO0
    refine ⟨out.1, T0 ++ T,
      HttpThreadTick_unfold MaxValue s n RunningRequests Messages AddResults hw.1 hn out hrun,
      ?_, ?_, ?_, ?_, ?_⟩
    · rw [hT, hT0, List.append_assoc]
    · rw [OfferedHandles_append, AcceptedHandles_append, RejectedHandles_append, hO0, hA0, hR0]
      simpa using hsplit
    · intro hok
      rw [OfferedHandles_append, AcceptedHandles_append, hO0, hA0]
      simpa using hall hok
    · intro hpos
      rw [AcceptedHandles_append, hA0, List.nil_append]
      rw [c3] at hcap
      have := hcap hpos (le_of_lt hpos)
      rw [hnum] at this
      simpa using this
    · intro hlt
      rw [c3] at hneg
      rw [OfferedHandles_append, hO0, hneg hlt (le_refl 0)]
      rfl
  · refine ⟨s, [], ?_, by simp, by simp [OfferedHandles, AcceptedHandles, RejectedHandles],
      fun _ => rfl, fun h => by simpa [AcceptedHandles] using le_of_lt h, fun _ => rfl⟩
    unfold HttpThreadTick
    simp only [hw.1, if_false, gt_iff_lt, hn]

/-- C2 (amended): in every `HttpThreadTick` call with a positive `MaxRequestsAddedPerFrame`,
on every registry and for every pattern of accept/reject answers of the multiplexer, the
tick returns and the number of handles the multiplexer accepts during the call (the adds
answered `CURLM_OK`, which set `bAddedToMulti`) is at most `MaxRequestsAddedPerFrame`; when
the multiplexer accepts every add, so is the number of handles handed to it. -/
theorem bounded_burst (MaxValue : FDateTime) (s : FCurlHttpManager) (n : Nat)
    (RunningRequests : Int) (Messages : List CURLMsg) (AddResults : Nat → CURLMcode)
    (hw : WellFormed s) (hpos : 0 < s.MaxRequestsAddedPerFrame) :
    ∃ s1 T, HttpThreadTick MaxValue s n RunningRequests Messages AddResults = Result.ok s1 ∧
      s1.Trace = s.Trace ++ T ∧
      ((AcceptedHandles T).length : Int) ≤ s.MaxRequestsAddedPerFrame ∧
      ((∀ j, AddResults j = CURLM_OK) →
        ((OfferedHandles T).length : Int) ≤ s.MaxRequestsAddedPerFrame) := by
  obtain ⟨s1, T, hrun, hT, _, hall, hcap, _⟩ :=
    HttpThreadTick_ledger MaxValue s n RunningRequests Messages AddResults hw
  refine ⟨s1, T, hrun, hT, hcap hpos, fun hok => ?_⟩
  rw [hall hok]
  exact hcap hpos

/-- C2, instance: a cap of one, two pending handles, the first add rejected. -/
theorem bounded_burst_witness :
    WellFormed ⟨1, 0, 1, 0, [(1, ⟨10, false, false, ⟨1, 1⟩⟩), (2, ⟨20, false, false, ⟨2, 2⟩⟩)],
      [], []⟩ ∧
    (0 : Int) < 1 ∧
    ∃ s1 T, HttpThreadTick 1000
        ⟨1, 0, 1, 0, [(1, ⟨10, false, false, ⟨1, 1⟩⟩), (2, ⟨20, false, false, ⟨2, 2⟩⟩)], [], []⟩
        2 0 [] (fun i => if i = 0 then 2 else CURLM_OK) = Result.ok s1 ∧
      s1.Trace = [] ++ T ∧
      ((AcceptedHandles T).length : Int) ≤ 1 ∧
      ((∀ j, (fun i => if i = 0 then 2 else CURLM_OK) j = CURLM_OK) →
        ((OfferedHandles T).length : Int) ≤ 1) :=
  ⟨⟨by decide, by decide⟩, by decide,
    bounded_burst 1000
      ⟨1, 0, 1, 0, [(1, ⟨10, false, false, ⟨1, 1⟩⟩), (2, ⟨20, false, false, ⟨2, 2⟩⟩)], [], []⟩
      2 0 [] (fun i => if i = 0 then 2 else CURLM_OK) ⟨by decide, by decide⟩ (by decide)⟩

/-- C2 as stated fails, in two ways. With `MaxRequestsAddedPerFrame = 1`, two pending
requests and a multiplexer that rejects the first add and accepts the second, one tick
hands both handles to the multiplexer and marks both `bProcessingStarted`. With the non-zero
setting `MaxRequestsAddedPerFrame = -1` a tick admits no handle, and zero exceeds the cap. -/
theorem bounded_burst_counterexample :
    (∃ s0 s1 s2, FCurlHttpManager.ctor 1 none (some 1) = Result.ok s0 ∧
      Run 1000 s0 [Event.Start ⟨1, 1⟩ 10 0, Event.Start ⟨2, 2⟩ 20 1] = Result.ok s1 ∧
      HttpThreadTick 1000 s1 2 0 [] (fun i => if i = 0 then 2 else CURLM_OK) = Result.ok s2 ∧
      s1.MaxRequestsAddedPerFrame = 1 ∧
      OfferedHandles s1.Trace = [] ∧ OfferedHandles s2.Trace = [1, 2] ∧
      (s1.HandlesToRequests.map fun e => (e.1, e.2.bProcessingStarted)) =
        [(1, false), (2, false)] ∧
      (s2.HandlesToRequests.map fun e => (e.1, e.2.bProcessingStarted)) =
        [(1, true), (2, true)]) ∧
    (∃ s0 s1 s2, FCurlHttpManager.ctor 1 none (some (-1)) = Result.ok s0 ∧
      Run 1000 s0 [Event.Start ⟨1, 1⟩ 10 0] = Result.ok s1 ∧
      HttpThreadTick 1000 s1 1 0 [] (fun _ => CURLM_OK) = Result.ok s2 ∧
      s1.MaxRequestsAddedPerFrame ≠ 0 ∧ OfferedHandles s2.Trace = [] ∧
      ¬ ((OfferedHandles s2.Trace).length : Int) ≤ s1.MaxRequestsAddedPerFrame) :=
  ⟨⟨_, _, _, rfl, rfl, rfl, by decide, by decide, by decide, by decide, by decide⟩,
   ⟨_, _, _, rfl, rfl, rfl, by decide, by decide, by decide⟩⟩

/-- C7 (amended): in the admission loop of `HttpThreadTick` the local `NumAdded` is
incremented exactly in the iterations in which the multiplexer accepts the handle; a
rejected add leaves it unchanged. On every registry the loop returns with `NumAdded` equal
to the number of accepted adds, each iteration being one accepted or one rejected add; so
with `MaxRequestsAddedPerFrame = k > 0` at most `k` adds are accepted in one tick and the
loop runs at most `k` iterations beyond the rejected ones. -/
theorem NumAdded_counts_accepted_adds (MaxValue : FDateTime) (AddResults : Nat → CURLMcode)
    (s : FCurlHttpManager) (hnd : (TMap.Keys s.HandlesToRequests).Nodup) :
    ∃ s1 NumAdded T,
      AdmissionLoop MaxValue AddResults s.HandlesToRequests.length 0 0 s
        = Result.ok (s1, NumAdded) ∧
      s1.Trace = s.Trace ++ T ∧
      NumAdded = ((AcceptedHandles T).length : Int) ∧
      (OfferedHandles T).length = (AcceptedHandles T).length + (RejectedHandles T).length ∧
      (0 < s.MaxRequestsAddedPerFrame →
        NumAdded ≤ s.MaxRequestsAddedPerFrame ∧
        ((OfferedHandles T).length : Int) ≤
          s.MaxRequestsAddedPerFrame + ((RejectedHandles T).length : Int)) := by
  obtain ⟨out, hrun, T, hT, hnum, _, hsplit, _, _, hcap, _, _, _⟩ :=
    AdmissionLoop_ledger MaxValue AddResults s.HandlesToRequests.length 0 0 s hnd
      (Eligible_length_le _ _)
  refine ⟨out.1, out.2, T, hrun, hT, by simpa using hnum, hsplit, fun hpos => ?_⟩
  have h1 := hcap hpos (le_of_lt hpos)
  refine ⟨h1, ?_⟩
  rw [hnum] at h1
  rw [hsplit]
  push_cast
  omega

/-- C7, instance: a cap of one, two pending handles, every add rejected. -/
theorem NumAdded_counts_accepted_adds_witness :
    (TMap.Keys [((1 : CURL), (⟨10, false, false, ⟨1, 1⟩⟩ : CurlEasyRequestData)),
      (2, ⟨20, false, false, ⟨2, 2⟩⟩)]).Nodup ∧
    ∃ s1 NumAdded T,
      AdmissionLoop 1000 (fun _ => 2) 2 0 0
        ⟨1, 0, 1, 0, [(1, ⟨10, false, false, ⟨1, 1⟩⟩), (2, ⟨20, false, false, ⟨2, 2⟩⟩)], [], []⟩
        = Result.ok (s1, NumAdded) ∧
      s1.Trace = [] ++ T ∧
      NumAdded = ((AcceptedHandles T).length : Int) ∧
      (OfferedHandles T).length = (AcceptedHandles T).length + (RejectedHandles T).length ∧
      ((0 : Int) < 1 →
        NumAdded ≤ 1 ∧
        ((OfferedHandles T).length : Int) ≤ 1 + ((RejectedHandles T).length : Int)) :=
  ⟨by decide,
    NumAdded_counts_accepted_adds 1000 (fun _ => 2)
      ⟨1, 0, 1, 0, [(1, ⟨10, false, false, ⟨1, 1⟩⟩), (2, ⟨20, false, false, ⟨2, 2⟩⟩)], [], []⟩
      (by decide)⟩

/-- C7 as stated fails: with `MaxRequestsAddedPerFrame = 1`, two pending requests and a
multiplexer that rejects every add, the admission loop of one tick runs two iterations
(both handles are offered) and leaves `NumAdded` at 0. -/
theorem NumAdded_counterexample :
    ∃ s0 s1 s2, FCurlHttpManager.ctor 1 none (some 1) = Result.ok s0 ∧
      Run 1000 s0 [Event.Start ⟨1, 1⟩ 10 0, Event.Start ⟨2, 2⟩ 20 1] = Result.ok s1 ∧
      AdmissionLoop 1000 (fun _ => 2) s1.HandlesToRequests.length 0 0 s1 = Result.ok (s2, 0) ∧
      s1.MaxRequestsAddedPerFrame = 1 ∧
      OfferedHandles s1.Trace = [] ∧ OfferedHandles s2.Trace = [1, 2] ∧
      RejectedHandles s2.Trace = [1, 2] :=
  ⟨_, _, _, rfl, rfl, rfl, by decide, by decide, by decide, by decide⟩

theorem PendingStamps_cons (k : CURL) (v : CurlEasyRequestData) (rest : TMap) :
    PendingStamps ((k, v) :: rest) =
      if v.bProcessingStarted = false then (k, v.DateTime) :: PendingStamps rest
      else PendingStamps rest := by
  cases hs : v.bProcessingStarted <;> simp [PendingStamps, Unadmitted, List.filter_cons, hs]

theorem mem_PendingStamps {m : TMap} {a : CURL × FDateTime} :
    a ∈ PendingStamps m ↔
      ∃ e ∈ m, e.2.bProcessingStarted = false ∧ a = (e.1, e.2.DateTime) := by
  simp only [PendingStamps, Unadmitted, List.mem_map, List.mem_filter]
  constructor
  · rintro ⟨e, ⟨he, hs⟩, rfl⟩
    exact ⟨e, he, by simpa using hs, rfl⟩
  · rintro ⟨e, he, hs, rfl⟩
    exact ⟨e, ⟨he, by simpa using hs⟩, rfl⟩

theorem PendingStamps_Update_started {m : TMap} {h : CURL} {d : CurlEasyRequestData}
    {f : CurlEasyRequestData → CurlEasyRequestData}
    (hfind : TMap.Find m h = some d) (hs : d.bProcessingStarted = false)
    (hf : (f d).bProcessingStarted = true) :
    ∃ pre post, PendingStamps m = pre ++ (h, d.DateTime) :: post ∧
      PendingStamps (TMap.Update m h f) = pre ++ post := by
  induction m with
  | nil => simp [TMap.Find] at hfind
  | cons q rest ih =>
    obtain ⟨k0, v0⟩ := q
    by_cases hk : k0 = h
    · subst hk
      simp only [TMap.Find, if_true, Option.some.injEq] at hfind
      subst hfind
      exact ⟨[], PendingStamps rest, by simp [PendingStamps_cons, hs],
        by simp [TMap.Update, PendingStamps_cons, hf]⟩
    · simp only [TMap.Find, hk, if_false] at hfind
      obtain ⟨pre, post, h1, h2⟩ := ih hfind
      simp only [TMap.Update, hk, if_false, PendingStamps_cons]
      split
      · exact ⟨(k0, v0.DateTime) :: pre, post, by simp [h1], by simp [h2]⟩
      · exact ⟨pre, post, h1, h2⟩

/-- A write that leaves `DateTime` and `bProcessingStarted` alone leaves the pending stamps
alone. -/
theorem PendingStamps_Update_same (m : TMap) (h : CURL)
    (f : CurlEasyRequestData → CurlEasyRequestData)
    (hf : ∀ d, (f d).bProcessingStarted = d.bProcessingStarted ∧ (f d).DateTime = d.DateTime) :
    PendingStamps (TMap.Update m h f) = PendingStamps m := by
  induction m with
  | nil => rfl
  | cons q rest ih =>
    obtain ⟨k0, v0⟩ := q
    by_cases hk : k0 = h
    · simp only [TMap.Update, hk, if_true, PendingStamps_cons, (hf v0).1, (hf v0).2]
    · simp only [TMap.Update, hk, if_false, PendingStamps_cons, ih]

theorem DrainMessage_PendingStamps (s : FCurlHttpManager) (Message : CURLMsg) :
    PendingStamps (DrainMessage s Message).HandlesToRequests =
      PendingStamps s.HandlesToRequests := by
  unfold DrainMessage
  dsimp only
  split
  · split
    · exact PendingStamps_Update_same _ _ _ (fun _ => ⟨rfl, rfl⟩)
    · rfl
  · rfl

theorem PerformAndDrain_PendingStamps (s : FCurlHttpManager) (RunningRequests : Int)
    (Messages : List CURLMsg) (hw : WellFormed s) :
    PendingStamps (PerformAndDrain s RunningRequests Messages).HandlesToRequests =
      PendingStamps s.HandlesToRequests := by
  have hw1 : WellFormed { s with Trace := s.Trace ++ [Call.curl_multi_perform] } := hw
  unfold PerformAndDrain
  dsimp only
  split
  · exact (DrainLoop_rule
      (fun t => PendingStamps t.HandlesToRequests = PendingStamps s.HandlesToRequests)
      (fun t Message _ h => (DrainMessage_PendingStamps t Message).trans h)
      Messages _ hw1 rfl).2
  · rfl

theorem AdmitHandle_PendingStamps (s : FCurlHttpManager) (n : Int) {h : CURL}
    {d : CurlEasyRequestData} (r : CURLMcode)
    (hfind : TMap.Find s.HandlesToRequests h = some d) (hs : d.bProcessingStarted = false) :
    ∃ pre post, PendingStamps s.HandlesToRequests = pre ++ (h, d.DateTime) :: post ∧
      PendingStamps (AdmitHandle s n h d r).1.HandlesToRequests = pre ++ post := by
  unfold AdmitHandle
  split
  · exact PendingStamps_Update_started hfind hs rfl
  · exact PendingStamps_Update_started hfind hs rfl

theorem FirstMinBelow.stamp {L : FDateTime} {m : TMap} {h : CURL} {d : CurlEasyRequestData}
    (hf : FirstMinBelow L m h d) :
    (h, d.DateTime) ∈ PendingStamps m ∧ ∀ a ∈ PendingStamps m, d.DateTime ≤ a.2 := by
  refine ⟨mem_PendingStamps.2 ⟨(h, d), hf.mem, hf.started, rfl⟩, ?_⟩
  intro a ha
  obtain ⟨e, he, hs, rfl⟩ := mem_PendingStamps.1 ha
  exact hf.least he hs

theorem FifoProgress_step {MaxValue : FDateTime} {s0 t : FCurlHttpManager} (n : Int) {h : CURL}
    {d : CurlEasyRequestData} (r : CURLMcode)
    (hf : FirstMinBelow MaxValue t.HandlesToRequests h d)
    (hfind : TMap.Find t.HandlesToRequests h = some d) (hP : FifoProgress s0 t) :
    FifoProgress s0 (AdmitHandle t n h d r).1 := by
  obtain ⟨hsim, hper, hnd, T, done, hT, hO, hsorted, hperm, hlt⟩ := hP
  obtain ⟨hmem, hleast⟩ := hf.stamp
  obtain ⟨pre, post, hsplit, hstamps⟩ := AdmitHandle_PendingStamps t n r hfind hf.started
  have hsub : (pre ++ post).Sublist (PendingStamps t.HandlesToRequests) := by
    rw [hsplit]
    exact List.Sublist.append_left (List.sublist_cons_self _ _) pre
  have hrest : ∀ b ∈ pre ++ post, d.DateTime < b.2 := by
    intro b hb
    have hb1 : b ∈ PendingStamps t.HandlesToRequests := hsub.subset hb
    refine lt_of_le_of_ne (hleast b hb1) ?_
    intro heq
    have hbeq : (h, d.DateTime) = b := List.inj_on_of_nodup_map hnd hmem hb1 heq
    have hndp : (pre ++ (h, d.DateTime) :: post).Nodup := by
      rw [← hsplit]; exact List.Nodup.of_map _ hnd
    have hnot : (h, d.DateTime) ∉ pre ++ post := by
      intro hc
      rcases List.mem_append.1 hc with h1 | h1
      · exact (List.nodup_append.1 hndp).2.2 h1 (List.mem_cons_self _ _)
      · exact (List.nodup_cons.1 (List.nodup_append.1 hndp).2.1).1 h1
    exact hnot (hbeq ▸ hb)
  refine ⟨?_, ?_, ?_, T ++ [Call.curl_multi_add_handle h r,
    Call.SetAddToCurlMultiResult d.Request r], done ++ [(h, d.DateTime)], ?_, ?_, ?_, ?_, ?_⟩
  · rw [(AdmitHandle_config t n h d r).2.1]; exact hsim
  · rw [(AdmitHandle_config t n h d r).2.2]; exact hper
  · rw [hstamps]
    exact List.Nodup.sublist (List.Sublist.map _ hsub) hnd
  · rw [AdmitHandle_Trace, hT, List.append_assoc]
  · rw [OfferedHandles_append, OfferedHandles_admit, hO]; simp
  · unfold List.Sorted at hsorted ⊢
    rw [List.pairwise_append]
    refine ⟨hsorted, List.pairwise_singleton _ _, ?_⟩
    intro a ha b hb
    rw [List.mem_singleton] at hb
    subst hb
    exact hlt a ha _ hmem
  · rw [hstamps, List.append_assoc]
    refine List.Perm.trans ?_ hperm
    rw [hsplit]
    have hp : ([(h, d.DateTime)] ++ (pre ++ post)).Perm (pre ++ (h, d.DateTime) :: post) := by
      rw [List.singleton_append]
      exact (@List.perm_middle _ (h, d.DateTime) pre post).symm
    exact List.Perm.append_left done hp
  · intro a ha b hb
    rw [hstamps] at hb
    rcases List.mem_append.1 ha with ha1 | ha1
    · exact hlt a ha1 b (hsub.subset hb)
    · rw [List.mem_singleton] at ha1
      subst ha1
      exact hrest b hb

theorem PendingStamps_nil_of_Eligible_nil {MaxValue : FDateTime} {m : TMap}
    (hE : Eligible MaxValue m = []) (hbelow : ∀ a ∈ PendingStamps m, a.2 < MaxValue) :
    PendingStamps m = [] := by
  rw [List.eq_nil_iff_forall_not_mem]
  intro a ha
  have hlt := hbelow a ha
  obtain ⟨e, he, hs, rfl⟩ := mem_PendingStamps.1 ha
  have : e ∈ Eligible MaxValue m := by
    simp only [Eligible, List.mem_filter]
    exact ⟨he, by simp [hs]; exact hlt⟩
  rw [hE] at this
  cases this

/-- The admission loop with both caps at zero, on a registry with unique keys whose pending
timestamps are pairwise distinct and below the sentinel: the loop returns and has offered
all pending handles, in increasing order of timestamp. -/
theorem AdmissionLoop_fifo (MaxValue : FDateTime) (AddResults : Nat → CURLMcode)
    (s : FCurlHttpManager) (hnd : (TMap.Keys s.HandlesToRequests).Nodup)
    (hsim : s.MaxSimultaneousRequests = 0) (hper : s.MaxRequestsAddedPerFrame = 0)
    (hbelow : ∀ a ∈ PendingStamps s.HandlesToRequests, a.2 < MaxValue)
    (hdistinct : ((PendingStamps s.HandlesToRequests).map Prod.snd).Nodup) :
    ∃ out T es, AdmissionLoop MaxValue AddResults s.HandlesToRequests.length 0 0 s
        = Result.ok out ∧ out.1.Trace = s.Trace ++ T ∧ OfferedHandles T = es.map Prod.fst ∧
      List.Sorted (fun a b : CURL × FDateTime => a.2 < b.2) es ∧
      es.Perm (PendingStamps s.HandlesToRequests) := by
  obtain ⟨out, _, hrun, hP, hndout, hexit⟩ :=
    AdmissionLoop_rule MaxValue AddResults (fun t _ _ => FifoProgress s t)
      (fun t n i h d _ hP _ hf hfind => FifoProgress_step n (AddResults i) hf hfind hP)
      s.HandlesToRequests.length 0 0 s hnd (Eligible_length_le _ _)
      ⟨hsim, hper, hdistinct, [], [], by simp, rfl, List.sorted_nil, by simp,
        fun a ha => by cases ha⟩
  obtain ⟨hsim1, hper1, _, T, done, hT, hO, hsorted, hperm, _⟩ := hP
  have hb : HasBudget out.1 out.2 = true := by simp [HasBudget, hsim1, hper1]
  have hF : (FindNextEasyHandle MaxValue out.1.HandlesToRequests).1 = false := by
    simpa [hb] using hexit
  have hE : Eligible MaxValue out.1.HandlesToRequests = [] := by
    rcases FindNextEasyHandle_select MaxValue hndout with ⟨h1, _⟩ | ⟨h, d, _, _, h2⟩
    · exact h1
    · rw [h2] at hF; cases hF
  have hnil : PendingStamps out.1.HandlesToRequests = [] := by
    apply PendingStamps_nil_of_Eligible_nil hE
    intro a ha
    exact hbelow a (hperm.subset (List.mem_append_right _ ha))
  rw [hnil, List.append_nil] at hperm
  exact ⟨out, T, done, hrun, hT, hO, hsorted, hperm⟩

/-- C3: FIFO admission. When both caps are 0 and the unadmitted registry entries carry
pairwise distinct submission timestamps, a single `HttpThreadTick` returns and hands exactly
those handles to the multiplexer, in increasing order of timestamp, whatever the iteration
order of the registry and whatever the multiplexer answers. The two conditions `hn` and
`hbelow` say what holds of every tick and every timestamp in operation: the tick finds
`RunningThreadedRequests` not empty (the base class keeps the started requests there), and a
submission timestamp is a clock reading, hence below `FDateTime::MaxValue()`. -/
theorem fifo_admission (MaxValue : FDateTime) (s : FCurlHttpManager) (n : Nat)
    (RunningRequests : Int) (Messages : List CURLMsg) (AddResults : Nat → CURLMcode)
    (hw : WellFormed s) (hn : 0 < n)
    (hsim : s.MaxSimultaneousRequests = 0) (hper : s.MaxRequestsAddedPerFrame = 0)
    (hbelow : ∀ a ∈ PendingStamps s.HandlesToRequests, a.2 < MaxValue)
    (hdistinct : ((PendingStamps s.HandlesToRequests).map Prod.snd).Nodup) :
    ∃ s1 T es, HttpThreadTick MaxValue s n RunningRequests Messages AddResults
        = Result.ok s1 ∧ s1.Trace = s.Trace ++ T ∧ OfferedHandles T = es.map Prod.fst ∧
      List.Sorted (fun a b : CURL × FDateTime => a.2 < b.2) es ∧
      es.Perm (PendingStamps s.HandlesToRequests) := by
  obtain ⟨hw2, _, c2, c3, T0, hT0, hO0⟩ :=
    PerformAndDrain_DrainFrame s RunningRequests Messages hw
  have hst := PerformAndDrain_PendingStamps s RunningRequests Messages hw
  obtain ⟨out, T, es, hrun, hT, hO, hsorted, hperm⟩ :=
    AdmissionLoop_fifo MaxValue AddResults (PerformAndDrain s RunningRequests Messages) hw2.2
      (c2.trans hsim) (c3.trans hper) (by rw [hst]; exact hbelow) (by rw [hst]; exact hdistinct)
  refine ⟨out.1, T0 ++ T, es,
    HttpThreadTick_unfold MaxValue s n RunningRequests Messages AddResults hw.1 hn out hrun,
    ?_, ?_, hsorted, ?_⟩
  · rw [hT, hT0, List.append_assoc]
  · rw [OfferedHandles_append, hO0, hO]; rfl
  · rw [hst] at hperm; exact hperm

/-- The statement of C3 on three pending handles stored against their order of submission. -/
theorem fifo_admission_witness :
    WellFormed ⟨1, 0, 0, 0, [(3, ⟨30, false, false, ⟨3, 3⟩⟩), (1, ⟨10, false, false, ⟨1, 1⟩⟩),
      (2, ⟨20, false, false, ⟨2, 2⟩⟩)], [], []⟩ ∧
    ∃ s1 T es, HttpThreadTick 1000
        ⟨1, 0, 0, 0, [(3, ⟨30, false, false, ⟨3, 3⟩⟩), (1, ⟨10, false, false, ⟨1, 1⟩⟩),
          (2, ⟨20, false, false, ⟨2, 2⟩⟩)], [], []⟩ 3 0 [] (fun _ => CURLM_OK)
        = Result.ok s1 ∧ s1.Trace = [] ++ T ∧ OfferedHandles T = es.map Prod.fst ∧
      List.Sorted (fun a b : CURL × FDateTime => a.2 < b.2) es ∧
      es.Perm (PendingStamps [(3, ⟨30, false, false, ⟨3, 3⟩⟩), (1, ⟨10, false, false, ⟨1, 1⟩⟩),
          (2, ⟨20, false, false, ⟨2, 2⟩⟩)]) :=
  ⟨⟨by decide, by decide⟩,
    fifo_admission 1000
      ⟨1, 0, 0, 0, [(3, ⟨30, false, false, ⟨3, 3⟩⟩), (1, ⟨10, false, false, ⟨1, 1⟩⟩),
        (2, ⟨20, false, false, ⟨2, 2⟩⟩)], [], []⟩ 3 0 [] (fun _ => CURLM_OK)
      ⟨by decide, by decide⟩ (by decide) rfl rfl (by decide) (by decide)⟩

/-- The two side conditions of `fifo_admission` in the model cannot be dropped. With both
caps 0 and two unadmitted entries, one of them stamped with the sentinel
`FDateTime::MaxValue()` itself, one tick hands only the other handle to the multiplexer. And
a tick that finds `RunningThreadedRequests` empty skips the curl section and hands nothing
to the multiplexer. -/
theorem fifo_admission_side_conditions :
    (∃ s0 s1 s2, FCurlHttpManager.ctor 1 none none = Result.ok s0 ∧
      Run 3155378975999999999 s0
        [Event.Start ⟨1, 1⟩ 10 0, Event.Start ⟨2, 2⟩ 3155378975999999999 1] = Result.ok s1 ∧
      HttpThreadTick 3155378975999999999 s1 2 0 [] (fun _ => CURLM_OK) = Result.ok s2 ∧
      s1.MaxSimultaneousRequests = 0 ∧ s1.MaxRequestsAddedPerFrame = 0 ∧
      PendingStamps s1.HandlesToRequests = [(1, 10), (2, 3155378975999999999)] ∧
      OfferedHandles s1.Trace = [] ∧ OfferedHandles s2.Trace = [1] ∧
      PendingStamps s2.HandlesToRequests = [(2, 3155378975999999999)]) ∧
    (∃ s0 s1 s2, FCurlHttpManager.ctor 1 none none = Result.ok s0 ∧
      Run 3155378975999999999 s0
        [Event.Start ⟨1, 1⟩ 10 0, Event.Start ⟨2, 2⟩ 20 1] = Result.ok s1 ∧
      HttpThreadTick 3155378975999999999 s1 0 0 [] (fun _ => CURLM_OK) = Result.ok s2 ∧
      s1.MaxSimultaneousRequests = 0 ∧ s1.MaxRequestsAddedPerFrame = 0 ∧
      PendingStamps s1.HandlesToRequests = [(1, 10), (2, 20)] ∧
      OfferedHandles s2.Trace = [] ∧
      PendingStamps s2.HandlesToRequests = [(1, 10), (2, 20)]) :=
  ⟨⟨_, _, _, rfl, rfl, rfl, by decide, by decide, by decide, by decide, by decide, by decide⟩,
   ⟨_, _, _, rfl, rfl, rfl, by decide, by decide, by decide, by decide, by decide⟩⟩

/-- C8: Scenario A. On a manager constructed with `MaxSimultaneousRequests = 2` and
`MaxRequestsAddedPerFrame = 1`, three requests `R1`, `R2`, `R3` with distinct handles are
submitted in that order at the times `t1 < t2 < t3` (clock readings, below the sentinel
`FDateTime::MaxValue()`), the multiplexer accepts every add, and every tick finds
`RunningThreadedRequests` non-empty. The first tick hands over `R1` only; the second hands
over `R2`, which makes two in flight; the third hands over nothing and `R3` is still
unadmitted; the fourth tick, in which the completion of `R1` (with any result code) is
drained, hands over `R3`. -/
theorem scenario_A (MaxValue : FDateTime) (GMultiHandle : CURLM) (R1 R2 R3 : FCurlHttpRequest)
    (t1 t2 t3 : FDateTime) (Code : CURLcode) (n1 n2 n3 n4 : Nat) (rr1 rr2 rr3 rr4 : Int)
    (hG : GMultiHandle ≠ 0)
    (h12 : R1.EasyHandle ≠ R2.EasyHandle) (h13 : R1.EasyHandle ≠ R3.EasyHandle)
    (h23 : R2.EasyHandle ≠ R3.EasyHandle)
    (ht12 : t1 < t2) (ht23 : t2 < t3) (ht3 : t3 < MaxValue)
    (hn1 : 0 < n1) (hn2 : 0 < n2) (hn3 : 0 < n3) (hn4 : 0 < n4)
    (hrr4 : rr4 = 0 ∨ rr4 ≠ 2) :
    ∃ s0, FCurlHttpManager.ctor GMultiHandle (some 2) (some 1) = Result.ok s0 ∧
      (∃ a, Run MaxValue s0 [Event.Start R1 t1 0, Event.Start R2 t2 1, Event.Start R3 t3 2,
          Event.Tick n1 rr1 [] (fun _ => CURLM_OK)] = Result.ok a ∧
        OfferedHandles a.Trace = [R1.EasyHandle] ∧ a.NumRequestsAddedToMulti = 1 ∧
        PendingStamps a.HandlesToRequests = [(R2.EasyHandle, t2), (R3.EasyHandle, t3)]) ∧
      (∃ b, Run MaxValue s0 [Event.Start R1 t1 0, Event.Start R2 t2 1, Event.Start R3 t3 2,
          Event.Tick n1 rr1 [] (fun _ => CURLM_OK),
          Event.Tick n2 rr2 [] (fun _ => CURLM_OK)] = Result.ok b ∧
        OfferedHandles b.Trace = [R1.EasyHandle, R2.EasyHandle] ∧
        b.NumRequestsAddedToMulti = 2 ∧
        PendingStamps b.HandlesToRequests = [(R3.EasyHandle, t3)]) ∧
      (∃ c, Run MaxValue s0 [Event.Start R1 t1 0, Event.Start R2 t2 1, Event.Start R3 t3 2,
          Event.Tick n1 rr1 [] (fun _ => CURLM_OK),
          Event.Tick n2 rr2 [] (fun _ => CURLM_OK),
          Event.Tick n3 rr3 [] (fun _ => CURLM_OK)] = Result.ok c ∧
        OfferedHandles c.Trace = [R1.EasyHandle, R2.EasyHandle] ∧
        c.NumRequestsAddedToMulti = 2 ∧
        PendingStamps c.HandlesToRequests = [(R3.EasyHandle, t3)]) ∧
      (∃ d, Run MaxValue s0 [Event.Start R1 t1 0, Event.Start R2 t2 1, Event.Start R3 t3 2,
          Event.Tick n1 rr1 [] (fun _ => CURLM_OK),
          Event.Tick n2 rr2 [] (fun _ => CURLM_OK),
          Event.Tick n3 rr3 [] (fun _ => CURLM_OK),
          Event.Tick n4 rr4 [⟨CURLMSG.DONE, R1.EasyHandle, Code⟩] (fun _ => CURLM_OK)]
            = Result.ok d ∧
        OfferedHandles d.Trace = [R1.EasyHandle, R2.EasyHandle, R3.EasyHandle] ∧
        d.NumRequestsAddedToMulti = 2 ∧
        PendingStamps d.HandlesToRequests = []) := by
  have h21 := h12.symm
  have h31 := h13.symm
  have h32 := h23.symm
  have ht13 : t1 < t3 := lt_trans ht12 ht23
  have ht1 : t1 < MaxValue := lt_trans ht13 ht3
  have ht2 : t2 < MaxValue := lt_trans ht23 ht3
  have hn21 : ¬ t2 < t1 := Nat.not_lt.2 (Nat.le_of_lt ht12)
  have hn31 : ¬ t3 < t1 := Nat.not_lt.2 (Nat.le_of_lt ht13)
  have hn32 : ¬ t3 < t2 := Nat.not_lt.2 (Nat.le_of_lt ht23)
  have hm1 : t1 ≠ MaxValue := Nat.ne_of_lt ht1
  have hm2 : t2 ≠ MaxValue := Nat.ne_of_lt ht2
  have hm3 : t3 ≠ MaxValue := Nat.ne_of_lt ht3
  simp [FCurlHttpManager.ctor, Run, Step, StartThreadedRequest, FCurlHttpRequest.GetEasyHandle,
      CurlEasyRequestData.ctor, TMap.Add, TMap.Contains, TMap.Find, TMap.InsertAt, TMap.Update,
      HttpThreadTick, PerformAndDrain, DrainLoop, DrainMessage, AdmissionLoop, HasBudget,
      FindNextEasyHandle, FindNextEasyHandle.scan, FindNextEasyHandle.visit, AdmitHandle,
      CURLM_OK, OfferedHandles, PendingStamps, Unadmitted, *]
  rintro a b (⟨_, rfl⟩ | ⟨_, rfl⟩ | ⟨_, rfl⟩) <;> rfl

/-- C8, instance: the scenario with the times 10, 20, 30 and a completion of `R1` with the
result code 0. -/
theorem scenario_A_witness :
    ∃ s0, FCurlHttpManager.ctor 7 (some 2) (some 1) = Result.ok s0 ∧
      (∃ a, Run 1000 s0 [Event.Start ⟨101, 1⟩ 10 0, Event.Start ⟨102, 2⟩ 20 1,
          Event.Start ⟨103, 3⟩ 30 2,
          Event.Tick 3 0 [] (fun _ => CURLM_OK)] = Result.ok a ∧
        OfferedHandles a.Trace = [1] ∧ a.NumRequestsAddedToMulti = 1 ∧
        PendingStamps a.HandlesToRequests = [(2, 20), (3, 30)]) ∧
      (∃ b, Run 1000 s0 [Event.Start ⟨101, 1⟩ 10 0, Event.Start ⟨102, 2⟩ 20 1,
          Event.Start ⟨103, 3⟩ 30 2,
          Event.Tick 3 0 [] (fun _ => CURLM_OK),
          Event.Tick 3 1 [] (fun _ => CURLM_OK)] = Result.ok b ∧
        OfferedHandles b.Trace = [1, 2] ∧
        b.NumRequestsAddedToMulti = 2 ∧
        PendingStamps b.HandlesToRequests = [(3, 30)]) ∧
      (∃ c, Run 1000 s0 [Event.Start ⟨101, 1⟩ 10 0, Event.Start ⟨102, 2⟩ 20 1,
          Event.Start ⟨103, 3⟩ 30 2,
          Event.Tick 3 0 [] (fun _ => CURLM_OK),
          Event.Tick 3 1 [] (fun _ => CURLM_OK),
          Event.Tick 3 2 [] (fun _ => CURLM_OK)] = Result.ok c ∧
        OfferedHandles c.Trace = [1, 2] ∧
        c.NumRequestsAddedToMulti = 2 ∧
        PendingStamps c.HandlesToRequests = [(3, 30)]) ∧
      (∃ d, Run 1000 s0 [Event.Start ⟨101, 1⟩ 10 0, Event.Start ⟨102, 2⟩ 20 1,
          Event.Start ⟨103, 3⟩ 30 2,
          Event.Tick 3 0 [] (fun _ => CURLM_OK),
          Event.Tick 3 1 [] (fun _ => CURLM_OK),
          Event.Tick 3 2 [] (fun _ => CURLM_OK),
          Event.Tick 3 1 [⟨CURLMSG.DONE, 1, 0⟩] (fun _ => CURLM_OK)]
            = Result.ok d ∧
        OfferedHandles d.Trace = [1, 2, 3] ∧
        d.NumRequestsAddedToMulti = 2 ∧
        PendingStamps d.HandlesToRequests = []) :=
  scenario_A 1000 7 ⟨101, 1⟩ ⟨102, 2⟩ ⟨103, 3⟩ 10 20 30 0 3 3 3 3 0 1 2 1 (by decide)
    (by decide) (by decide) (by decide) (by decide) (by decide) (by decide) (by decide)
    (by decide) (by decide) (by decide) (by decide)

theorem DrainMessage_Find (s : FCurlHttpManager) (Message : CURLMsg) (k : CURL) :
    TMap.Find (DrainMessage s Message).HandlesToRequests k =
      if Message.msg = CURLMSG.DONE ∧ k = Message.easy_handle then
        (TMap.Find s.HandlesToRequests k).map ClearAdded
      else TMap.Find s.HandlesToRequests k := by
  unfold DrainMessage
  dsimp only
  by_cases hm : Message.msg = CURLMSG.DONE
  · simp only [hm, if_true, true_and]
    cases hf : TMap.Find s.HandlesToRequests Message.easy_handle with
    | none =>
      simp only
      by_cases hk : k = Message.easy_handle
      · subst hk; simp [hf]
      · simp [hk]
    | some d =>
      simp only
      rw [TMap.Find_Update]
      by_cases hk : k = Message.easy_handle
      · subst hk; simp [hf, ClearAdded]
      · simp [hk]
  · simp [hm]

theorem AdmitHandle_Find (s : FCurlHttpManager) (n : Int) (h : CURL) (d : CurlEasyRequestData)
    (r : CURLMcode) (k : CURL) :
    TMap.Find (AdmitHandle s n h d r).1.HandlesToRequests k =
      if k = h then (TMap.Find s.HandlesToRequests h).map (MarkStarted r)
      else TMap.Find s.HandlesToRequests k := by
  unfold AdmitHandle
  split
  · rename_i hr
    have hf : MarkStarted r = fun d =>
        { d with bProcessingStarted := true, bAddedToMulti := true } := by
      funext d; simp [MarkStarted, hr]
    simp only [TMap.Find_Update, hf]
  · rename_i hr
    have hf : MarkStarted r = fun d => { d with bProcessingStarted := true } := by
      funext d; simp [MarkStarted, hr]
    simp only [TMap.Find_Update, hf]

theorem StartThreadedRequest_Find (s : FCurlHttpManager) (Request : FCurlHttpRequest)
    (Now : FDateTime) (Slot : Nat) (k : CURL) :
    TMap.Find (StartThreadedRequest s Request Now Slot).HandlesToRequests k =
      if k = Request.EasyHandle then some (CurlEasyRequestData.ctor Request Now)
      else TMap.Find s.HandlesToRequests k := by
  simp only [StartThreadedRequest, FCurlHttpRequest.GetEasyHandle]
  exact TMap.Find_Add _ _ _ _ _

theorem CompleteThreadedRequest_Find (s : FCurlHttpManager) (Request : FCurlHttpRequest)
    (k : CURL) :
    TMap.Find (CompleteThreadedRequest s Request).HandlesToRequests k =
      if k = Request.EasyHandle then none else TMap.Find s.HandlesToRequests k := by
  unfold CompleteThreadedRequest
  simp only [FCurlHttpRequest.GetEasyHandle]
  cases hf : TMap.Find s.HandlesToRequests Request.EasyHandle with
  | none =>
    simp only
    by_cases hk : k = Request.EasyHandle
    · subst hk; simp [hf]
    · simp [hk]
  | some d =>
    simp only
    split <;> exact TMap.Find_Remove _ _ _

theorem Step_WellFormed (MaxValue : FDateTime) (s : FCurlHttpManager) (e : Event)
    (hw : WellFormed s) : ∃ s1, Step MaxValue s e = Result.ok s1 ∧ WellFormed s1 := by
  cases e with
  | Start Request Now Slot => exact ⟨_, rfl, StartThreadedRequest_WellFormed hw _ _ _⟩
  | Tick n RunningRequests Messages AddResults =>
    obtain ⟨s1, hrun, hw1, _⟩ :=
      HttpThreadTick_rule MaxValue (fun _ => True) (fun _ _ _ => trivial)
        (fun _ _ _ _ => trivial) (fun _ _ _ _ _ _ _ _ _ _ => trivial)
        s n RunningRequests Messages AddResults hw trivial
    exact ⟨s1, hrun, hw1⟩
  | Complete Request => exact ⟨_, rfl, CompleteThreadedRequest_WellFormed hw _⟩

/-- Proof rule for a guarded sequence of calls. -/
theorem Run_rule_guarded (MaxValue : FDateTime) (V : FCurlHttpManager → Event → Prop)
    (P : FCurlHttpManager → Prop)
    (hstep : ∀ s e s1, WellFormed s → P s → V s e → Step MaxValue s e = Result.ok s1 → P s1) :
    ∀ (evs : List Event) (s : FCurlHttpManager), WellFormed s → P s →
      Guarded MaxValue V s evs →
      ∃ s1, Run MaxValue s evs = Result.ok s1 ∧ WellFormed s1 ∧ P s1 := by
  intro evs
  induction evs with
  | nil => intro s hw hP _; exact ⟨s, rfl, hw, hP⟩
  | cons e rest ih =>
    intro s hw hP hg
    obtain ⟨s1, hs1, hw1⟩ := Step_WellFormed MaxValue s e hw
    simp only [Guarded, hs1] at hg
    simp only [Run, hs1]
    exact ih s1 hw1 (hstep s e s1 hw hP hg.1 hs1) hg.2

theorem DrainMessage_ActiveSet (s : FCurlHttpManager) (Message : CURLMsg) :
    (DrainMessage s Message).ActiveSet =
      if Message.msg = CURLMSG.DONE then
        s.ActiveSet.filter (fun h => decide (h ≠ Message.easy_handle))
      else s.ActiveSet := by
  unfold DrainMessage
  dsimp only
  split
  · split <;> rfl
  · rfl

/-- Proof rule for the drain loop under `ReportsValid`. -/
theorem DrainLoop_rule_valid (P : FCurlHttpManager → Prop)
    (hstep : ∀ s Message, WellFormed s → P s →
      (Message.msg = CURLMSG.DONE → Message.easy_handle ∈ s.ActiveSet) →
      P (DrainMessage s Message)) :
    ∀ (Messages : List CURLMsg) (s : FCurlHttpManager), WellFormed s → P s →
      ReportsValid s.ActiveSet Messages →
      WellFormed (DrainLoop s Messages) ∧ P (DrainLoop s Messages) := by
  intro Messages
  induction Messages with
  | nil => intro s hw hP _; exact ⟨hw, hP⟩
  | cons Message rest ih =>
    intro s hw hP hv
    simp only [DrainLoop, List.foldl_cons]
    have hP1 : P (DrainMessage s Message) := by
      apply hstep s Message hw hP
      intro hm
      simp only [ReportsValid, hm, if_true] at hv
      exact hv.1
    refine ih _ (DrainMessage_WellFormed hw Message) hP1 ?_
    rw [DrainMessage_ActiveSet]
    by_cases hm : Message.msg = CURLMSG.DONE
    · simp only [ReportsValid, hm, if_true] at hv ⊢
      exact hv.2
    · simp only [ReportsValid, hm, if_false] at hv ⊢
      exact hv

/-- Proof rule for a whole tick under `ReportsValid`. -/
theorem HttpThreadTick_rule_valid (MaxValue : FDateTime) (P : FCurlHttpManager → Prop)
    (hperform : ∀ s, WellFormed s → P s →
      P { s with Trace := s.Trace ++ [Call.curl_multi_perform] })
    (hdrain : ∀ s Message, WellFormed s → P s →
      (Message.msg = CURLMSG.DONE → Message.easy_handle ∈ s.ActiveSet) →
      P (DrainMessage s Message))
    (hbody : ∀ s n h d r, WellFormed s → P s → HasBudget s n = true →
      FirstMinBelow MaxValue s.HandlesToRequests h d →
      TMap.Find s.HandlesToRequests h = some d → P (AdmitHandle s n h d r).1)
    (s : FCurlHttpManager) (RunningThreadedRequestsNum : Nat) (RunningRequests : Int)
    (Messages : List CURLMsg) (AddResults : Nat → CURLMcode) (hw : WellFormed s) (hP : P s)
    (hv : ReportsValid s.ActiveSet Messages) :
    ∃ s1, HttpThreadTick MaxValue s RunningThreadedRequestsNum RunningRequests Messages
        AddResults = Result.ok s1 ∧ WellFormed s1 ∧ P s1 := by
  unfold HttpThreadTick
  simp only [hw.1, if_false]
  by_cases hn : RunningThreadedRequestsNum > 0
  · simp only [hn, if_true]
    obtain ⟨hw2, hP2⟩ : WellFormed (PerformAndDrain s RunningRequests Messages) ∧
        P (PerformAndDrain s RunningRequests Messages) := by
      have hw1 : WellFormed { s with Trace := s.Trace ++ [Call.curl_multi_perform] } := hw
      have hP1 := hperform s hw hP
      unfold PerformAndDrain
      dsimp only
      split
      · exact DrainLoop_rule_valid P hdrain Messages _ hw1 hP1 hv
      · exact ⟨hw1, hP1⟩
    obtain ⟨out, j, hrun, ⟨hm, hPout⟩, hnd, _⟩ :=
      AdmissionLoop_rule MaxValue AddResults
        (fun t _ _ => t.MultiHandle ≠ 0 ∧ P t)
        (fun t n i h d hnd hPt hb hf hfind =>
          ⟨by rw [(AdmitHandle_config t n h d (AddResults i)).1]; exact hPt.1,
           hbody t n h d (AddResults i) ⟨hPt.1, hnd⟩ hPt.2 hb hf hfind⟩)
        (PerformAndDrain s RunningRequests Messages).HandlesToRequests.length 0 0 _ hw2.2
        (Eligible_length_le _ _) ⟨hw2.1, hP2⟩
    exact ⟨out.1, by rw [hrun], ⟨hm, hnd⟩, hPout⟩
  · simp only [hn, if_false]
    exact ⟨s, rfl, hw, hP⟩

theorem DrainMessage_Sound {s : FCurlHttpManager} (Message : CURLMsg) (hP : Sound s) :
    Sound (DrainMessage s Message) := by
  constructor
  · intro k d hf
    rw [DrainMessage_Find] at hf
    split at hf
    · obtain ⟨d0, h0, rfl⟩ := Option.map_eq_some'.1 hf
      exact hP.1 k d0 h0
    · exact hP.1 k d hf
  · intro k d hf
    rw [DrainMessage_Find] at hf
    split at hf
    · obtain ⟨d0, h0, rfl⟩ := Option.map_eq_some'.1 hf
      intro hc; simp [ClearAdded] at hc
    · exact hP.2 k d hf

theorem AdmitHandle_Sound {s : FCurlHttpManager} (n : Int) (h : CURL) (d : CurlEasyRequestData)
    (r : CURLMcode) (hP : Sound s) : Sound (AdmitHandle s n h d r).1 := by
  constructor
  · intro k d1 hf
    rw [AdmitHandle_Find] at hf
    split at hf
    · rename_i hk
      obtain ⟨d0, h0, rfl⟩ := Option.map_eq_some'.1 hf
      have := hP.1 h d0 h0
      rw [hk]
      unfold MarkStarted
      split <;> exact this
    · exact hP.1 k d1 hf
  · intro k d1 hf
    rw [AdmitHandle_Find] at hf
    split at hf
    · obtain ⟨d0, h0, rfl⟩ := Option.map_eq_some'.1 hf
      intro _
      unfold MarkStarted
      split <;> rfl
    · exact hP.2 k d1 hf

theorem StartThreadedRequest_Sound {s : FCurlHttpManager} (Request : FCurlHttpRequest)
    (Now : FDateTime) (Slot : Nat) (hP : Sound s) :
    Sound (StartThreadedRequest s Request Now Slot) := by
  constructor
  · intro k d hf
    rw [StartThreadedRequest_Find] at hf
    split at hf
    · rename_i hk
      cases hf
      exact hk.symm
    · exact hP.1 k d hf
  · intro k d hf
    rw [StartThreadedRequest_Find] at hf
    split at hf
    · cases hf
      intro hc; simp [CurlEasyRequestData.ctor] at hc
    · exact hP.2 k d hf

theorem CompleteThreadedRequest_Sound {s : FCurlHttpManager} (Request : FCurlHttpRequest)
    (hP : Sound s) : Sound (CompleteThreadedRequest s Request) := by
  constructor
  · intro k d hf
    rw [CompleteThreadedRequest_Find] at hf
    split at hf
    · cases hf
    · exact hP.1 k d hf
  · intro k d hf
    rw [CompleteThreadedRequest_Find] at hf
    split at hf
    · cases hf
    · exact hP.2 k d hf

theorem Step_Sound (MaxValue : FDateTime) (s : FCurlHttpManager) (e : Event)
    (s1 : FCurlHttpManager) (hw : WellFormed s) (hP : Sound s)
    (hstep : Step MaxValue s e = Result.ok s1) : Sound s1 := by
  cases e with
  | Start Request Now Slot =>
    simp only [Step, Result.ok.injEq] at hstep
    subst hstep
    exact StartThreadedRequest_Sound Request Now Slot hP
  | Tick n RunningRequests Messages AddResults =>
    exact HttpThreadTick_keeps MaxValue Sound (fun _ _ h => h)
      (fun _ Message _ ht => DrainMessage_Sound Message ht)
      (fun _ k h d r _ ht _ _ _ => AdmitHandle_Sound k h d r ht)
      s n RunningRequests Messages AddResults s1 hw hP hstep
  | Complete Request =>
    simp only [Step, Result.ok.injEq] at hstep
    subst hstep
    exact CompleteThreadedRequest_Sound Request hP

theorem Guarded_trivial (MaxValue : FDateTime) (evs : List Event) :
    ∀ s : FCurlHttpManager, WellFormed s → Guarded MaxValue (fun _ _ => True) s evs := by
  induction evs with
  | nil => intro _ _; trivial
  | cons e rest ih =>
    intro s hw
    obtain ⟨s1, hs1, hw1⟩ := Step_WellFormed MaxValue s e hw
    simp only [Guarded, hs1, true_and]
    exact ih s1 hw1

/-- Every sequence of calls on a freshly constructed manager runs to its end, in a
well-formed state that satisfies the entry invariants. -/
theorem Run_Sound (MaxValue : FDateTime) (GMultiHandle : CURLM)
    (CfgSimultaneous CfgPerFrame : Option Int) (evs : List Event) (hG : GMultiHandle ≠ 0) :
    ∃ s0 s, FCurlHttpManager.ctor GMultiHandle CfgSimultaneous CfgPerFrame = Result.ok s0 ∧
      Run MaxValue s0 evs = Result.ok s ∧ WellFormed s ∧ Sound s := by
  obtain ⟨s0, hctor, hw0, _, _, _, hmap, _⟩ := ctor_ok hG CfgSimultaneous CfgPerFrame
  have h0 : Sound s0 := by
    constructor <;> intro k d hf <;> rw [hmap] at hf <;> simp [TMap.Find] at hf
  obtain ⟨s, hrun, hw, hP⟩ := Run_rule_guarded MaxValue (fun _ _ => True) Sound
    (fun s e s1 hw hP _ hstep => Step_Sound MaxValue s e s1 hw hP hstep) evs s0 hw0 h0
    (Guarded_trivial MaxValue evs s0 hw0)
  exact ⟨s0, s, hctor, hrun, hw, hP⟩

theorem PerformAndDrain_open (s : FCurlHttpManager) (RunningRequests : Int)
    (Messages : List CURLMsg)
    (hgate : RunningRequests = 0 ∨ RunningRequests ≠ s.NumRequestsAddedToMulti) :
    PerformAndDrain s RunningRequests Messages =
      DrainLoop { s with Trace := s.Trace ++ [Call.curl_multi_perform] } Messages := by
  unfold PerformAndDrain
  dsimp only
  rw [if_pos hgate]

theorem DrainMessage_found (s : FCurlHttpManager) (h : CURL) (Code : CURLcode)
    (d : CurlEasyRequestData) (hfind : TMap.Find s.HandlesToRequests h = some d) :
    (DrainMessage s ⟨CURLMSG.DONE, h, Code⟩).Trace =
        s.Trace ++ [Call.curl_multi_info_read ⟨CURLMSG.DONE, h, Code⟩,
          Call.curl_multi_remove_handle h, Call.MarkAsCompleted d.Request Code] ∧
      (DrainMessage s ⟨CURLMSG.DONE, h, Code⟩).NumRequestsAddedToMulti =
        s.NumRequestsAddedToMulti - 1 := by
  unfold DrainMessage
  simp [hfind]

/-- The admission loop leaves an entry alone once it is marked `bProcessingStarted`. -/
theorem AdmitHandle_Find_started {MaxValue : FDateTime} {s : FCurlHttpManager} (n : Int)
    {h : CURL} {d : CurlEasyRequestData} (r : CURLMcode) {k : CURL} {dk : CurlEasyRequestData}
    (hf : FirstMinBelow MaxValue s.HandlesToRequests h d)
    (hfind : TMap.Find s.HandlesToRequests h = some d)
    (hk : TMap.Find s.HandlesToRequests k = some dk) (hs : dk.bProcessingStarted = true) :
    TMap.Find (AdmitHandle s n h d r).1.HandlesToRequests k = some dk := by
  have hne : k ≠ h := by
    rintro rfl
    rw [hfind] at hk
    cases hk
    rw [hf.started] at hs
    cases hs
  rw [AdmitHandle_Find, if_neg hne]
  exact hk

/-- C9 (amended): Scenario C, for every result code. In every state reached from a freshly
constructed manager, when `HttpThreadTick` drains a completion message for an in-flight
handle `h` (its entry `d` has `bAddedToMulti`) with result code `Code`, the tick returns,
the owning request `d.Request` receives `MarkAsCompleted` with exactly `Code` and nothing
else is notified, and `NumRequestsAddedToMulti` goes down by exactly 1 for that message
(the adds accepted later in the same tick go on top). The tick keeps the registry entry of
`h`, with `bAddedToMulti` cleared; the entry is removed by the `CompleteThreadedRequest`
call for that request, which leaves the counter as it is. -/
theorem drained_completion (MaxValue : FDateTime) (GMultiHandle : CURLM)
    (CfgSimultaneous CfgPerFrame : Option Int) (evs : List Event) (hG : GMultiHandle ≠ 0) :
    ∃ s0 s, FCurlHttpManager.ctor GMultiHandle CfgSimultaneous CfgPerFrame = Result.ok s0 ∧
      Run MaxValue s0 evs = Result.ok s ∧
      ∀ (h : CURL) (d : CurlEasyRequestData) (Code : CURLcode) (n : Nat)
        (RunningRequests : Int) (AddResults : Nat → CURLMcode),
        TMap.Find s.HandlesToRequests h = some d → d.bAddedToMulti = true → 0 < n →
        (RunningRequests = 0 ∨ RunningRequests ≠ s.NumRequestsAddedToMulti) →
        ∃ s1 T, HttpThreadTick MaxValue s n RunningRequests [⟨CURLMSG.DONE, h, Code⟩]
            AddResults = Result.ok s1 ∧
          s1.Trace = s.Trace ++ T ∧
          Completions T = [(d.Request, Code)] ∧
          s1.NumRequestsAddedToMulti =
            s.NumRequestsAddedToMulti - 1 + ((AcceptedHandles T).length : Int) ∧
          TMap.Find s1.HandlesToRequests h = some { d with bAddedToMulti := false } ∧
          d.Request.GetEasyHandle = h ∧
          TMap.Find (CompleteThreadedRequest s1 d.Request).HandlesToRequests h = none ∧
          (CompleteThreadedRequest s1 d.Request).NumRequestsAddedToMulti =
            s1.NumRequestsAddedToMulti := by
  obtain ⟨s0, s, hctor, hrun, hw, hown, hadded⟩ :=
    Run_Sound MaxValue GMultiHandle CfgSimultaneous CfgPerFrame evs hG
  refine ⟨s0, s, hctor, hrun, ?_⟩
  intro h d Code n RunningRequests AddResults hfind hfl hn hgate
  have hstarted : d.bProcessingStarted = true := hadded h d hfind hfl
  have hpd := PerformAndDrain_open s RunningRequests [⟨CURLMSG.DONE, h, Code⟩] hgate
  simp only [DrainLoop, List.foldl_cons, List.foldl_nil] at hpd
  have hw1 : WellFormed { s with Trace := s.Trace ++ [Call.curl_multi_perform] } := hw
  have hfind1 : TMap.Find ({ s with Trace := s.Trace ++ [Call.curl_multi_perform] }
      : FCurlHttpManager).HandlesToRequests h = some d := hfind
  obtain ⟨hT1, hN1⟩ := DrainMessage_found _ h Code d hfind1
  have hw2 := DrainMessage_WellFormed hw1 ⟨CURLMSG.DONE, h, Code⟩
  have hF2 : TMap.Find (DrainMessage { s with Trace := s.Trace ++ [Call.curl_multi_perform] }
      ⟨CURLMSG.DONE, h, Code⟩).HandlesToRequests h = some (ClearAdded d) := by
    rw [DrainMessage_Find]
    simp [hfind]
  rw [← hpd] at hT1 hN1 hw2 hF2
  obtain ⟨out, _, hloop, ⟨hledger, hframe⟩, _, _⟩ :=
    AdmissionLoop_rule MaxValue AddResults
      (fun t k _ => LoopLedger AddResults (PerformAndDrain s RunningRequests
          [⟨CURLMSG.DONE, h, Code⟩]) 0 t k ∧
        TMap.Find t.HandlesToRequests h = some (ClearAdded d))
      (fun t k i h1 d1 _ hP hb hf hfd =>
        ⟨LoopLedger_step i h1 d1 hb hP.1,
          AdmitHandle_Find_started k (AddResults i) hf hfd hP.2 hstarted⟩)
      (PerformAndDrain s RunningRequests [⟨CURLMSG.DONE, h, Code⟩]).HandlesToRequests.length
      0 0 _ hw2.2 (Eligible_length_le _ _) ⟨LoopLedger_refl _ _ _, hF2⟩
  obtain ⟨T, hT, _, hnum, _, _, _, _, _, hcomp, _⟩ := hledger
  have hkey : d.Request.GetEasyHandle = h := hown h d hfind
  refine ⟨out.1, [Call.curl_multi_perform, Call.curl_multi_info_read ⟨CURLMSG.DONE, h, Code⟩,
      Call.curl_multi_remove_handle h, Call.MarkAsCompleted d.Request Code] ++ T,
    HttpThreadTick_unfold MaxValue s n RunningRequests _ AddResults hw.1 hn out hloop,
    ?_, ?_, ?_, hframe, hkey, ?_, ?_⟩
  · rw [hT, hT1]; simp
  · rw [Completions_append, hcomp]; simp [Completions]
  · rw [hnum, hN1, AcceptedHandles_append]
    simp [AcceptedHandles]
  · rw [CompleteThreadedRequest_Find]
    simp [FCurlHttpRequest.GetEasyHandle] at hkey
    simp [hkey]
  · unfold CompleteThreadedRequest
    simp only [hkey, hframe]
    simp [ClearAdded]

/-- C9, instance: a transfer admitted in one tick completes with the error code 7 in the
next. -/
theorem drained_completion_witness :
    (1 : CURLM) ≠ 0 ∧
    ∃ s0 s, FCurlHttpManager.ctor 1 none none = Result.ok s0 ∧
      Run 1000 s0 [Event.Start ⟨1, 1⟩ 10 0, Event.Tick 1 1 [] (fun _ => CURLM_OK)]
        = Result.ok s ∧
      ∀ (h : CURL) (d : CurlEasyRequestData) (Code : CURLcode) (n : Nat)
        (RunningRequests : Int) (AddResults : Nat → CURLMcode),
        TMap.Find s.HandlesToRequests h = some d → d.bAddedToMulti = true → 0 < n →
        (RunningRequests = 0 ∨ RunningRequests ≠ s.NumRequestsAddedToMulti) →
        ∃ s1 T, HttpThreadTick 1000 s n RunningRequests [⟨CURLMSG.DONE, h, Code⟩]
            AddResults = Result.ok s1 ∧
          s1.Trace = s.Trace ++ T ∧
          Completions T = [(d.Request, Code)] ∧
          s1.NumRequestsAddedToMulti =
            s.NumRequestsAddedToMulti - 1 + ((AcceptedHandles T).length : Int) ∧
          TMap.Find s1.HandlesToRequests h = some { d with bAddedToMulti := false } ∧
          d.Request.GetEasyHandle = h ∧
          TMap.Find (CompleteThreadedRequest s1 d.Request).HandlesToRequests h = none ∧
          (CompleteThreadedRequest s1 d.Request).NumRequestsAddedToMulti =
            s1.NumRequestsAddedToMulti :=
  ⟨by decide, drained_completion 1000 1 none none _ (by decide)⟩

/-- C9 as stated fails: the tick that drains the completion of the in-flight handle 1 with
the code 7 notifies the request and lowers the counter, and the registry entry of the
handle is still there when the tick returns. -/
theorem drained_completion_counterexample :
    ∃ s0 s1 s2, FCurlHttpManager.ctor 1 none none = Result.ok s0 ∧
      Run 1000 s0 [Event.Start ⟨1, 1⟩ 10 0, Event.Tick 1 1 [] (fun _ => CURLM_OK)]
        = Result.ok s1 ∧
      HttpThreadTick 1000 s1 1 0 [⟨CURLMSG.DONE, 1, 7⟩] (fun _ => CURLM_OK) = Result.ok s2 ∧
      TMap.Find s1.HandlesToRequests 1 = some ⟨10, true, true, ⟨1, 1⟩⟩ ∧
      s1.NumRequestsAddedToMulti = 1 ∧ s2.NumRequestsAddedToMulti = 0 ∧
      Completions s2.Trace = [(⟨1, 1⟩, 7)] ∧
      TMap.Find s2.HandlesToRequests 1 = some ⟨10, true, false, ⟨1, 1⟩⟩ :=
  ⟨_, _, _, rfl, rfl, rfl, by decide, by decide, by decide, by decide, by decide⟩

theorem DrainMessage_ledger (s : FCurlHttpManager) (Message : CURLMsg) :
    ∃ T, (DrainMessage s Message).Trace = s.Trace ++ T ∧ OfferedHandles T = [] ∧
      (DrainMessage s Message).NumRequestsAddedToMulti =
        s.NumRequestsAddedToMulti - ((ReportedDone T).length : Int) := by
  unfold DrainMessage
  dsimp only
  split
  · rename_i hm
    split
    · exact ⟨_, rfl, by simp [OfferedHandles], by simp [ReportedDone, hm]⟩
    · exact ⟨_, rfl, by simp [OfferedHandles], by simp [ReportedDone, hm]⟩
  · rename_i hm
    exact ⟨_, rfl, by simp [OfferedHandles], by simp [ReportedDone, hm]⟩

theorem DrainMessage_DrainLedger {s0 t : FCurlHttpManager} (Message : CURLMsg)
    (hP : DrainLedger s0 t) : DrainLedger s0 (DrainMessage t Message) := by
  obtain ⟨T, hT, hO, hN⟩ := hP
  obtain ⟨T1, hT1, hO1, hN1⟩ := DrainMessage_ledger t Message
  refine ⟨T ++ T1, ?_, ?_, ?_⟩
  · rw [hT1, hT, List.append_assoc]
  · rw [OfferedHandles_append, hO, hO1]; rfl
  · rw [hN1, hN, ReportedDone_append, List.length_append]
    push_cast
    omega

theorem PerformAndDrain_ledger (s : FCurlHttpManager) (RunningRequests : Int)
    (Messages : List CURLMsg) (hw : WellFormed s) (hs : Sound s) :
    WellFormed (PerformAndDrain s RunningRequests Messages) ∧
      Sound (PerformAndDrain s RunningRequests Messages) ∧
      DrainLedger s (PerformAndDrain s RunningRequests Messages) := by
  have hw1 : WellFormed { s with Trace := s.Trace ++ [Call.curl_multi_perform] } := hw
  have hs1 : Sound { s with Trace := s.Trace ++ [Call.curl_multi_perform] } := hs
  have hP1 : DrainLedger s { s with Trace := s.Trace ++ [Call.curl_multi_perform] } :=
    ⟨[Call.curl_multi_perform], rfl, by simp [OfferedHandles], by simp [ReportedDone]⟩
  unfold PerformAndDrain
  dsimp only
  split
  · obtain ⟨h1, h2, h3⟩ := DrainLoop_rule (fun t => Sound t ∧ DrainLedger s t)
      (fun _ Message _ h => ⟨DrainMessage_Sound Message h.1, DrainMessage_DrainLedger Message h.2⟩)
      Messages _ hw1 ⟨hs1, hP1⟩
    exact ⟨h1, h2, h3⟩
  · exact ⟨hw1, hs1, hP1⟩

theorem mem_OfferedHandles {T : List Call} {h : CURL} :
    h ∈ OfferedHandles T ↔ ∃ r, Call.curl_multi_add_handle h r ∈ T := by
  simp only [OfferedHandles, List.mem_filterMap]
  constructor
  · rintro ⟨c, hc, hh⟩
    cases c <;> simp at hh
    subst hh
    exact ⟨_, hc⟩
  · rintro ⟨r, hr⟩
    exact ⟨_, hr, rfl⟩

theorem LoopRejections_step {MaxValue : FDateTime} {s0 t : FCurlHttpManager} (n : Int)
    {h : CURL} {d : CurlEasyRequestData} (r : CURLMcode)
    (hf : FirstMinBelow MaxValue t.HandlesToRequests h d)
    (hfind : TMap.Find t.HandlesToRequests h = some d) (hs : Sound t)
    (hP : LoopRejections s0 t) : LoopRejections s0 (AdmitHandle t n h d r).1 := by
  obtain ⟨T, hT, hnd, hstarted, hrej⟩ := hP
  have hnew : TMap.Find (AdmitHandle t n h d r).1.HandlesToRequests h
      = some (MarkStarted r d) := by
    rw [AdmitHandle_Find, if_pos rfl, hfind]; rfl
  have hnewS : (MarkStarted r d).bProcessingStarted = true := by
    unfold MarkStarted; split <;> rfl
  have hnotin : h ∉ OfferedHandles T := by
    intro hc
    obtain ⟨d1, h1, h2⟩ := hstarted h hc
    rw [hfind] at h1
    cases h1
    rw [hf.started] at h2
    cases h2
  refine ⟨T ++ [Call.curl_multi_add_handle h r, Call.SetAddToCurlMultiResult d.Request r],
    ?_, ?_, ?_, ?_⟩
  · rw [AdmitHandle_Trace, hT, List.append_assoc]
  · rw [OfferedHandles_append, OfferedHandles_admit]
    exact List.Nodup.append hnd (List.nodup_singleton h)
      (by
        intro a ha hb
        rw [List.mem_singleton] at hb
        subst hb
        exact hnotin ha)
  · intro k hk
    rw [OfferedHandles_append, OfferedHandles_admit, List.mem_append, List.mem_singleton] at hk
    rcases hk with hk | rfl
    · obtain ⟨dk, h1, h2⟩ := hstarted k hk
      exact ⟨dk, AdmitHandle_Find_started n r hf hfind h1 h2, h2⟩
    · exact ⟨_, hnew, hnewS⟩
  · intro k rk hk hrk
    rcases List.mem_append.1 hk with hk | hk
    · obtain ⟨dk, h1, h2, h3, h4⟩ := hrej k rk hk hrk
      exact ⟨dk, AdmitHandle_Find_started n r hf hfind h1 h2, h2, h3,
        List.mem_append_left _ h4⟩
    · simp only [List.mem_cons, Call.curl_multi_add_handle.injEq, List.mem_singleton,
        reduceCtorEq, or_false, List.not_mem_nil] at hk
      obtain ⟨rfl, rfl⟩ := hk
      refine ⟨_, hnew, hnewS, ?_, ?_⟩
      · have hd : d.bAddedToMulti = false := by
          cases hda : d.bAddedToMulti with
          | false => rfl
          | true =>
            have := hs.2 k d hfind hda
            rw [hf.started] at this
            cases this
        simp [MarkStarted, hrk, hd]
      · have : (MarkStarted rk d).Request = d.Request := by
          unfold MarkStarted; split <;> rfl
        rw [this]
        simp

theorem DrainMessage_NeverOffered {h : CURL} {s1 t : FCurlHttpManager} (Message : CURLMsg)
    (hP : NeverOffered h s1 t) : NeverOffered h s1 (DrainMessage t Message) := by
  obtain ⟨hset, T, hT, hO⟩ := hP
  obtain ⟨T1, hT1, hO1⟩ := DrainMessage_Trace t Message
  refine ⟨?_, T ++ T1, by rw [hT1, hT, List.append_assoc], ?_⟩
  · intro d hf
    rw [DrainMessage_Find] at hf
    split at hf
    · obtain ⟨d0, h0, rfl⟩ := Option.map_eq_some'.1 hf
      exact hset d0 h0
    · exact hset d hf
  · rw [OfferedHandles_append, hO1, List.append_nil]; exact hO

theorem AdmitHandle_NeverOffered {MaxValue : FDateTime} {h : CURL} {s1 t : FCurlHttpManager}
    (n : Int) {k : CURL} {d : CurlEasyRequestData} (r : CURLMcode)
    (hf : FirstMinBelow MaxValue t.HandlesToRequests k d)
    (hfind : TMap.Find t.HandlesToRequests k = some d)
    (hP : NeverOffered h s1 t) : NeverOffered h s1 (AdmitHandle t n k d r).1 := by
  obtain ⟨hset, T, hT, hO⟩ := hP
  have hne : h ≠ k := by
    rintro rfl
    have := hset d hfind
    rw [hf.started] at this
    cases this
  refine ⟨?_, T ++ [Call.curl_multi_add_handle k r, Call.SetAddToCurlMultiResult d.Request r],
    by rw [AdmitHandle_Trace, hT, List.append_assoc], ?_⟩
  · intro d1 hf1
    rw [AdmitHandle_Find, if_neg hne] at hf1
    exact hset d1 hf1
  · rw [OfferedHandles_append, OfferedHandles_admit, List.mem_append, List.mem_singleton]
    rintro (hc | hc)
    · exact hO hc
    · exact hne hc

theorem Step_NeverOffered (MaxValue : FDateTime) (h : CURL) (s1 t : FCurlHttpManager)
    (e : Event) (t1 : FCurlHttpManager) (hw : WellFormed t) (hP : NeverOffered h s1 t)
    (hV : NotStartOf h e) (hstep : Step MaxValue t e = Result.ok t1) :
    NeverOffered h s1 t1 := by
  cases e with
  | Start Request Now Slot =>
    simp only [Step, Result.ok.injEq] at hstep
    subst hstep
    obtain ⟨hset, T, hT, hO⟩ := hP
    refine ⟨?_, T ++ [Call.RegistryAdd Request.GetEasyHandle], ?_, ?_⟩
    · intro d hf
      rw [StartThreadedRequest_Find, if_neg (fun hc => hV hc.symm)] at hf
      exact hset d hf
    · simp [StartThreadedRequest, hT]
    · rw [OfferedHandles_append]
      simpa [OfferedHandles] using hO
  | Tick n RunningRequests Messages AddResults =>
    exact HttpThreadTick_keeps MaxValue (NeverOffered h s1)
      (fun u _ hu => ⟨hu.1, by
        obtain ⟨T, hT, hO⟩ := hu.2
        exact ⟨T ++ [Call.curl_multi_perform], by simp [hT], by
          rw [OfferedHandles_append]; simpa [OfferedHandles] using hO⟩⟩)
      (fun _ Message _ hu => DrainMessage_NeverOffered Message hu)
      (fun _ k x d r _ hu _ hf hfind => AdmitHandle_NeverOffered k r hf hfind hu)
      t n RunningRequests Messages AddResults t1 hw hP hstep
  | Complete Request =>
    simp only [Step, Result.ok.injEq] at hstep
    subst hstep
    obtain ⟨hset, T, hT, hO⟩ := hP
    refine ⟨?_, ?_⟩
    · intro d hf
      rw [CompleteThreadedRequest_Find] at hf
      split at hf
      · cases hf
      · exact hset d hf
    · unfold CompleteThreadedRequest
      dsimp only
      split
      · split
        · exact ⟨T ++ [Call.curl_multi_remove_handle Request.GetEasyHandle,
            Call.RegistryRemove Request.GetEasyHandle], by simp [hT], by
              rw [OfferedHandles_append]; simpa [OfferedHandles] using hO⟩
        · exact ⟨T ++ [Call.RegistryRemove Request.GetEasyHandle], by simp [hT], by
              rw [OfferedHandles_append]; simpa [OfferedHandles] using hO⟩
      · exact ⟨T, hT, hO⟩

theorem Guarded_of_forall (MaxValue : FDateTime) (V : Event → Prop) (evs : List Event) :
    ∀ s : FCurlHttpManager, WellFormed s → (∀ e ∈ evs, V e) →
      Guarded MaxValue (fun _ e => V e) s evs := by
  induction evs with
  | nil => intro _ _ _; trivial
  | cons e rest ih =>
    intro s hw hall
    obtain ⟨s1, hs1, hw1⟩ := Step_WellFormed MaxValue s e hw
    simp only [Guarded, hs1]
    exact ⟨hall e (List.mem_cons_self _ _), ih s1 hw1 (fun x hx => hall x (List.mem_cons_of_mem _ hx))⟩

theorem StartThreadedRequest_Accounts {s : FCurlHttpManager} (Request : FCurlHttpRequest)
    (Now : FDateTime) (Slot : Nat) (hP : Accounts s)
    (hV : TMap.Find s.HandlesToRequests Request.EasyHandle = none) :
    Accounts (StartThreadedRequest s Request Now Slot) := by
  obtain ⟨hs, ham, hnr, hacc, hreg⟩ := hP
  refine ⟨StartThreadedRequest_Sound Request Now Slot hs, ?_, ?_, ?_, ?_⟩
  · intro h
    rw [StartThreadedRequest_Find]
    have hA : (StartThreadedRequest s Request Now Slot).ActiveSet = s.ActiveSet := rfl
    rw [hA]
    by_cases hk : h = Request.EasyHandle
    · subst hk
      simp only [if_true, Option.some.injEq]
      constructor
      · intro hin
        obtain ⟨d, hd, _⟩ := (ham _).1 hin
        rw [hV] at hd
        cases hd
      · rintro ⟨d, rfl, hd⟩
        simp [CurlEasyRequestData.ctor] at hd
    · simp only [hk, if_false]
      exact ham h
  · simpa [StartThreadedRequest, NotifiedResults, ReportedResults] using hnr
  · intro h
    have := hacc h
    simpa [StartThreadedRequest, ReportedResults, AcceptedHandles] using this
  · intro h
    have := hreg h
    rw [StartThreadedRequest_Find]
    by_cases hk : h = Request.EasyHandle
    · subst hk
      rw [hV] at this
      simp [StartThreadedRequest, RegisteredHandles, RetiredHandles,
        FCurlHttpRequest.GetEasyHandle] at this ⊢
      omega
    · have hk2 : ¬ Request.EasyHandle = h := fun e => hk e.symm
      simp [StartThreadedRequest, RegisteredHandles, RetiredHandles,
        FCurlHttpRequest.GetEasyHandle, hk, hk2, List.count_singleton] at this ⊢
      exact this

theorem mem_filter_ne {l : List CURL} {h k : CURL} :
    h ∈ l.filter (fun x => decide (x ≠ k)) ↔ h ∈ l ∧ h ≠ k := by
  simp [List.mem_filter]

theorem CompleteThreadedRequest_Accounts {s : FCurlHttpManager} (Request : FCurlHttpRequest)
    (hP : Accounts s) : Accounts (CompleteThreadedRequest s Request) := by
  obtain ⟨hs, ham, hnr, hacc, hreg⟩ := hP
  refine ⟨CompleteThreadedRequest_Sound Request hs, ?_, ?_, ?_, ?_⟩
  · intro h
    rw [CompleteThreadedRequest_Find]
    unfold CompleteThreadedRequest
    simp only [FCurlHttpRequest.GetEasyHandle]
    cases hf : TMap.Find s.HandlesToRequests Request.EasyHandle with
    | none =>
      simp only
      by_cases hk : h = Request.EasyHandle
      · subst hk
        simp only [if_true]
        constructor
        · intro hin
          obtain ⟨d, hd, _⟩ := (ham _).1 hin
          rw [hf] at hd
          cases hd
        · rintro ⟨d, hd, _⟩
          cases hd
      · simp only [hk, if_false]
        exact ham h
    | some d =>
      simp only
      by_cases hda : d.bAddedToMulti = true
      · simp only [hda, if_true]
        rw [mem_filter_ne]
        by_cases hk : h = Request.EasyHandle
        · simp [hk]
        · simp only [hk, if_false, ne_eq, not_false_eq_true, and_true]
          exact ham h
      · simp only [hda]
        by_cases hk : h = Request.EasyHandle
        · subst hk
          simp only [if_true]
          constructor
          · intro hin
            obtain ⟨d1, hd1, hd2⟩ := (ham _).1 hin
            rw [hf] at hd1
            cases hd1
            exact absurd hd2 hda
          · rintro ⟨d1, hd1, _⟩
            cases hd1
        · simp only [hk, if_false]
          exact ham h
  · unfold CompleteThreadedRequest
    dsimp only
    split
    · split <;> simpa [NotifiedResults, ReportedResults] using hnr
    · exact hnr
  · intro h
    have := hacc h
    unfold CompleteThreadedRequest
    dsimp only
    split
    · split
      · simp only [ReportedResults, AcceptedHandles, List.filterMap_append] at this ⊢
        simp only [List.filterMap_cons, List.filterMap_nil, List.append_nil, mem_filter_ne]
        split <;> split at this <;> (simp_all; try omega)
      · simpa [ReportedResults, AcceptedHandles] using this
    · exact this
  · intro h
    have := hreg h
    rw [CompleteThreadedRequest_Find]
    unfold CompleteThreadedRequest
    simp only [FCurlHttpRequest.GetEasyHandle]
    cases hf : TMap.Find s.HandlesToRequests Request.EasyHandle with
    | none =>
      simp only
      by_cases hk : h = Request.EasyHandle
      · subst hk
        rw [hf] at this
        simpa using this
      · simpa [hk] using this
    | some d =>
      simp only
      by_cases hk : h = Request.EasyHandle
      · subst hk
        rw [hf] at this
        split <;>
          simp [RegisteredHandles, RetiredHandles] at this ⊢ <;> omega
      · have hk2 : ¬ Request.EasyHandle = h := fun e => hk e.symm
        split <;>
          simp [RegisteredHandles, RetiredHandles, hk, hk2, List.count_singleton] at this ⊢ <;>
          exact this

theorem perform_Accounts {s : FCurlHttpManager} (hP : Accounts s) :
    Accounts { s with Trace := s.Trace ++ [Call.curl_multi_perform] } := by
  obtain ⟨hs, ham, hnr, hacc, hreg⟩ := hP
  refine ⟨hs, ham, ?_, ?_, ?_⟩
  · simpa [NotifiedResults, ReportedResults] using hnr
  · intro h
    simpa [ReportedResults, AcceptedHandles] using hacc h
  · intro h
    simpa [RegisteredHandles, RetiredHandles] using hreg h

theorem DrainMessage_Accounts {s : FCurlHttpManager} (Message : CURLMsg) (hP : Accounts s)
    (hV : Message.msg = CURLMSG.DONE → Message.easy_handle ∈ s.ActiveSet) :
    Accounts (DrainMessage s Message) := by
  obtain ⟨hs, ham, hnr, hacc, hreg⟩ := hP
  refine ⟨DrainMessage_Sound Message hs, ?_, ?_, ?_, ?_⟩
  · intro h
    rw [DrainMessage_Find, DrainMessage_ActiveSet]
    by_cases hm : Message.msg = CURLMSG.DONE
    · simp only [hm, if_true, true_and, mem_filter_ne]
      by_cases hk : h = Message.easy_handle
      · simp only [hk, ne_eq, not_true_eq_false, and_false, if_true, false_iff]
        rintro ⟨d, hd, hda⟩
        obtain ⟨d0, _, rfl⟩ := Option.map_eq_some'.1 hd
        simp [ClearAdded] at hda
      · simp only [hk, if_false, ne_eq, not_false_eq_true, and_true]
        exact ham h
    · simp only [hm, if_false, false_and]
      exact ham h
  · unfold DrainMessage
    dsimp only
    by_cases hm : Message.msg = CURLMSG.DONE
    · simp only [hm, if_true]
      cases hf : TMap.Find s.HandlesToRequests Message.easy_handle with
      | none =>
        obtain ⟨d, hd, _⟩ := (ham _).1 (hV hm)
        rw [hf] at hd
        cases hd
      | some d =>
        simp only
        have hown := hs.1 _ d hf
        simp [NotifiedResults, ReportedResults, hm, hown] at hnr ⊢
        exact hnr
    · simp only [hm, if_false]
      simpa [NotifiedResults, ReportedResults, hm] using hnr
  · intro h
    have := hacc h
    have hT := DrainMessage_ActiveSet s Message
    unfold DrainMessage at hT ⊢
    dsimp only at hT ⊢
    by_cases hm : Message.msg = CURLMSG.DONE
    · have hin := hV hm
      have hacc2 := hacc Message.easy_handle
      simp only [hm, if_true] at hT ⊢
      cases hf : TMap.Find s.HandlesToRequests Message.easy_handle with
      | none =>
        obtain ⟨d, hd, _⟩ := (ham _).1 hin
        rw [hf] at hd
        cases hd
      | some d =>
        simp only
        by_cases hk : h = Message.easy_handle
        · subst hk
          simp [ReportedResults, AcceptedHandles, hm, hin] at this ⊢
          omega
        · have hk2 : ¬ Message.easy_handle = h := fun e => hk e.symm
          simp [ReportedResults, AcceptedHandles, hm, hk, hk2, List.count_singleton,
            mem_filter_ne] at this ⊢
          exact this
    · simp only [hm, if_false]
      simpa [ReportedResults, AcceptedHandles, hm] using this
  · intro h
    have := hreg h
    rw [DrainMessage_Find]
    have hsome : (if Message.msg = CURLMSG.DONE ∧ h = Message.easy_handle then
          (TMap.Find s.HandlesToRequests h).map ClearAdded
        else TMap.Find s.HandlesToRequests h).isSome
        = (TMap.Find s.HandlesToRequests h).isSome := by
      split <;> simp
    rw [hsome]
    unfold DrainMessage
    dsimp only
    split
    · split <;> simpa [RegisteredHandles, RetiredHandles] using this
    · simpa [RegisteredHandles, RetiredHandles] using this

theorem AdmitHandle_Accounts {MaxValue : FDateTime} {s : FCurlHttpManager} (n : Int)
    {h : CURL} {d : CurlEasyRequestData} (r : CURLMcode)
    (hfind : TMap.Find s.HandlesToRequests h = some d)
    (hf : FirstMinBelow MaxValue s.HandlesToRequests h d) (hP : Accounts s) :
    Accounts (AdmitHandle s n h d r).1 := by
  obtain ⟨hs, ham, hnr, hacc, hreg⟩ := hP
  have hd : d.bAddedToMulti = false := by
    cases hda : d.bAddedToMulti with
    | false => rfl
    | true =>
      have := hs.2 h d hfind hda
      rw [hf.started] at this
      cases this
  have hnotin : h ∉ s.ActiveSet := by
    intro hin
    obtain ⟨d1, hd1, hd2⟩ := (ham h).1 hin
    rw [hfind] at hd1
    cases hd1
    rw [hd] at hd2
    cases hd2
  refine ⟨AdmitHandle_Sound n h d r hs, ?_, ?_, ?_, ?_⟩
  · intro k
    rw [AdmitHandle_Find]
    by_cases hr : r = CURLM_OK
    · have hA : (AdmitHandle s n h d r).1.ActiveSet =
          h :: s.ActiveSet.filter (fun x => decide (x ≠ h)) := by
        unfold AdmitHandle; simp [hr]
      rw [hA, List.mem_cons, mem_filter_ne]
      by_cases hk : k = h
      · subst hk
        simp [hfind, MarkStarted, hr]
      · simp only [hk, if_false, false_or, ne_eq, not_false_eq_true, and_true]
        exact ham k
    · have hA : (AdmitHandle s n h d r).1.ActiveSet = s.ActiveSet := by
        unfold AdmitHandle; simp [hr]
      rw [hA]
      by_cases hk : k = h
      · subst hk
        simp [hfind, MarkStarted, hr, hd, hnotin]
      · simp only [hk, if_false]
        exact ham k
  · rw [AdmitHandle_Trace]
    simpa [NotifiedResults, ReportedResults] using hnr
  · intro k
    have := hacc k
    rw [AdmitHandle_Trace]
    by_cases hr : r = CURLM_OK
    · have hA : (AdmitHandle s n h d r).1.ActiveSet =
          h :: s.ActiveSet.filter (fun x => decide (x ≠ h)) := by
        unfold AdmitHandle; simp [hr]
      rw [hA]
      by_cases hk : k = h
      · subst hk
        simp [ReportedResults, AcceptedHandles, hr, hnotin] at this ⊢
        omega
      · have hk2 : ¬ h = k := fun e => hk e.symm
        simp [ReportedResults, AcceptedHandles, hr, hk, hk2, List.count_singleton,
          mem_filter_ne] at this ⊢
        exact this
    · have hA : (AdmitHandle s n h d r).1.ActiveSet = s.ActiveSet := by
        unfold AdmitHandle; simp [hr]
      rw [hA]
      simpa [ReportedResults, AcceptedHandles, hr] using this
  · intro k
    have := hreg k
    rw [AdmitHandle_Find, AdmitHandle_Trace]
    have hsome : (if k = h then (TMap.Find s.HandlesToRequests h).map (MarkStarted r)
        else TMap.Find s.HandlesToRequests k).isSome
        = (TMap.Find s.HandlesToRequests k).isSome := by
      split
      · rename_i hk; subst hk; simp
      · rfl
    rw [hsome]
    simpa [RegisteredHandles, RetiredHandles] using this

theorem Step_Accounts (MaxValue : FDateTime) (s : FCurlHttpManager) (e : Event)
    (s1 : FCurlHttpManager) (hw : WellFormed s) (hP : Accounts s) (hV : ValidCall s e)
    (hstep : Step MaxValue s e = Result.ok s1) : Accounts s1 := by
  cases e with
  | Start Request Now Slot =>
    simp only [Step, Result.ok.injEq] at hstep
    subst hstep
    exact StartThreadedRequest_Accounts Request Now Slot hP hV
  | Tick n RunningRequests Messages AddResults =>
    obtain ⟨s2, hrun2, _, hP2⟩ := HttpThreadTick_rule_valid MaxValue Accounts
      (fun _ _ h => perform_Accounts h)
      (fun _ Message _ ht hv => DrainMessage_Accounts Message ht hv)
      (fun _ k h d r _ ht _ hf hfind => AdmitHandle_Accounts k r hfind hf ht)
      s n RunningRequests Messages AddResults hw hP hV
    simp only [Step] at hstep
    rw [hstep] at hrun2
    cases hrun2
    exact hP2
  | Complete Request =>
    simp only [Step, Result.ok.injEq] at hstep
    subst hstep
    exact CompleteThreadedRequest_Accounts Request hP

theorem ReportedResults_append (T1 T2 : List Call) :
    ReportedResults (T1 ++ T2) = ReportedResults T1 ++ ReportedResults T2 := by
  simp [ReportedResults]

theorem NotifiedResults_append (T1 T2 : List Call) :
    NotifiedResults (T1 ++ T2) = NotifiedResults T1 ++ NotifiedResults T2 := by
  simp [NotifiedResults]

theorem RetiredHandles_append (T1 T2 : List Call) :
    RetiredHandles (T1 ++ T2) = RetiredHandles T1 ++ RetiredHandles T2 := by
  simp [RetiredHandles]

theorem OwnerNotices_congr {m1 m2 : TMap}
    (h : ∀ k, (TMap.Find m1 k).map (fun d => d.Request) =
      (TMap.Find m2 k).map (fun d => d.Request)) (Messages : List CURLMsg) :
    OwnerNotices m1 Messages = OwnerNotices m2 Messages := by
  unfold OwnerNotices
  congr 1
  funext Message
  by_cases hm : Message.msg = CURLMSG.DONE
  · simp only [hm, if_true]
    have hk := h Message.easy_handle
    cases h1 : TMap.Find m1 Message.easy_handle with
    | none =>
      cases h2 : TMap.Find m2 Message.easy_handle with
      | none => rfl
      | some d2 => rw [h1, h2] at hk; simp at hk
    | some d1 =>
      cases h2 : TMap.Find m2 Message.easy_handle with
      | none => rw [h1, h2] at hk; simp at hk
      | some d2 =>
        rw [h1, h2] at hk
        simp only [Option.map_some', Option.some.injEq] at hk
        simp [hk]
  · simp [hm]

theorem DrainMessage_owner (t : FCurlHttpManager) (Message : CURLMsg) (k : CURL) :
    (TMap.Find (DrainMessage t Message).HandlesToRequests k).map (fun d => d.Request) =
      (TMap.Find t.HandlesToRequests k).map (fun d => d.Request) := by
  rw [DrainMessage_Find]
  split
  · cases TMap.Find t.HandlesToRequests k <;> simp [ClearAdded]
  · rfl

theorem DrainMessage_reports (t : FCurlHttpManager) (Message : CURLMsg) :
    ∃ T, (DrainMessage t Message).Trace = t.Trace ++ T ∧
      ReportedResults T = DoneResults [Message] ∧
      Completions T = OwnerNotices t.HandlesToRequests [Message] ∧
      RetiredHandles T = [] := by
  unfold DrainMessage
  dsimp only
  by_cases hm : Message.msg = CURLMSG.DONE
  · simp only [hm, if_true]
    cases hf : TMap.Find t.HandlesToRequests Message.easy_handle with
    | none =>
      exact ⟨_, rfl, by simp [ReportedResults, DoneResults, hm],
        by simp [Completions, OwnerNotices, hm, hf], by simp [RetiredHandles]⟩
    | some d =>
      exact ⟨_, rfl, by simp [ReportedResults, DoneResults, hm],
        by simp [Completions, OwnerNotices, hm, hf], by simp [RetiredHandles]⟩
  · simp only [hm, if_false]
    exact ⟨_, rfl, by simp [ReportedResults, DoneResults, hm],
      by simp [Completions, OwnerNotices, hm], by simp [RetiredHandles]⟩

theorem DrainLoop_reports : ∀ (Messages : List CURLMsg) (t : FCurlHttpManager),
    ∃ T, (DrainLoop t Messages).Trace = t.Trace ++ T ∧
      ReportedResults T = DoneResults Messages ∧
      Completions T = OwnerNotices t.HandlesToRequests Messages ∧
      RetiredHandles T = [] := by
  intro Messages
  induction Messages with
  | nil =>
    intro t
    exact ⟨[], by simp [DrainLoop], rfl, rfl, rfl⟩
  | cons Message rest ih =>
    intro t
    obtain ⟨T1, hT1, hR1, hC1, hD1⟩ := DrainMessage_reports t Message
    obtain ⟨T2, hT2, hR2, hC2, hD2⟩ := ih (DrainMessage t Message)
    refine ⟨T1 ++ T2, ?_, ?_, ?_, ?_⟩
    · simp only [DrainLoop, List.foldl_cons] at hT2 ⊢
      rw [hT2, hT1, List.append_assoc]
    · rw [ReportedResults_append, hR1, hR2]
      simp [DoneResults, List.filterMap_cons]
      split <;> rfl
    · rw [Completions_append, hC1, hC2,
        OwnerNotices_congr (DrainMessage_owner t Message) rest]
      simp only [OwnerNotices, List.filterMap_cons, List.filterMap_nil]
      split <;> simp
    · rw [RetiredHandles_append, hD1, hD2]
      rfl

theorem AdmissionLoop_quiet (MaxValue : FDateTime) (AddResults : Nat → CURLMcode)
    (s : FCurlHttpManager) (hnd : (TMap.Keys s.HandlesToRequests).Nodup) :
    ∃ out T, AdmissionLoop MaxValue AddResults s.HandlesToRequests.length 0 0 s
        = Result.ok out ∧ out.1.Trace = s.Trace ++ T ∧
      ReportedResults T = [] ∧ Completions T = [] ∧ RetiredHandles T = [] := by
  obtain ⟨out, _, hrun, ⟨T, hT, h1, h2, h3⟩, _, _⟩ :=
    AdmissionLoop_rule MaxValue AddResults
      (fun t _ _ => ∃ T, t.Trace = s.Trace ++ T ∧
        ReportedResults T = [] ∧ Completions T = [] ∧ RetiredHandles T = [])
      (fun t n i h d _ hP _ _ _ => by
        obtain ⟨T, hT, h1, h2, h3⟩ := hP
        refine ⟨T ++ [Call.curl_multi_add_handle h (AddResults i),
          Call.SetAddToCurlMultiResult d.Request (AddResults i)], ?_, ?_, ?_, ?_⟩
        · rw [AdmitHandle_Trace, hT, List.append_assoc]
        · rw [ReportedResults_append, h1]; rfl
        · rw [Completions_append, h2]; rfl
        · rw [RetiredHandles_append, h3]; rfl)
      s.HandlesToRequests.length 0 0 s hnd (Eligible_length_le _ _)
      ⟨[], by simp, rfl, rfl, rfl⟩
  exact ⟨out, T, hrun, hT, h1, h2, h3⟩

/-- What a tick whose drain gate is open reads and notifies: every `DONE` message handed
out by the multiplexer is read, and each one whose handle is registered is notified to the
request that owns the handle, with the reported code; the tick retires nothing. -/
theorem HttpThreadTick_reports (MaxValue : FDateTime) (s : FCurlHttpManager) (n : Nat)
    (RunningRequests : Int) (Messages : List CURLMsg) (AddResults : Nat → CURLMcode)
    (hw : WellFormed s) (hn : 0 < n)
    (hgate : RunningRequests = 0 ∨ RunningRequests ≠ s.NumRequestsAddedToMulti) :
    ∃ s1 T, HttpThreadTick MaxValue s n RunningRequests Messages AddResults = Result.ok s1 ∧
      s1.Trace = s.Trace ++ T ∧ ReportedResults T = DoneResults Messages ∧
      Completions T = OwnerNotices s.HandlesToRequests Messages ∧ RetiredHandles T = [] := by
  have hopen := PerformAndDrain_open s RunningRequests Messages hgate
  obtain ⟨T1, hT1, hR1, hC1, hD1⟩ :=
    DrainLoop_reports Messages { s with Trace := s.Trace ++ [Call.curl_multi_perform] }
  obtain ⟨hw2, _⟩ := PerformAndDrain_DrainFrame s RunningRequests Messages hw
  obtain ⟨out, T2, hrun, hT2, hR2, hC2, hD2⟩ :=
    AdmissionLoop_quiet MaxValue AddResults (PerformAndDrain s RunningRequests Messages) hw2.2
  refine ⟨out.1, [Call.curl_multi_perform] ++ T1 ++ T2,
    HttpThreadTick_unfold MaxValue s n RunningRequests Messages AddResults hw.1 hn out hrun,
    ?_, ?_, ?_, ?_⟩
  · rw [hT2, hopen, hT1]
    simp [List.append_assoc]
  · rw [ReportedResults_append, ReportedResults_append, hR1, hR2]
    simp [ReportedResults]
  · rw [Completions_append, Completions_append, hC1, hC2]
    simp [Completions]
  · rw [RetiredHandles_append, RetiredHandles_append, hD1, hD2]
    simp [RetiredHandles]

theorem CompleteThreadedRequest_retires (s : FCurlHttpManager) (Request : FCurlHttpRequest)
    (d : CurlEasyRequestData)
    (hfind : TMap.Find s.HandlesToRequests Request.EasyHandle = some d) :
    TMap.Find (CompleteThreadedRequest s Request).HandlesToRequests Request.EasyHandle = none ∧
      RetiredHandles (CompleteThreadedRequest s Request).Trace =
        RetiredHandles s.Trace ++ [Request.EasyHandle] ∧
      NotifiedResults (CompleteThreadedRequest s Request).Trace = NotifiedResults s.Trace := by
  refine ⟨by rw [CompleteThreadedRequest_Find]; simp, ?_, ?_⟩
  · unfold CompleteThreadedRequest
    simp only [FCurlHttpRequest.GetEasyHandle, hfind]
    split <;> simp [RetiredHandles]
  · unfold CompleteThreadedRequest
    simp only [FCurlHttpRequest.GetEasyHandle, hfind]
    split <;> simp [NotifiedResults]

theorem NotifiedResults_eq_map (T : List Call) :
    NotifiedResults T = (Completions T).map (fun p => (p.1.EasyHandle, p.2)) := by
  induction T with
  | nil => rfl
  | cons c rest ih =>
    cases c <;> simp_all [NotifiedResults, Completions, List.filterMap_cons]

/-- C5: exactly-once completion. Over every sequence of `StartThreadedRequest`,
`HttpThreadTick` and `CompleteThreadedRequest` calls on a freshly constructed manager, with a
multiplexer that reports a completion only for a handle it currently holds, and with
submissions made for handles that are not registered (what `StartThreadedRequest` asserts
with `ensure(!HandlesToRequests.Contains(EasyHandle))`), all calls return and in the state
reached:

* the `MarkAsCompleted` notifications made so far are, in order, exactly the completions
  the multiplexer reported, each with the reported handle and code;
* no handle was reported finished more often than the multiplexer accepted it (less once
  while the multiplexer still holds it), so an admitted handle gets no second notification;
* every registration of a handle was retired exactly once, except the one registration
  whose entry is still in the registry;
* a further tick that drains reads every completion the multiplexer hands out and notifies
  each one once, to the request that owns the reported handle, and retires nothing;
* a further `CompleteThreadedRequest` for a registered request retires its entry, once, and
  notifies nothing. -/
theorem exactly_once_completion (MaxValue : FDateTime) (GMultiHandle : CURLM)
    (CfgSimultaneous CfgPerFrame : Option Int) (evs : List Event) (hG : GMultiHandle ≠ 0)
    (hvalid : ∀ s0, FCurlHttpManager.ctor GMultiHandle CfgSimultaneous CfgPerFrame
      = Result.ok s0 → Guarded MaxValue ValidCall s0 evs) :
    ∃ s0 s, FCurlHttpManager.ctor GMultiHandle CfgSimultaneous CfgPerFrame = Result.ok s0 ∧
      Run MaxValue s0 evs = Result.ok s ∧
      NotifiedResults s.Trace = ReportedResults s.Trace ∧
      (∀ h, ((ReportedResults s.Trace).map Prod.fst).count h +
            (if h ∈ s.ActiveSet then 1 else 0) ≤ (AcceptedHandles s.Trace).count h ∧
          (RegisteredHandles s.Trace).count h = (RetiredHandles s.Trace).count h +
            (if (TMap.Find s.HandlesToRequests h).isSome then 1 else 0)) ∧
      (∀ (n : Nat) (RunningRequests : Int) (Messages : List CURLMsg)
          (AddResults : Nat → CURLMcode), 0 < n →
        (RunningRequests = 0 ∨ RunningRequests ≠ s.NumRequestsAddedToMulti) →
        ReportsValid s.ActiveSet Messages →
        ∃ s1 T, HttpThreadTick MaxValue s n RunningRequests Messages AddResults
            = Result.ok s1 ∧
          s1.Trace = s.Trace ++ T ∧ ReportedResults T = DoneResults Messages ∧
          NotifiedResults T = DoneResults Messages ∧
          Completions T = OwnerNotices s.HandlesToRequests Messages ∧
          (Completions T).length = (DoneResults Messages).length ∧
          RetiredHandles T = []) ∧
      (∀ (Request : FCurlHttpRequest) (d : CurlEasyRequestData),
        TMap.Find s.HandlesToRequests Request.EasyHandle = some d →
        TMap.Find (CompleteThreadedRequest s Request).HandlesToRequests Request.EasyHandle
          = none ∧
        RetiredHandles (CompleteThreadedRequest s Request).Trace =
          RetiredHandles s.Trace ++ [Request.EasyHandle] ∧
        NotifiedResults (CompleteThreadedRequest s Request).Trace
          = NotifiedResults s.Trace) := by
  obtain ⟨s0, hctor, hw0, _, _, _, hmap, hact, htrace⟩ :=
    ctor_ok hG CfgSimultaneous CfgPerFrame
  have h0 : Accounts s0 := by
    refine ⟨⟨?_, ?_⟩, ?_, ?_, ?_, ?_⟩
    · intro k d hf; rw [hmap] at hf; simp [TMap.Find] at hf
    · intro k d hf; rw [hmap] at hf; simp [TMap.Find] at hf
    · intro h; rw [hmap, hact]; simp [TMap.Find]
    · rw [htrace]; rfl
    · intro h; rw [htrace, hact]; simp [ReportedResults, AcceptedHandles]
    · intro h; rw [htrace, hmap]; simp [RegisteredHandles, RetiredHandles, TMap.Find]
  obtain ⟨s, hrun, hw, hP⟩ :=
    Run_rule_guarded MaxValue ValidCall Accounts
      (fun s e s1 hw hP hV hstep => Step_Accounts MaxValue s e s1 hw hP hV hstep)
      evs s0 hw0 h0 (hvalid s0 hctor)
  have hP' := hP
  obtain ⟨_, _, hnr, hacc, hreg⟩ := hP'
  refine ⟨s0, s, hctor, hrun, hnr, fun h => ⟨hacc h, hreg h⟩, ?_, ?_⟩
  · intro n RunningRequests Messages AddResults hn hgate hv
    obtain ⟨s1, T, htick, hT, hR, hC, hD⟩ :=
      HttpThreadTick_reports MaxValue s n RunningRequests Messages AddResults hw hn hgate
    have hP1 : Accounts s1 :=
      Step_Accounts MaxValue s (Event.Tick n RunningRequests Messages AddResults) s1 hw hP hv
        htick
    have hN : NotifiedResults T = DoneResults Messages := by
      have h1 := hP1.2.2.1
      rw [hT, NotifiedResults_append, ReportedResults_append, hnr] at h1
      rw [List.append_cancel_left h1, hR]
    refine ⟨s1, T, htick, hT, hR, hN, hC, ?_, hD⟩
    have hlen := congrArg List.length hN
    rw [NotifiedResults_eq_map, List.length_map] at hlen
    exact hlen
  · intro Request d hfind
    exact CompleteThreadedRequest_retires s Request d hfind

/-- The statement of C5 on a run with two requests: both are admitted, request 1 completes
with the code 7 and is notified once, and both are retired, request 2 while in flight. In
the state before the retirements, a tick that is handed the completion of request 2 with the
code 0 notifies request 2 once. -/
theorem exactly_once_completion_witness :
    (1 : CURLM) ≠ 0 ∧
    (∀ s0, FCurlHttpManager.ctor 1 none none = Result.ok s0 →
      Guarded 1000 ValidCall s0 [Event.Start ⟨1, 1⟩ 10 0, Event.Start ⟨2, 2⟩ 20 1,
        Event.Tick 2 2 [] (fun _ => CURLM_OK),
        Event.Tick 2 1 [⟨CURLMSG.DONE, 1, 7⟩] (fun _ => CURLM_OK),
        Event.Complete ⟨1, 1⟩, Event.Complete ⟨2, 2⟩]) ∧
    (∃ s0 s, FCurlHttpManager.ctor 1 none none = Result.ok s0 ∧
      Run 1000 s0 [Event.Start ⟨1, 1⟩ 10 0, Event.Start ⟨2, 2⟩ 20 1,
        Event.Tick 2 2 [] (fun _ => CURLM_OK),
        Event.Tick 2 1 [⟨CURLMSG.DONE, 1, 7⟩] (fun _ => CURLM_OK),
        Event.Complete ⟨1, 1⟩, Event.Complete ⟨2, 2⟩] = Result.ok s ∧
      NotifiedResults s.Trace = ReportedResults s.Trace ∧
      (∀ h, ((ReportedResults s.Trace).map Prod.fst).count h +
            (if h ∈ s.ActiveSet then 1 else 0) ≤ (AcceptedHandles s.Trace).count h ∧
          (RegisteredHandles s.Trace).count h = (RetiredHandles s.Trace).count h +
            (if (TMap.Find s.HandlesToRequests h).isSome then 1 else 0))) ∧
    (∃ s0 s s1, FCurlHttpManager.ctor 1 none none = Result.ok s0 ∧
      Run 1000 s0 [Event.Start ⟨1, 1⟩ 10 0, Event.Start ⟨2, 2⟩ 20 1,
        Event.Tick 2 2 [] (fun _ => CURLM_OK),
        Event.Tick 2 1 [⟨CURLMSG.DONE, 1, 7⟩] (fun _ => CURLM_OK),
        Event.Complete ⟨1, 1⟩, Event.Complete ⟨2, 2⟩] = Result.ok s ∧
      Completions s.Trace = [(⟨1, 1⟩, 7)] ∧ ReportedResults s.Trace = [(1, 7)] ∧
      AcceptedHandles s.Trace = [1, 2] ∧
      RegisteredHandles s.Trace = [1, 2] ∧ RetiredHandles s.Trace = [1, 2] ∧
      s.HandlesToRequests = [] ∧
      Run 1000 s0 [Event.Start ⟨1, 1⟩ 10 0, Event.Start ⟨2, 2⟩ 20 1,
        Event.Tick 2 2 [] (fun _ => CURLM_OK),
        Event.Tick 2 1 [⟨CURLMSG.DONE, 1, 7⟩] (fun _ => CURLM_OK),
        Event.Tick 2 0 [⟨CURLMSG.DONE, 2, 0⟩] (fun _ => CURLM_OK)] = Result.ok s1 ∧
      Completions s1.Trace = [(⟨1, 1⟩, 7), (⟨2, 2⟩, 0)]) :=
  have hv : ∀ s0, FCurlHttpManager.ctor 1 none none = Result.ok s0 →
      Guarded 1000 ValidCall s0 [Event.Start ⟨1, 1⟩ 10 0, Event.Start ⟨2, 2⟩ 20 1,
        Event.Tick 2 2 [] (fun _ => CURLM_OK),
        Event.Tick 2 1 [⟨CURLMSG.DONE, 1, 7⟩] (fun _ => CURLM_OK),
        Event.Complete ⟨1, 1⟩, Event.Complete ⟨2, 2⟩] := by
    intro s0 h0
    simp only [FCurlHttpManager.ctor] at h0
    cases h0
    simp [Guarded, ValidCall, ReportsValid, Step, StartThreadedRequest,
      FCurlHttpRequest.GetEasyHandle, CurlEasyRequestData.ctor, TMap.Add, TMap.Contains,
      TMap.Find, TMap.InsertAt, TMap.Update, HttpThreadTick, PerformAndDrain, DrainLoop,
      DrainMessage, AdmissionLoop, HasBudget, FindNextEasyHandle, FindNextEasyHandle.scan,
      FindNextEasyHandle.visit, AdmitHandle, CURLM_OK, CompleteThreadedRequest, TMap.Remove]
  ⟨by decide, hv,
   (match exactly_once_completion 1000 1 none none _ (by decide) hv with
    | ⟨s0, s, h1, h2, h3, h4, _⟩ => ⟨s0, s, h1, h2, h3, h4⟩),
   ⟨_, _, _, rfl, rfl, by decide, by decide, by decide, by decide, by decide, by decide, rfl,
    by decide⟩⟩

/-- What the assertion of `StartThreadedRequest` guards against: request 1 is submitted,
admitted and accepted by the multiplexer, submitted a second time while still registered
(which resets its entry) and retired (which, the entry no longer being marked
`bAddedToMulti`, leaves the handle in the multiplexer). The multiplexer then reports handle
1, which it holds, as finished: the tick reads the report and delivers no `MarkAsCompleted`
at all. -/
theorem resubmission_loses_completion :
    ∃ s0 s1 s2, FCurlHttpManager.ctor 1 none none = Result.ok s0 ∧
      Run 1000 s0 [Event.Start ⟨1, 1⟩ 10 0, Event.Tick 1 1 [] (fun _ => CURLM_OK),
        Event.Start ⟨1, 1⟩ 20 0, Event.Complete ⟨1, 1⟩, Event.Start ⟨2, 2⟩ 30 0]
        = Result.ok s1 ∧
      AcceptedHandles s1.Trace = [1] ∧ s1.ActiveSet = [1] ∧
      HttpThreadTick 1000 s1 1 0 [⟨CURLMSG.DONE, 1, 0⟩] (fun _ => CURLM_OK) = Result.ok s2 ∧
      ReportedResults s2.Trace = [(1, 0)] ∧ Completions s2.Trace = [] :=
  ⟨_, _, _, rfl, rfl, by decide, by decide, rfl, by decide, by decide⟩

theorem TMap.Find_isSome_of_mem {m : TMap} {k : CURL} {d : CurlEasyRequestData}
    (h : (k, d) ∈ m) : ∃ d1, TMap.Find m k = some d1 := by
  cases hf : TMap.Find m k with
  | some d1 => exact ⟨d1, rfl⟩
  | none =>
    exfalso
    have hk := TMap.Find_none_iff.1 hf
    exact hk (List.mem_map.2 ⟨(k, d), h, rfl⟩)

theorem FindNextEasyHandle_true (MaxValue : FDateTime) (m : TMap) (Out : Option CURL)
    (hret : FindNextEasyHandle MaxValue m = (true, Out)) :
    ∃ h d, Out = some h ∧ FirstMinBelow MaxValue m h d := by
  rcases FindNextEasyHandle_cases MaxValue m with ⟨_, heq⟩ | ⟨h, d, hf, heq⟩
  · rw [heq] at hret
    simp at hret
  · rw [heq] at hret
    simp only [Prod.mk.injEq, true_and] at hret
    exact ⟨h, d, hret.symm, hf⟩

theorem AdmissionLoop_no_check (MaxValue : FDateTime) (AddResults : Nat → CURLMcode) :
    ∀ (Fuel Index : Nat) (NumAdded : Int) (s : FCurlHttpManager),
      AdmissionLoop MaxValue AddResults Fuel Index NumAdded s ≠ Result.checkFailed := by
  intro Fuel
  induction Fuel with
  | zero =>
    intro Index NumAdded s
    unfold AdmissionLoop
    split <;> simp
  | succ Fuel ih =>
    intro Index NumAdded s
    unfold AdmissionLoop
    split
    · rcases FindNextEasyHandle_cases MaxValue s.HandlesToRequests with
        ⟨_, heq⟩ | ⟨h, d, hf, heq⟩
      · rw [heq]
        simp
      · rw [heq]
        obtain ⟨d1, hd1⟩ := TMap.Find_isSome_of_mem hf.mem
        simp only [hd1]
        exact ih _ _ _
    · simp

/-- C20: whenever `FindNextEasyHandle` returns `true`, for every registry content, it wrote a
handle; that handle is the key of an entry of `HandlesToRequests` with `bProcessingStarted`
false, so the lookup `FindChecked` makes for it finds an entry (that very entry when the keys
are unique, as they are in a map). In consequence the admission loop never ends in a failed
assertion, whatever the registry, the caps, the answers of the multiplexer and the fuel. -/
theorem FindChecked_cannot_fail (MaxValue : FDateTime) (m : TMap) (Out : Option CURL)
    (hret : FindNextEasyHandle MaxValue m = (true, Out)) :
    (∃ EasyHandle RequestData, Out = some EasyHandle ∧ (EasyHandle, RequestData) ∈ m ∧
        RequestData.bProcessingStarted = false ∧
        (TMap.Find m EasyHandle).isSome = true ∧
        ((TMap.Keys m).Nodup → TMap.Find m EasyHandle = some RequestData)) ∧
    ∀ (AddResults : Nat → CURLMcode) (Fuel Index : Nat) (NumAdded : Int) (s : FCurlHttpManager),
      AdmissionLoop MaxValue AddResults Fuel Index NumAdded s ≠ Result.checkFailed := by
  refine ⟨?_, fun AddResults => AdmissionLoop_no_check MaxValue AddResults⟩
  obtain ⟨h, d, hout, hf⟩ := FindNextEasyHandle_true MaxValue m Out hret
  refine ⟨h, d, hout, hf.mem, hf.started, ?_, fun hnd => TMap.Find_of_mem hnd hf.mem⟩
  obtain ⟨d1, hd1⟩ := TMap.Find_isSome_of_mem hf.mem
  simp [hd1]

/-- The statement of C20 at a registry of three entries, one of them admitted: the scan
returns `true` with the handle 9 of the older unadmitted entry. -/
theorem FindChecked_cannot_fail_witness :
    FindNextEasyHandle 100
        [(7, ⟨5, true, true, ⟨70, 7⟩⟩), (8, ⟨30, false, false, ⟨80, 8⟩⟩),
         (9, ⟨20, false, false, ⟨90, 9⟩⟩)] = (true, some 9) ∧
    ((∃ EasyHandle RequestData, some 9 = some EasyHandle ∧
        (EasyHandle, RequestData) ∈
          ([(7, ⟨5, true, true, ⟨70, 7⟩⟩), (8, ⟨30, false, false, ⟨80, 8⟩⟩),
            (9, ⟨20, false, false, ⟨90, 9⟩⟩)] : TMap) ∧
        RequestData.bProcessingStarted = false ∧
        (TMap.Find [(7, ⟨5, true, true, ⟨70, 7⟩⟩), (8, ⟨30, false, false, ⟨80, 8⟩⟩),
            (9, ⟨20, false, false, ⟨90, 9⟩⟩)] EasyHandle).isSome = true ∧
        ((TMap.Keys [(7, ⟨5, true, true, ⟨70, 7⟩⟩), (8, ⟨30, false, false, ⟨80, 8⟩⟩),
            (9, ⟨20, false, false, ⟨90, 9⟩⟩)]).Nodup →
          TMap.Find [(7, ⟨5, true, true, ⟨70, 7⟩⟩), (8, ⟨30, false, false, ⟨80, 8⟩⟩),
            (9, ⟨20, false, false, ⟨90, 9⟩⟩)] EasyHandle = some RequestData)) ∧
    ∀ (AddResults : Nat → CURLMcode) (Fuel Index : Nat) (NumAdded : Int) (s : FCurlHttpManager),
      AdmissionLoop 100 AddResults Fuel Index NumAdded s ≠ Result.checkFailed) :=
  ⟨by decide, FindChecked_cannot_fail 100 _ (some 9) (by decide)⟩

theorem PendingStamps_length (m : TMap) :
    (PendingStamps m).length = (Unadmitted m).length := by
  simp [PendingStamps]

theorem Eligible_length_le_Unadmitted (MaxValue : FDateTime) (m : TMap) :
    (Eligible MaxValue m).length ≤ (Unadmitted m).length := by
  unfold Eligible Unadmitted
  induction m with
  | nil => simp
  | cons p rest ih =>
    simp only [List.filter_cons]
    cases hs : p.2.bProcessingStarted with
    | true => simpa using ih
    | false =>
      by_cases hlt : p.2.DateTime < MaxValue
      · simpa [hlt] using ih
      · simp only [Bool.not_false, Bool.true_and, hlt, decide_False, ↓reduceIte]
        exact Nat.le_succ_of_le ih

/-- C18: the admission loop always terminates, within a bound that does not depend on the
configuration. For every registry (a map: its keys are unique), every pair of caps, every
pattern of answers of the multiplexer and every starting value of the locals, the loop
returns (with any fuel of at least the number of entries with `bProcessingStarted` false,
in particular with the registry length the tick gives it), and the number of its iterations,
which is the number of handles it offered to `curl_multi_add_handle`, is at most the number
of entries that had `bProcessingStarted` false when it started. -/
theorem admission_loop_terminates (MaxValue : FDateTime) (AddResults : Nat → CURLMcode)
    (Fuel Index : Nat) (NumAdded : Int) (s : FCurlHttpManager)
    (hnd : (TMap.Keys s.HandlesToRequests).Nodup)
    (hfuel : (Unadmitted s.HandlesToRequests).length ≤ Fuel) :
    ∃ Out T, AdmissionLoop MaxValue AddResults Fuel Index NumAdded s = Result.ok Out ∧
      Out.1.Trace = s.Trace ++ T ∧
      (OfferedHandles T).length ≤ (Unadmitted s.HandlesToRequests).length ∧
      (Unadmitted s.HandlesToRequests).length ≤ s.HandlesToRequests.length := by
  have hrule := AdmissionLoop_rule MaxValue AddResults
    (fun t _ _ => ∃ T, t.Trace = s.Trace ++ T ∧
      (OfferedHandles T).length + (PendingStamps t.HandlesToRequests).length =
        (PendingStamps s.HandlesToRequests).length)
    (by
      intro t n i h d _ hP _ hf hfind
      obtain ⟨T, hT, hlen⟩ := hP
      obtain ⟨pre, post, h1, h2⟩ :=
        AdmitHandle_PendingStamps t n (AddResults i) hfind hf.started
      refine ⟨T ++ [Call.curl_multi_add_handle h (AddResults i),
        Call.SetAddToCurlMultiResult d.Request (AddResults i)], ?_, ?_⟩
      · rw [AdmitHandle_Trace, hT, List.append_assoc]
      · rw [OfferedHandles_append, OfferedHandles_admit, h2]
        rw [h1] at hlen
        simp only [List.length_append, List.length_cons, List.length_nil] at hlen ⊢
        omega)
    Fuel Index NumAdded s hnd
    (le_trans (Eligible_length_le_Unadmitted MaxValue s.HandlesToRequests) hfuel)
    ⟨[], by simp, by simp [OfferedHandles]⟩
  obtain ⟨out, j, hout, ⟨T, hT, hlen⟩, _, _⟩ := hrule
  refine ⟨out, T, hout, hT, ?_, List.length_filter_le _ _⟩
  rw [← PendingStamps_length]
  omega

/-- The statement of C18 on a registry of three entries, two of them unadmitted, with caps
`0` (unlimited): the loop runs twice. -/
theorem admission_loop_terminates_witness :
    (TMap.Keys [(7, ⟨5, true, true, ⟨70, 7⟩⟩), (8, ⟨30, false, false, ⟨80, 8⟩⟩),
        (9, ⟨20, false, false, ⟨90, 9⟩⟩)]).Nodup ∧
    ∃ Out T, AdmissionLoop 100 (fun _ => 0) 3 0 0
        ⟨1, 0, 0, 1, [(7, ⟨5, true, true, ⟨70, 7⟩⟩), (8, ⟨30, false, false, ⟨80, 8⟩⟩),
          (9, ⟨20, false, false, ⟨90, 9⟩⟩)], [7], []⟩ = Result.ok Out ∧
      Out.1.Trace = [] ++ T ∧
      (OfferedHandles T).length ≤
        (Unadmitted [(7, ⟨5, true, true, ⟨70, 7⟩⟩), (8, ⟨30, false, false, ⟨80, 8⟩⟩),
          (9, ⟨20, false, false, ⟨90, 9⟩⟩)]).length ∧
      (Unadmitted [(7, ⟨5, true, true, ⟨70, 7⟩⟩), (8, ⟨30, false, false, ⟨80, 8⟩⟩),
          (9, ⟨20, false, false, ⟨90, 9⟩⟩)]).length ≤
        ([(7, ⟨5, true, true, ⟨70, 7⟩⟩), (8, ⟨30, false, false, ⟨80, 8⟩⟩),
          (9, ⟨20, false, false, ⟨90, 9⟩⟩)] : TMap).length :=
  ⟨by decide,
   admission_loop_terminates 100 (fun _ => 0) 3 0 0
     ⟨1, 0, 0, 1, [(7, ⟨5, true, true, ⟨70, 7⟩⟩), (8, ⟨30, false, false, ⟨80, 8⟩⟩),
       (9, ⟨20, false, false, ⟨90, 9⟩⟩)], [7], []⟩ (by decide) (by decide)⟩

theorem InFlightCount_cons (p : CURL × CurlEasyRequestData) (rest : TMap) :
    InFlightCount (p :: rest) =
      (if p.2.bAddedToMulti = true then 1 else 0) + InFlightCount rest := by
  unfold InFlightCount
  by_cases h : p.2.bAddedToMulti = true
  · simp [List.filter_cons, h]; omega
  · simp [List.filter_cons, h]

theorem InFlightCount_Update {m : TMap} {h : CURL} {d : CurlEasyRequestData}
    (f : CurlEasyRequestData → CurlEasyRequestData) (hfind : TMap.Find m h = some d) :
    InFlightCount (TMap.Update m h f) + (if d.bAddedToMulti = true then 1 else 0) =
      InFlightCount m + (if (f d).bAddedToMulti = true then 1 else 0) := by
  induction m with
  | nil => simp [TMap.Find] at hfind
  | cons p rest ih =>
    obtain ⟨k, v⟩ := p
    by_cases hk : k = h
    · simp only [TMap.Find, hk, if_true, Option.some.injEq] at hfind
      subst hfind
      simp only [TMap.Update, hk, if_true, InFlightCount_cons]
      omega
    · simp only [TMap.Find, hk, if_false] at hfind
      have := ih hfind
      simp only [TMap.Update, hk, if_false, InFlightCount_cons]
      omega

theorem TMap.Remove_of_not_mem {m : TMap} {h : CURL} (hk : h ∉ TMap.Keys m) :
    TMap.Remove m h = m := by
  unfold TMap.Remove
  rw [List.filter_eq_self]
  intro p hp
  have : p.1 ≠ h := by
    intro heq
    exact hk (List.mem_map.2 ⟨p, hp, heq⟩)
  simpa using this

theorem InFlightCount_Remove {m : TMap} {h : CURL} {d : CurlEasyRequestData}
    (hnd : (TMap.Keys m).Nodup) (hfind : TMap.Find m h = some d) :
    InFlightCount (TMap.Remove m h) + (if d.bAddedToMulti = true then 1 else 0) =
      InFlightCount m := by
  induction m with
  | nil => simp [TMap.Find] at hfind
  | cons p rest ih =>
    obtain ⟨k, v⟩ := p
    simp only [TMap.Keys, List.map_cons, List.nodup_cons] at hnd
    by_cases hk : k = h
    · simp only [TMap.Find, hk, if_true, Option.some.injEq] at hfind
      subst hfind
      subst hk
      have hrest : TMap.Remove rest k = rest := TMap.Remove_of_not_mem hnd.1
      have : TMap.Remove ((k, v) :: rest) k = rest := by
        have h1 : TMap.Remove ((k, v) :: rest) k = TMap.Remove rest k := by
          simp [TMap.Remove, List.filter_cons]
        rw [h1, hrest]
      rw [this, InFlightCount_cons]
      dsimp only
      omega
    · simp only [TMap.Find, hk, if_false] at hfind
      have hih := ih hnd.2 hfind
      have : TMap.Remove ((k, v) :: rest) h = (k, v) :: TMap.Remove rest h := by
        simp [TMap.Remove, List.filter_cons, hk]
      rw [this, InFlightCount_cons, InFlightCount_cons]
      dsimp only
      omega

theorem InFlightCount_InsertAt (m : TMap) (Slot : Nat) (p : CURL × CurlEasyRequestData) :
    InFlightCount (TMap.InsertAt m Slot p) =
      (if p.2.bAddedToMulti = true then 1 else 0) + InFlightCount m := by
  rw [← InFlightCount_cons]
  unfold InFlightCount
  exact ((TMap.InsertAt_perm m Slot p).filter _).length_eq

theorem StartThreadedRequest_CounterMatches {s : FCurlHttpManager} (Request : FCurlHttpRequest)
    (Now : FDateTime) (Slot : Nat) (hP : CounterMatches s)
    (hV : TMap.Find s.HandlesToRequests Request.EasyHandle = none) :
    CounterMatches (StartThreadedRequest s Request Now Slot) := by
  unfold CounterMatches at hP ⊢
  simp only [StartThreadedRequest, FCurlHttpRequest.GetEasyHandle, TMap.Add, TMap.Contains, hV,
    Option.isSome_none, Bool.false_eq_true, if_false]
  rw [InFlightCount_InsertAt]
  simpa [CurlEasyRequestData.ctor] using hP

theorem CompleteThreadedRequest_CounterMatches {s : FCurlHttpManager}
    (Request : FCurlHttpRequest) (hw : WellFormed s) (hP : CounterMatches s) :
    CounterMatches (CompleteThreadedRequest s Request) := by
  unfold CounterMatches at hP ⊢
  unfold CompleteThreadedRequest
  simp only [FCurlHttpRequest.GetEasyHandle]
  cases hf : TMap.Find s.HandlesToRequests Request.EasyHandle with
  | none => simpa using hP
  | some d =>
    have hrem := InFlightCount_Remove hw.2 hf
    cases hd : d.bAddedToMulti with
    | true =>
      simp only [hd, if_true] at hrem ⊢
      omega
    | false =>
      simp only [hd, Bool.false_eq_true, if_false] at hrem ⊢
      omega

theorem DrainMessage_CounterMatches {s : FCurlHttpManager} (Message : CURLMsg)
    (ham : ActiveMatches s) (hP : CounterMatches s)
    (hV : Message.msg = CURLMSG.DONE → Message.easy_handle ∈ s.ActiveSet) :
    CounterMatches (DrainMessage s Message) := by
  unfold CounterMatches at hP ⊢
  unfold DrainMessage
  by_cases hdone : Message.msg = CURLMSG.DONE
  · obtain ⟨d, hfind, hd⟩ := (ham Message.easy_handle).1 (hV hdone)
    have hup := InFlightCount_Update (fun d => { d with bAddedToMulti := false }) hfind
    simp only [hd, if_true, Bool.false_eq_true, if_false] at hup
    simp only [hdone, if_true, hfind]
    omega
  · simpa [hdone] using hP

theorem AdmitHandle_CounterMatches {s : FCurlHttpManager} (n : Int) {h : CURL}
    {d : CurlEasyRequestData} (r : CURLMcode)
    (hfind : TMap.Find s.HandlesToRequests h = some d) (hs : d.bProcessingStarted = false)
    (hsound : Sound s) (hP : CounterMatches s) :
    CounterMatches (AdmitHandle s n h d r).1 := by
  have hd : d.bAddedToMulti = false := by
    cases hda : d.bAddedToMulti with
    | false => rfl
    | true =>
      have := hsound.2 h d hfind hda
      rw [hs] at this
      cases this
  unfold CounterMatches at hP ⊢
  unfold AdmitHandle
  by_cases hr : r = CURLM_OK
  · have hup := InFlightCount_Update
      (fun d => { d with bProcessingStarted := true, bAddedToMulti := true }) hfind
    simp only [hd, Bool.false_eq_true, if_false, if_true] at hup
    simp only [hr, if_true]
    omega
  · have hup := InFlightCount_Update (fun d => { d with bProcessingStarted := true }) hfind
    simp only [hd, Bool.false_eq_true, if_false] at hup
    simp only [hr, if_false]
    omega

theorem Step_Consistent (MaxValue : FDateTime) (s : FCurlHttpManager) (e : Event)
    (s1 : FCurlHttpManager) (hw : WellFormed s) (hP : Consistent s) (hV : ValidCall s e)
    (hstep : Step MaxValue s e = Result.ok s1) : Consistent s1 := by
  refine ⟨Step_Accounts MaxValue s e s1 hw hP.1 hV hstep, ?_⟩
  cases e with
  | Start Request Now Slot =>
    simp only [Step, Result.ok.injEq] at hstep
    subst hstep
    exact StartThreadedRequest_CounterMatches Request Now Slot hP.2 hV
  | Tick n RunningRequests Messages AddResults =>
    obtain ⟨s2, hrun2, _, hP2⟩ := HttpThreadTick_rule_valid MaxValue Consistent
      (fun _ _ h => ⟨perform_Accounts h.1, h.2⟩)
      (fun _ Message _ ht hv =>
        ⟨DrainMessage_Accounts Message ht.1 hv,
         DrainMessage_CounterMatches Message ht.1.2.1 ht.2 hv⟩)
      (fun _ k h d r _ ht _ hf hfind =>
        ⟨AdmitHandle_Accounts k r hfind hf ht.1,
         AdmitHandle_CounterMatches k r hfind hf.started ht.1.1 ht.2⟩)
      s n RunningRequests Messages AddResults hw hP hV
    simp only [Step] at hstep
    rw [hstep] at hrun2
    cases hrun2
    exact hP2.2
  | Complete Request =>
    simp only [Step, Result.ok.injEq] at hstep
    subst hstep
    exact CompleteThreadedRequest_CounterMatches Request hw hP.2

/-- C19: counter consistency. Over every sequence of `StartThreadedRequest` (on handles not
already registered), `HttpThreadTick` and `CompleteThreadedRequest` calls on a freshly
constructed manager, with a multiplexer that reports a completion only for a handle it
currently holds: all calls return, and in the state reached `NumRequestsAddedToMulti` equals
the number of registry entries with `bAddedToMulti` true (so the counter is never negative,
and a handle drained by the tick is not counted down a second time when it is retired). -/
theorem counter_consistency (MaxValue : FDateTime) (GMultiHandle : CURLM)
    (CfgSimultaneous CfgPerFrame : Option Int) (evs : List Event) (hG : GMultiHandle ≠ 0)
    (hvalid : ∀ s0, FCurlHttpManager.ctor GMultiHandle CfgSimultaneous CfgPerFrame
      = Result.ok s0 → Guarded MaxValue ValidCall s0 evs) :
    ∃ s0 s, FCurlHttpManager.ctor GMultiHandle CfgSimultaneous CfgPerFrame = Result.ok s0 ∧
      Run MaxValue s0 evs = Result.ok s ∧
      s.NumRequestsAddedToMulti = (InFlightCount s.HandlesToRequests : Int) := by
  obtain ⟨s0, hctor, hw0, _, _, hnum, hmap, hact, htrace⟩ :=
    ctor_ok hG CfgSimultaneous CfgPerFrame
  have h0 : Consistent s0 := by
    refine ⟨⟨⟨?_, ?_⟩, ?_, ?_, ?_, ?_⟩, ?_⟩
    · intro k d hf; rw [hmap] at hf; simp [TMap.Find] at hf
    · intro k d hf; rw [hmap] at hf; simp [TMap.Find] at hf
    · intro h; rw [hmap, hact]; simp [TMap.Find]
    · rw [htrace]; rfl
    · intro h; rw [htrace, hact]; simp [ReportedResults, AcceptedHandles]
    · intro h; rw [htrace, hmap]; simp [RegisteredHandles, RetiredHandles, TMap.Find]
    · unfold CounterMatches
      rw [hnum, hmap]
      rfl
  obtain ⟨s, hrun, _, _, hcount⟩ :=
    Run_rule_guarded MaxValue ValidCall Consistent
      (fun s e s1 hw hP hV hstep => Step_Consistent MaxValue s e s1 hw hP hV hstep)
      evs s0 hw0 h0 (hvalid s0 hctor)
  exact ⟨s0, s, hctor, hrun, hcount⟩

/-- The statement of C19 on a run with two requests: one is drained by a tick and then
retired, the other is retired while in flight. -/
theorem counter_consistency_witness :
    (1 : CURLM) ≠ 0 ∧
    (∀ s0, FCurlHttpManager.ctor 1 none none = Result.ok s0 →
      Guarded 1000 ValidCall s0 [Event.Start ⟨1, 1⟩ 10 0, Event.Start ⟨2, 2⟩ 20 1,
        Event.Tick 2 2 [] (fun _ => CURLM_OK),
        Event.Tick 2 1 [⟨CURLMSG.DONE, 1, 7⟩] (fun _ => CURLM_OK),
        Event.Complete ⟨1, 1⟩]) ∧
    ∃ s0 s, FCurlHttpManager.ctor 1 none none = Result.ok s0 ∧
      Run 1000 s0 [Event.Start ⟨1, 1⟩ 10 0, Event.Start ⟨2, 2⟩ 20 1,
        Event.Tick 2 2 [] (fun _ => CURLM_OK),
        Event.Tick 2 1 [⟨CURLMSG.DONE, 1, 7⟩] (fun _ => CURLM_OK),
        Event.Complete ⟨1, 1⟩] = Result.ok s ∧
      s.NumRequestsAddedToMulti = (InFlightCount s.HandlesToRequests : Int) :=
  have hv : ∀ s0, FCurlHttpManager.ctor 1 none none = Result.ok s0 →
      Guarded 1000 ValidCall s0 [Event.Start ⟨1, 1⟩ 10 0, Event.Start ⟨2, 2⟩ 20 1,
        Event.Tick 2 2 [] (fun _ => CURLM_OK),
        Event.Tick 2 1 [⟨CURLMSG.DONE, 1, 7⟩] (fun _ => CURLM_OK),
        Event.Complete ⟨1, 1⟩] := by
    intro s0 h0
    simp only [FCurlHttpManager.ctor] at h0
    cases h0
    simp [Guarded, ValidCall, ReportsValid, Step, StartThreadedRequest,
      FCurlHttpRequest.GetEasyHandle, CurlEasyRequestData.ctor, TMap.Add, TMap.Contains,
      TMap.Find, TMap.InsertAt, TMap.Update, HttpThreadTick, PerformAndDrain, DrainLoop,
      DrainMessage, AdmissionLoop, HasBudget, FindNextEasyHandle, FindNextEasyHandle.scan,
      FindNextEasyHandle.visit, AdmitHandle, CURLM_OK, CompleteThreadedRequest, TMap.Remove]
  ⟨by decide, hv, counter_consistency 1000 1 none none _ (by decide) hv⟩

theorem ctor_copies_handle {GMultiHandle : CURLM} {CfgSimultaneous CfgPerFrame : Option Int}
    {s0 : FCurlHttpManager}
    (hctor : FCurlHttpManager.ctor GMultiHandle CfgSimultaneous CfgPerFrame = Result.ok s0) :
    s0.MultiHandle = GMultiHandle ∧ GMultiHandle ≠ 0 := by
  unfold FCurlHttpManager.ctor at hctor
  by_cases hG : GMultiHandle = 0
  · simp [hG] at hctor
  · simp only [hG, if_false, Result.ok.injEq] at hctor
    subst hctor
    exact ⟨rfl, hG⟩

theorem ShutdownCurl_resets (g : CurlStatics) : (ShutdownCurl g).GMultiHandle = 0 := by
  unfold ShutdownCurl
  split
  · rfl
  · simp_all

/-- C17 (amended): submission is not rejected when the transport context is not
initialised. `StartThreadedRequest` makes no check of the multiplexer: in every state of the
manager and of the statics it returns `true` and leaves the request registered under its
easy handle with a fresh entry. That covers a call made after `ShutdownCurl`: the statics
then hold a null `GMultiHandle`, and a manager constructed before keeps the non-null copy
the constructor took. Before `InitCurl` there is no manager to submit to: with a null
`GMultiHandle` the constructor stops at its fatal `check(MultiHandle)`. -/
theorem StartThreadedRequest_unchecked (g : CurlStatics) (s : FCurlHttpManager)
    (Request : FCurlHttpRequest) (Now : FDateTime) (Slot : Nat) :
    (ShutdownCurl g).GMultiHandle = 0 ∧
    StartThreadedRequest.Returned s Request = true ∧
    TMap.Find (StartThreadedRequest s Request Now Slot).HandlesToRequests
      Request.GetEasyHandle = some (CurlEasyRequestData.ctor Request Now) ∧
    (∀ (CfgSimultaneous CfgPerFrame : Option Int) (s0 : FCurlHttpManager),
      FCurlHttpManager.ctor g.GMultiHandle CfgSimultaneous CfgPerFrame = Result.ok s0 →
      s0.MultiHandle = g.GMultiHandle ∧ s0.MultiHandle ≠ 0 ∧
      StartThreadedRequest.Returned s0 Request = true ∧
      (StartThreadedRequest s0 Request Now Slot).HandlesToRequests =
        [(Request.GetEasyHandle, CurlEasyRequestData.ctor Request Now)]) ∧
    (∀ CfgSimultaneous CfgPerFrame : Option Int,
      FCurlHttpManager.ctor (CurlStatics.initial g.CurlRequestOptions).GMultiHandle
        CfgSimultaneous CfgPerFrame = Result.checkFailed) := by
  refine ⟨ShutdownCurl_resets g, rfl, ?_, ?_, fun _ _ => rfl⟩
  · rw [StartThreadedRequest_Find]
    simp [FCurlHttpRequest.GetEasyHandle]
  · intro CfgSimultaneous CfgPerFrame s0 hctor
    obtain ⟨h1, h2⟩ := ctor_copies_handle hctor
    refine ⟨h1, by rw [h1]; exact h2, rfl, ?_⟩
    unfold FCurlHttpManager.ctor at hctor
    simp only [h2, if_false, Result.ok.injEq] at hctor
    subst hctor
    simp [StartThreadedRequest, TMap.Add, TMap.Contains, TMap.Find, TMap.InsertAt]

/-- C17 as stated fails. Before `InitCurl` the constructor stops at its fatal check, so there
is no manager to submit to. After `InitCurl`, construction of a manager and `ShutdownCurl`,
the process-wide multiplexer is gone (`GMultiHandle` is `NULL`), and `StartThreadedRequest`
on that manager returns `true` and registers the request. -/
theorem StartThreadedRequest_counterexample :
    FCurlHttpManager.ctor (CurlStatics.initial FCurlRequestOptions.ctor).GMultiHandle none none
      = Result.checkFailed ∧
    ∃ g s0, InitCurl (CurlStatics.initial FCurlRequestOptions.ctor)
        ⟨0, 7, 8, none, false, true, false, fun _ => false, "", "", false, none⟩
        = Result.ok g ∧
      FCurlHttpManager.ctor g.GMultiHandle none none = Result.ok s0 ∧
      (ShutdownCurl g).GMultiHandle = 0 ∧
      StartThreadedRequest.Returned s0 ⟨1, 1⟩ = true ∧
      (StartThreadedRequest s0 ⟨1, 1⟩ 10 0).HandlesToRequests =
        [(1, ⟨10, false, false, ⟨1, 1⟩⟩)] :=
  ⟨rfl, _, _, rfl, rfl, rfl, rfl, rfl⟩

theorem InitCurl_returns (g : CurlStatics) (env : InitEnvironment)
    (hg : g.GMultiHandle = 0) (hinit : env.InitResult = 0) (hmulti : env.MultiInit ≠ 0)
    (hshare : env.ShareInit ≠ 0) :
    ∃ g1, InitCurl g env = Result.ok g1 ∧ g1.GMultiHandle = env.MultiInit ∧
      g1.GShareHandle = env.ShareInit ∧
      g1.CurlRequestOptions =
        InitCurl.verifyPeer
          (InitCurl.certLocation (InitCurl.commandLine g.CurlRequestOptions env) env) env := by
  unfold InitCurl
  simp only [hg, ne_eq, not_true_eq_false, if_false, hinit, if_true, hmulti, hshare]
  exact ⟨_, rfl, rfl, rfl, rfl⟩

theorem InitCurl_cases (g : CurlStatics) (env : InitEnvironment) (g1 : CurlStatics)
    (hret : InitCurl g env = Result.ok g1) :
    (g.GMultiHandle ≠ 0 ∧ g1 = g) ∨
    (g.GMultiHandle = 0 ∧ env.InitResult = 0 ∧ env.MultiInit ≠ 0 ∧ env.ShareInit ≠ 0 ∧
      g1.GMultiHandle = env.MultiInit ∧
      g1.CurlRequestOptions =
        InitCurl.verifyPeer
          (InitCurl.certLocation (InitCurl.commandLine g.CurlRequestOptions env) env) env) := by
  by_cases hg : g.GMultiHandle = 0
  · right
    by_cases hinit : env.InitResult = 0
    · by_cases hmulti : env.MultiInit = 0
      · simp [InitCurl, hg, hinit, hmulti] at hret
      · by_cases hshare : env.ShareInit = 0
        · simp [InitCurl, hg, hinit, hmulti, hshare] at hret
        · obtain ⟨g2, h2, hm, _, ho⟩ := InitCurl_returns g env hg hinit hmulti hshare
          rw [hret] at h2
          cases h2
          exact ⟨hg, hinit, hmulti, hshare, hm, ho⟩
    · simp [InitCurl, hg, hinit] at hret
  · left
    refine ⟨hg, ?_⟩
    simp only [InitCurl, ne_eq, hg, not_false_eq_true, if_true, Result.ok.injEq] at hret
    exact hret.symm

theorem InitCurl.commandLine_keeps (Options : FCurlRequestOptions) (env : InitEnvironment) :
    (InitCurl.commandLine Options env).bVerifyPeer = Options.bVerifyPeer ∧
      (InitCurl.commandLine Options env).CertBundlePath = Options.CertBundlePath := by
  unfold InitCurl.commandLine
  cases env.HttpProxy with
  | none => cases env.NoReuseConn <;> simp
  | some a =>
    by_cases ha : a = ""
    · cases env.NoReuseConn <;> simp [ha]
    · cases env.NoReuseConn <;> simp [ha]

theorem InitCurl.certLocation_keeps (Options : FCurlRequestOptions) (env : InitEnvironment) :
    (InitCurl.certLocation Options env).bVerifyPeer = Options.bVerifyPeer := by
  unfold InitCurl.certLocation
  split
  · rfl
  · split
    · split
      · split <;> rfl
      · rfl
    · rfl

theorem InitCurl.verifyPeer_path (Options : FCurlRequestOptions) (env : InitEnvironment) :
    (InitCurl.verifyPeer Options env).CertBundlePath = Options.CertBundlePath := by
  unfold InitCurl.verifyPeer
  split
  · rfl
  · cases env.VerifyPeer <;> rfl

theorem InitCurl.verifyPeer_null (Options : FCurlRequestOptions) (env : InitEnvironment)
    (hnull : (InitCurl.verifyPeer Options env).CertBundlePath = none) :
    (InitCurl.verifyPeer Options env).bVerifyPeer = false := by
  rw [InitCurl.verifyPeer_path] at hnull
  simp [InitCurl.verifyPeer, hnull]

theorem InitCurl.verifyPeer_resolved (Options : FCurlRequestOptions) (env : InitEnvironment)
    (hres : (InitCurl.verifyPeer Options env).CertBundlePath ≠ none) :
    (InitCurl.verifyPeer Options env).bVerifyPeer = env.VerifyPeer.getD Options.bVerifyPeer := by
  rw [InitCurl.verifyPeer_path] at hres
  unfold InitCurl.verifyPeer
  rw [if_neg hres]
  cases env.VerifyPeer <;> rfl

theorem DiscoverBundle_first (FileExists : String → Bool) (Current : Option String) :
    ∀ (Paths pre : List String) (p : String) (post : List String),
      Paths = pre ++ p :: post → FileExists p = true → (∀ q ∈ pre, FileExists q = false) →
      DiscoverBundle FileExists Paths Current = some p := by
  intro Paths
  induction Paths with
  | nil => intro pre p post h; simp at h
  | cons a rest ih =>
    intro pre p post h hp hpre
    cases pre with
    | nil =>
      simp only [List.nil_append, List.cons.injEq] at h
      obtain ⟨ha, _⟩ := h
      subst ha
      simp [DiscoverBundle, hp]
    | cons b pre1 =>
      simp only [List.cons_append, List.cons.injEq] at h
      obtain ⟨hb, hrest⟩ := h
      subst hb
      have ha : FileExists a = false := hpre a (List.mem_cons_self _ _)
      simp only [DiscoverBundle, ha, Bool.false_eq_true, if_false]
      exact ih pre1 p post hrest hp (fun q hq => hpre q (List.mem_cons_of_mem _ hq))

theorem DiscoverBundle_none (FileExists : String → Bool) (Current : Option String) :
    ∀ Paths : List String, (∀ q ∈ Paths, FileExists q = false) →
      DiscoverBundle FileExists Paths Current = Current := by
  intro Paths
  induction Paths with
  | nil => intro _; rfl
  | cons a rest ih =>
    intro h
    have ha : FileExists a = false := h a (List.mem_cons_self _ _)
    simp only [DiscoverBundle, ha, Bool.false_eq_true, if_false]
    exact ih (fun q hq => h q (List.mem_cons_of_mem _ hq))

theorem InitCurl_VerifyForced (g : CurlStatics) (env : InitEnvironment) (g1 : CurlStatics)
    (hP : VerifyForced g) (hret : InitCurl g env = Result.ok g1) :
    VerifyForced g1 ∧ (g1.CurlRequestOptions.CertBundlePath = none →
      g1.CurlRequestOptions.bVerifyPeer = false) := by
  rcases InitCurl_cases g env g1 hret with ⟨hg, heq⟩ | ⟨_, _, _, _, _, ho⟩
  · subst heq
    exact ⟨hP, hP hg⟩
  · have key : g1.CurlRequestOptions.CertBundlePath = none →
        g1.CurlRequestOptions.bVerifyPeer = false := by
      rw [ho]
      exact InitCurl.verifyPeer_null _ env
    exact ⟨fun _ => key, key⟩

theorem ShutdownCurl_VerifyForced (g : CurlStatics) : VerifyForced (ShutdownCurl g) := by
  intro hne
  exfalso
  apply hne
  unfold ShutdownCurl
  split <;> simp_all

theorem StaticsRun_VerifyForced :
    ∀ (calls : List StaticsCall) (g g1 : CurlStatics), VerifyForced g →
      StaticsRun g calls = Result.ok g1 → VerifyForced g1 := by
  intro calls
  induction calls with
  | nil =>
    intro g g1 hP hrun
    simp only [StaticsRun, Result.ok.injEq] at hrun
    subst hrun
    exact hP
  | cons c rest ih =>
    intro g g1 hP hrun
    cases c with
    | InitCurl env =>
      simp only [StaticsRun] at hrun
      cases hinit : InitCurl g env with
      | ok g2 =>
        rw [hinit] at hrun
        exact ih g2 g1 (InitCurl_VerifyForced g env g2 hP hinit).1 hrun
      | checkFailed => rw [hinit] at hrun; cases hrun
      | outOfFuel => rw [hinit] at hrun; cases hrun
    | ShutdownCurl =>
      simp only [StaticsRun] at hrun
      exact ih _ g1 (ShutdownCurl_VerifyForced g) hrun

/-- C11: scenario B. In every state the statics reach from process start by `InitCurl` and
`ShutdownCurl` calls, whatever the options held at process start, a call of `InitCurl` that
returns with `CertBundlePath` null leaves `bVerifyPeer` false, for every value of the
`n.VerifyPeer` setting (and every other input of the call) and every prior `bVerifyPeer`. -/
theorem verify_peer_off_without_bundle (Options : FCurlRequestOptions)
    (calls : List StaticsCall) (env : InitEnvironment) (g g1 : CurlStatics)
    (hrun : StaticsRun (CurlStatics.initial Options) calls = Result.ok g)
    (hret : InitCurl g env = Result.ok g1)
    (hnull : g1.CurlRequestOptions.CertBundlePath = none) :
    g1.CurlRequestOptions.bVerifyPeer = false := by
  have h0 : VerifyForced (CurlStatics.initial Options) := by
    intro hne
    exact absurd rfl hne
  exact (InitCurl_VerifyForced g env g1
    (StaticsRun_VerifyForced calls _ g h0 hrun) hret).2 hnull

/-- The statement of C11 on a first initialisation, on Linux with none of the known bundles
present, with `n.VerifyPeer` set to `true`. -/
theorem verify_peer_off_without_bundle_witness :
    StaticsRun (CurlStatics.initial FCurlRequestOptions.ctor) [] =
      Result.ok (CurlStatics.initial FCurlRequestOptions.ctor) ∧
    InitCurl (CurlStatics.initial FCurlRequestOptions.ctor)
        ⟨0, 7, 8, none, false, true, false, fun _ => false, "", "", false, some true⟩ =
      Result.ok ⟨7, 8, ⟨false, false, false, "", none⟩,
        [LibraryCall.curl_global_init_mem 0, LibraryCall.curl_multi_init 7,
         LibraryCall.curl_share_init 8, LibraryCall.curl_share_setopt 8,
         LibraryCall.curl_share_setopt 8, LibraryCall.curl_share_setopt 8]⟩ ∧
    (⟨false, false, false, "", none⟩ : FCurlRequestOptions).bVerifyPeer = false :=
  ⟨rfl, rfl,
   verify_peer_off_without_bundle FCurlRequestOptions.ctor []
     ⟨0, 7, 8, none, false, true, false, fun _ => false, "", "", false, some true⟩ _
     ⟨7, 8, ⟨false, false, false, "", none⟩,
        [LibraryCall.curl_global_init_mem 0, LibraryCall.curl_multi_init 7,
         LibraryCall.curl_share_init 8, LibraryCall.curl_share_setopt 8,
         LibraryCall.curl_share_setopt 8, LibraryCall.curl_share_setopt 8]⟩ rfl rfl rfl⟩

theorem InitCurl_verifyPeer_keeps (g : CurlStatics) (env : InitEnvironment)
    (hg : g.GMultiHandle = 0) (hinit : env.InitResult = 0) (hmulti : env.MultiInit ≠ 0)
    (hshare : env.ShareInit ≠ 0) :
    ∃ g1, InitCurl g env = Result.ok g1 ∧
      (g1.CurlRequestOptions.CertBundlePath ≠ none →
        g1.CurlRequestOptions.bVerifyPeer =
          env.VerifyPeer.getD g.CurlRequestOptions.bVerifyPeer) := by
  obtain ⟨g1, hret, _, _, ho⟩ := InitCurl_returns g env hg hinit hmulti hshare
  refine ⟨g1, hret, fun hres => ?_⟩
  rw [ho] at hres ⊢
  rw [InitCurl.verifyPeer_resolved _ env hres, InitCurl.certLocation_keeps,
    (InitCurl.commandLine_keeps _ env).1]

/-- C12: when `InitCurl`, called at process start (statics as initialised, options as their
constructor leaves them) with the library and both handles coming up, resolves a trust
bundle, the resulting `bVerifyPeer` is taken from configuration with a default of enabled:
it equals the configured `n.VerifyPeer` value when that setting is present, and it is `true`
when the setting is absent. -/
theorem verify_peer_from_configuration (env : InitEnvironment)
    (hinit : env.InitResult = 0) (hmulti : env.MultiInit ≠ 0) (hshare : env.ShareInit ≠ 0) :
    ∃ g1, InitCurl (CurlStatics.initial FCurlRequestOptions.ctor) env = Result.ok g1 ∧
      (g1.CurlRequestOptions.CertBundlePath ≠ none →
        (∀ Configured : Bool, env.VerifyPeer = some Configured →
          g1.CurlRequestOptions.bVerifyPeer = Configured) ∧
        (env.VerifyPeer = none → g1.CurlRequestOptions.bVerifyPeer = true)) := by
  obtain ⟨g1, hret, hkeep⟩ := InitCurl_verifyPeer_keeps
    (CurlStatics.initial FCurlRequestOptions.ctor) env rfl hinit hmulti hshare
  refine ⟨g1, hret, fun hres => ⟨fun Configured hc => ?_, fun hc => ?_⟩⟩
  · rw [hkeep hres, hc]
    rfl
  · rw [hkeep hres, hc]
    rfl

/-- The statement of C12 on Linux with a bundle at the third known path: once with
`n.VerifyPeer` absent, where `bVerifyPeer` comes out `true`, and once with `n.VerifyPeer`
set to `false`, where it comes out `false`. -/
theorem verify_peer_from_configuration_witness :
    ((0 : CURLcode) = 0 ∧ (7 : CURLM) ≠ 0 ∧ (8 : CURLSH) ≠ 0) ∧
    (∃ g1, InitCurl (CurlStatics.initial FCurlRequestOptions.ctor)
        ⟨0, 7, 8, none, false, true, false, fun p => p == "/etc/ssl/ca-bundle.pem", "", "",
          false, none⟩ = Result.ok g1 ∧
      (g1.CurlRequestOptions.CertBundlePath ≠ none →
        (∀ Configured : Bool, (none : Option Bool) = some Configured →
          g1.CurlRequestOptions.bVerifyPeer = Configured) ∧
        ((none : Option Bool) = none → g1.CurlRequestOptions.bVerifyPeer = true))) ∧
    (∃ g1, InitCurl (CurlStatics.initial FCurlRequestOptions.ctor)
        ⟨0, 7, 8, none, false, true, false, fun p => p == "/etc/ssl/ca-bundle.pem", "", "",
          false, none⟩ = Result.ok g1 ∧
      g1.CurlRequestOptions.CertBundlePath = some "/etc/ssl/ca-bundle.pem" ∧
      g1.CurlRequestOptions.bVerifyPeer = true) ∧
    (∃ g1, InitCurl (CurlStatics.initial FCurlRequestOptions.ctor)
        ⟨0, 7, 8, none, false, true, false, fun p => p == "/etc/ssl/ca-bundle.pem", "", "",
          false, some false⟩ = Result.ok g1 ∧
      g1.CurlRequestOptions.CertBundlePath = some "/etc/ssl/ca-bundle.pem" ∧
      g1.CurlRequestOptions.bVerifyPeer = false) :=
  ⟨⟨rfl, by decide, by decide⟩,
   verify_peer_from_configuration
     ⟨0, 7, 8, none, false, true, false, fun p => p == "/etc/ssl/ca-bundle.pem", "", "",
       false, none⟩ rfl (by decide) (by decide),
   ⟨_, rfl, by
      simp [CurlStatics.initial, FCurlRequestOptions.ctor, InitCurl.verifyPeer,
        InitCurl.certLocation, InitCurl.commandLine, DiscoverBundle, KnownBundlePaths],
     by
      simp [CurlStatics.initial, FCurlRequestOptions.ctor, InitCurl.verifyPeer,
        InitCurl.certLocation, InitCurl.commandLine, DiscoverBundle, KnownBundlePaths]⟩,
   ⟨_, rfl, by
      simp [CurlStatics.initial, FCurlRequestOptions.ctor, InitCurl.verifyPeer,
        InitCurl.certLocation, InitCurl.commandLine, DiscoverBundle, KnownBundlePaths],
     by
      simp [CurlStatics.initial, FCurlRequestOptions.ctor, InitCurl.verifyPeer,
        InitCurl.certLocation, InitCurl.commandLine, DiscoverBundle, KnownBundlePaths]⟩⟩

/-- C13: double initialisation is a no-op. Called while `GMultiHandle` is non-null,
`InitCurl` returns and leaves the statics exactly as they were: `GMultiHandle`,
`GShareHandle`, every field of `CurlRequestOptions`, and no call into the library is made,
whatever the environment of the call. -/
theorem InitCurl_twice_is_noop (g : CurlStatics) (env : InitEnvironment)
    (hg : g.GMultiHandle ≠ 0) : InitCurl g env = Result.ok g := by
  unfold InitCurl
  rw [if_pos hg]

/-- The statement of C13 on statics initialised with a proxy and no bundle: a second call,
now with a bundle present and other settings, changes nothing. -/
theorem InitCurl_twice_is_noop_witness :
    (7 : CURLM) ≠ 0 ∧
    InitCurl ⟨7, 8, ⟨false, true, false, "proxy:8080", none⟩, []⟩
        ⟨0, 9, 10, none, true, true, false, fun _ => true, "", "", false, some true⟩ =
      Result.ok ⟨7, 8, ⟨false, true, false, "proxy:8080", none⟩, []⟩ :=
  ⟨by decide,
   InitCurl_twice_is_noop ⟨7, 8, ⟨false, true, false, "proxy:8080", none⟩, []⟩
     ⟨0, 9, 10, none, true, true, false, fun _ => true, "", "", false, some true⟩
     (by decide)⟩

/-- C14: trust bundle resolution picks the first existing path. On Linux, for every
file-existence predicate, an initialising call of `InitCurl` returns with `CertBundlePath`
set to the earliest path of `/etc/pki/tls/certs/ca-bundle.crt`,
`/etc/ssl/certs/ca-certificates.crt`, `/etc/ssl/ca-bundle.pem` that exists; when none
exists `CertBundlePath` is left as it was, so a null `CertBundlePath` is left null. -/
theorem trust_bundle_first_existing (g : CurlStatics) (env : InitEnvironment)
    (hg : g.GMultiHandle = 0) (hinit : env.InitResult = 0) (hmulti : env.MultiInit ≠ 0)
    (hshare : env.ShareInit ≠ 0) (hlinux : env.PLATFORM_LINUX = true) :
    KnownBundlePaths = ["/etc/pki/tls/certs/ca-bundle.crt",
      "/etc/ssl/certs/ca-certificates.crt", "/etc/ssl/ca-bundle.pem"] ∧
    ∃ g1, InitCurl g env = Result.ok g1 ∧
      (∀ pre p post, KnownBundlePaths = pre ++ p :: post → env.FileExists p = true →
        (∀ q ∈ pre, env.FileExists q = false) →
        g1.CurlRequestOptions.CertBundlePath = some p) ∧
      ((∀ q ∈ KnownBundlePaths, env.FileExists q = false) →
        g1.CurlRequestOptions.CertBundlePath = g.CurlRequestOptions.CertBundlePath ∧
        (g.CurlRequestOptions.CertBundlePath = none →
          g1.CurlRequestOptions.CertBundlePath = none)) := by
  refine ⟨rfl, ?_⟩
  obtain ⟨g1, hret, _, _, ho⟩ := InitCurl_returns g env hg hinit hmulti hshare
  have hpath : g1.CurlRequestOptions.CertBundlePath =
      DiscoverBundle env.FileExists KnownBundlePaths g.CurlRequestOptions.CertBundlePath := by
    rw [ho, InitCurl.verifyPeer_path]
    unfold InitCurl.certLocation
    rw [if_pos hlinux]
    simp only
    rw [(InitCurl.commandLine_keeps _ env).2]
  refine ⟨g1, hret, ?_, ?_⟩
  · intro pre p post hsplit hp hpre
    rw [hpath]
    exact DiscoverBundle_first env.FileExists _ KnownBundlePaths pre p post hsplit hp hpre
  · intro hnone
    have h1 : g1.CurlRequestOptions.CertBundlePath = g.CurlRequestOptions.CertBundlePath := by
      rw [hpath]
      exact DiscoverBundle_none env.FileExists _ KnownBundlePaths hnone
    exact ⟨h1, fun h0 => h1.trans h0⟩

/-- The statement of C14 with the second and the third known path present. -/
theorem trust_bundle_first_existing_witness :
    (CurlStatics.initial FCurlRequestOptions.ctor).GMultiHandle = 0 ∧
    (0 : CURLcode) = 0 ∧ (7 : CURLM) ≠ 0 ∧ (8 : CURLSH) ≠ 0 ∧
    (KnownBundlePaths = ["/etc/pki/tls/certs/ca-bundle.crt",
      "/etc/ssl/certs/ca-certificates.crt", "/etc/ssl/ca-bundle.pem"] ∧
    ∃ g1, InitCurl (CurlStatics.initial FCurlRequestOptions.ctor)
        ⟨0, 7, 8, none, false, true, false,
          fun p => p != "/etc/pki/tls/certs/ca-bundle.crt", "", "", false, none⟩
        = Result.ok g1 ∧
      (∀ pre p post, KnownBundlePaths = pre ++ p :: post →
        (fun p => p != "/etc/pki/tls/certs/ca-bundle.crt") p = true →
        (∀ q ∈ pre, (fun p => p != "/etc/pki/tls/certs/ca-bundle.crt") q = false) →
        g1.CurlRequestOptions.CertBundlePath = some p) ∧
      ((∀ q ∈ KnownBundlePaths,
          (fun p => p != "/etc/pki/tls/certs/ca-bundle.crt") q = false) →
        g1.CurlRequestOptions.CertBundlePath =
          (CurlStatics.initial FCurlRequestOptions.ctor).CurlRequestOptions.CertBundlePath ∧
        ((CurlStatics.initial FCurlRequestOptions.ctor).CurlRequestOptions.CertBundlePath
            = none →
          g1.CurlRequestOptions.CertBundlePath = none))) :=
  ⟨rfl, rfl, by decide, by decide,
   trust_bundle_first_existing (CurlStatics.initial FCurlRequestOptions.ctor)
     ⟨0, 7, 8, none, false, true, false,
       fun p => p != "/etc/pki/tls/certs/ca-bundle.crt", "", "", false, none⟩
     rfl rfl (by decide) (by decide) rfl⟩

/-- C15: what `ShutdownCurl` does from an initialised context. After `InitCurl` has created
the multi handle 7 and the share handle 8, `ShutdownCurl` cleans up the multi handle, resets
`GMultiHandle` and tears the library down; `GShareHandle` still holds the handle 8, and
`curl_share_cleanup` is not among the calls made. -/
theorem ShutdownCurl_keeps_share_handle :
    ∃ g, InitCurl (CurlStatics.initial FCurlRequestOptions.ctor)
        ⟨0, 7, 8, none, false, true, false, fun _ => false, "", "", false, none⟩
        = Result.ok g ∧
      g.GMultiHandle = 7 ∧ g.GShareHandle = 8 ∧
      (ShutdownCurl g).GMultiHandle = 0 ∧
      (ShutdownCurl g).GShareHandle = 8 ∧
      (ShutdownCurl g).LibraryCalls =
        g.LibraryCalls ++ [LibraryCall.curl_multi_cleanup 7, LibraryCall.curl_global_cleanup] ∧
      LibraryCall.curl_share_cleanup 8 ∉ (ShutdownCurl g).LibraryCalls :=
  ⟨_, rfl, rfl, rfl, rfl, rfl, rfl, by decide⟩

theorem AddAnswers_append (T1 T2 : List Call) :
    AddAnswers (T1 ++ T2) = AddAnswers T1 ++ AddAnswers T2 := by
  simp [AddAnswers]

theorem AddAnswers_nil {T : List Call} (h : OfferedHandles T = []) : AddAnswers T = [] := by
  induction T with
  | nil => rfl
  | cons c rest ih =>
    cases c <;> simp_all [OfferedHandles, AddAnswers, List.filterMap_cons]

theorem LoopOffers_step {AddResults : Nat → CURLMcode} {s0 t : FCurlHttpManager} {i : Nat}
    (n : Int) {h : CURL} {d : CurlEasyRequestData}
    (hfind : TMap.Find t.HandlesToRequests h = some d) (hs : d.bProcessingStarted = false)
    (hP : LoopOffers AddResults s0 t i) :
    LoopOffers AddResults s0 (AdmitHandle t n h d (AddResults i)).1 (i + 1) := by
  obtain ⟨T, es, hT, hi, hans, hO, hperm⟩ := hP
  obtain ⟨pre, post, hsplit, hstamps⟩ :=
    AdmitHandle_PendingStamps t n (AddResults i) hfind hs
  refine ⟨T ++ [Call.curl_multi_add_handle h (AddResults i),
    Call.SetAddToCurlMultiResult d.Request (AddResults i)], es ++ [(h, d.DateTime)],
    ?_, ?_, ?_, ?_, ?_⟩
  · rw [AdmitHandle_Trace, hT, List.append_assoc]
  · rw [OfferedHandles_append, OfferedHandles_admit, List.length_append, ← hi]
    rfl
  · rw [AddAnswers_append, hans, List.range_succ, List.map_append]
    simp [AddAnswers]
  · rw [OfferedHandles_append, OfferedHandles_admit, hO]
    simp
  · rw [hstamps]
    rw [hsplit] at hperm
    refine List.Perm.trans ?_ hperm
    rw [List.append_assoc]
    apply List.Perm.append_left
    exact (@List.perm_middle _ (h, d.DateTime) pre post).symm

theorem FirstMinBelow.eligible {MaxValue : FDateTime} {m : TMap} {h : CURL}
    {d : CurlEasyRequestData} (hf : FirstMinBelow MaxValue m h d) :
    (h, d) ∈ Eligible MaxValue m := by
  unfold Eligible
  rw [List.mem_filter]
  refine ⟨hf.mem, ?_⟩
  simp [hf.started, hf.below]

/-- The first iteration of the admission loop: with budget, and with `FindNextEasyHandle`
selecting `h`, the loop offers `h` to the multiplexer with the answer of index `Index`. -/
theorem AdmissionLoop_first (MaxValue : FDateTime) (AddResults : Nat → CURLMcode)
    (Fuel Index : Nat) (NumAdded : Int) (t : FCurlHttpManager)
    (hnd : (TMap.Keys t.HandlesToRequests).Nodup)
    (hfuel : (Eligible MaxValue t.HandlesToRequests).length ≤ Fuel)
    (hb : HasBudget t NumAdded = true) (h : CURL)
    (hsel : FindNextEasyHandle MaxValue t.HandlesToRequests = (true, some h)) :
    ∃ out T, AdmissionLoop MaxValue AddResults Fuel Index NumAdded t = Result.ok out ∧
      out.1.Trace = t.Trace ++ T ∧
      Call.curl_multi_add_handle h (AddResults Index) ∈ T := by
  obtain ⟨h1, d, hout, hf⟩ := FindNextEasyHandle_true MaxValue _ _ hsel
  cases hout
  have hfind : TMap.Find t.HandlesToRequests h = some d := TMap.Find_of_mem hnd hf.mem
  cases Fuel with
  | zero =>
    exfalso
    have hmem := hf.eligible
    have hlen : (Eligible MaxValue t.HandlesToRequests).length = 0 := Nat.le_zero.1 hfuel
    rw [List.length_eq_zero.1 hlen] at hmem
    cases hmem
  | succ Fuel =>
    have hel := AdmitHandle_Eligible MaxValue t NumAdded (AddResults Index) hfind hf.started
      hf.below
    have hnd2 : (TMap.Keys
        (AdmitHandle t NumAdded h d (AddResults Index)).1.HandlesToRequests).Nodup := by
      rw [AdmitHandle_Keys]
      exact hnd
    obtain ⟨out, _, hrun, ⟨T, hT⟩, _, _⟩ :=
      AdmissionLoop_rule MaxValue AddResults
        (fun u _ _ => ∃ T, u.Trace =
          (AdmitHandle t NumAdded h d (AddResults Index)).1.Trace ++ T)
        (fun u n i h2 d2 _ hP _ _ _ => by
          obtain ⟨T, hT⟩ := hP
          exact ⟨T ++ [Call.curl_multi_add_handle h2 (AddResults i),
            Call.SetAddToCurlMultiResult d2.Request (AddResults i)],
            by rw [AdmitHandle_Trace, hT, List.append_assoc]⟩)
        Fuel (Index + 1) (AdmitHandle t NumAdded h d (AddResults Index)).2
        (AdmitHandle t NumAdded h d (AddResults Index)).1 hnd2 (by omega) ⟨[], by simp⟩
    refine ⟨out, [Call.curl_multi_add_handle h (AddResults Index),
      Call.SetAddToCurlMultiResult d.Request (AddResults Index)] ++ T, ?_, ?_, by simp⟩
    · unfold AdmissionLoop
      simp only [hb, if_true, hsel, hfind]
      exact hrun
    · rw [hT, AdmitHandle_Trace, List.append_assoc]

/-- C6: a rejected admission is not retried. In every state reached from a freshly
constructed manager and for every tick made there, whatever the multiplexer answers, the
tick returns and:

* its admission loop runs until the budget or the selectable entries are used up; the
  handles it offers to the multiplexer are exactly the entries that stop being unadmitted
  in this tick, and the adds carry the answers of the multiplexer in order; in particular,
  when the loop starts with budget and `FindNextEasyHandle` selects `h`, the handle `h` is
  offered and gets the first answer;
* the in-flight counter moves only by the completions drained and the adds accepted (a
  rejected add leaves it, and `NumAdded`, unchanged);
* every handle whose add the multiplexer rejected with a code `r` ends the tick with
  `bProcessingStarted` set and `bAddedToMulti` clear, its request was told `r` through
  `SetAddToCurlMultiResult`, it was offered once in the tick, and after any later sequence of
  calls it has not been offered to the multiplexer again and `FindNextEasyHandle` does not
  select it, unless it is submitted again with `StartThreadedRequest`. -/
theorem rejected_admission_not_retried (MaxValue : FDateTime) (GMultiHandle : CURLM)
    (CfgSimultaneous CfgPerFrame : Option Int) (evs : List Event) (n : Nat)
    (RunningRequests : Int) (Messages : List CURLMsg) (AddResults : Nat → CURLMcode)
    (hG : GMultiHandle ≠ 0) :
    ∃ s0 s s1 T es,
      FCurlHttpManager.ctor GMultiHandle CfgSimultaneous CfgPerFrame = Result.ok s0 ∧
      Run MaxValue s0 evs = Result.ok s ∧
      HttpThreadTick MaxValue s n RunningRequests Messages AddResults = Result.ok s1 ∧
      s1.Trace = s.Trace ++ T ∧
      (0 < n →
        (HasBudget s1 ((AcceptedHandles T).length : Int) &&
          (FindNextEasyHandle MaxValue s1.HandlesToRequests).1) = false) ∧
      OfferedHandles T = es.map Prod.fst ∧
      (es ++ PendingStamps s1.HandlesToRequests).Perm (PendingStamps s.HandlesToRequests) ∧
      AddAnswers T = (List.range (OfferedHandles T).length).map AddResults ∧
      (0 < n → ∀ h, HasBudget (PerformAndDrain s RunningRequests Messages) 0 = true →
        FindNextEasyHandle MaxValue
          (PerformAndDrain s RunningRequests Messages).HandlesToRequests = (true, some h) →
        Call.curl_multi_add_handle h (AddResults 0) ∈ T) ∧
      s1.NumRequestsAddedToMulti = s.NumRequestsAddedToMulti
        - ((ReportedDone T).length : Int) + ((AcceptedHandles T).length : Int) ∧
      (∀ (t : FCurlHttpManager) (k : Int) (h : CURL) (d : CurlEasyRequestData) (r : CURLMcode),
        r ≠ CURLM_OK →
        (AdmitHandle t k h d r).1.NumRequestsAddedToMulti = t.NumRequestsAddedToMulti ∧
        (AdmitHandle t k h d r).2 = k) ∧
      ∀ h r, Call.curl_multi_add_handle h r ∈ T → r ≠ CURLM_OK →
        (∃ d, TMap.Find s1.HandlesToRequests h = some d ∧ d.bProcessingStarted = true ∧
          d.bAddedToMulti = false ∧ Call.SetAddToCurlMultiResult d.Request r ∈ T) ∧
        (OfferedHandles T).count h = 1 ∧
        ∀ later : List Event,
          (∀ Request Now Slot, Event.Start Request Now Slot ∈ later →
            Request.EasyHandle ≠ h) →
          ∃ s2 T2, Run MaxValue s1 later = Result.ok s2 ∧ s2.Trace = s1.Trace ++ T2 ∧
            h ∉ OfferedHandles T2 ∧
            FindNextEasyHandle MaxValue s2.HandlesToRequests ≠ (true, some h) := by
  obtain ⟨s0, s, hctor, hrun, hw, hs⟩ :=
    Run_Sound MaxValue GMultiHandle CfgSimultaneous CfgPerFrame evs hG
  have hbody : ∀ (t : FCurlHttpManager) (k : Int) (h : CURL) (d : CurlEasyRequestData)
      (r : CURLMcode), r ≠ CURLM_OK →
      (AdmitHandle t k h d r).1.NumRequestsAddedToMulti = t.NumRequestsAddedToMulti ∧
      (AdmitHandle t k h d r).2 = k := by
    intro t k h d r hr
    obtain ⟨h1, h2⟩ := AdmitHandle_counters t k h d r
    rw [h1, h2]
    simp [hr]
  by_cases hn : 0 < n
  · obtain ⟨hw2, hs2, T0, hT0, hO0, hN0⟩ :=
      PerformAndDrain_ledger s RunningRequests Messages hw hs
    have hst := PerformAndDrain_PendingStamps s RunningRequests Messages hw
    obtain ⟨out, _, hloop, ⟨hsound, hledger, hrejs, hoffers⟩, hndout, hexit⟩ :=
      AdmissionLoop_rule MaxValue AddResults
        (fun t k i => Sound t ∧
          LoopLedger AddResults (PerformAndDrain s RunningRequests Messages) 0 t k ∧
          LoopRejections (PerformAndDrain s RunningRequests Messages) t ∧
          LoopOffers AddResults (PerformAndDrain s RunningRequests Messages) t i)
        (fun t k i h1 d1 _ hP hb hf hfd =>
          ⟨AdmitHandle_Sound k h1 d1 (AddResults i) hP.1, LoopLedger_step i h1 d1 hb hP.2.1,
            LoopRejections_step k (AddResults i) hf hfd hP.1 hP.2.2.1,
            LoopOffers_step k hfd hf.started hP.2.2.2⟩)
        (PerformAndDrain s RunningRequests Messages).HandlesToRequests.length 0 0 _ hw2.2
        (Eligible_length_le _ _)
        ⟨hs2, LoopLedger_refl _ _ _,
          ⟨[], by simp, by simp [OfferedHandles],
            by intro h hh; simp [OfferedHandles] at hh, by intro h r hh; cases hh⟩,
          ⟨[], [], by simp, rfl, rfl, rfl, by simp⟩⟩
    obtain ⟨T, hT, hk, hnum, _, _, _, _, _, _, hrep⟩ := hledger
    obtain ⟨T', hT', hnd, _, hrej⟩ := hrejs
    have hTT : T' = T := List.append_cancel_left (hT'.symm.trans hT)
    subst hTT
    obtain ⟨T'', es, hT'', hi, hans, hO, hperm⟩ := hoffers
    have hTT2 : T'' = T' := List.append_cancel_left (hT''.symm.trans hT)
    subst hTT2
    have htick := HttpThreadTick_unfold MaxValue s n RunningRequests Messages AddResults
      hw.1 hn out hloop
    have hwout : WellFormed out.1 := by
      obtain ⟨s1', h1, h2, _⟩ := HttpThreadTick_rule MaxValue (fun _ => True)
        (fun _ _ _ => trivial) (fun _ _ _ _ => trivial)
        (fun _ _ _ _ _ _ _ _ _ _ => trivial) s n RunningRequests Messages AddResults hw trivial
      rw [htick] at h1
      cases h1
      exact h2
    have hA0 := AcceptedHandles_nil hO0
    have hAns0 := AddAnswers_nil hO0
    refine ⟨s0, s, out.1, T0 ++ T'', es, hctor, hrun, htick, ?_, ?_, ?_, ?_, ?_, ?_, ?_,
      hbody, ?_⟩
    · rw [hT, hT0, List.append_assoc]
    · intro _
      rw [AcceptedHandles_append, hA0, List.nil_append]
      have hk' : out.2 = ((AcceptedHandles T'').length : Int) := by
        rw [hk]; simp
      rw [← hk']
      exact hexit
    · rw [OfferedHandles_append, hO0, List.nil_append]
      exact hO
    · rw [← hst]
      exact hperm
    · rw [AddAnswers_append, hAns0, OfferedHandles_append, hO0, List.nil_append,
        List.nil_append, ← hi]
      exact hans
    · intro _ h hb hsel
      obtain ⟨out', Tf, hloop', hTf, hmem⟩ :=
        AdmissionLoop_first MaxValue AddResults
          (PerformAndDrain s RunningRequests Messages).HandlesToRequests.length 0 0
          (PerformAndDrain s RunningRequests Messages) hw2.2 (Eligible_length_le _ _) hb h hsel
      rw [hloop] at hloop'
      cases hloop'
      have hTf' : Tf = T'' := List.append_cancel_left (hTf.symm.trans hT)
      subst hTf'
      exact List.mem_append_right _ hmem
    · rw [hnum, hN0, ReportedDone_append, AcceptedHandles_append, hrep, hA0]
      simp
    · intro h r hmem hr
      have hmemT : Call.curl_multi_add_handle h r ∈ T'' := by
        rcases List.mem_append.1 hmem with h1 | h1
        · have : h ∈ OfferedHandles T0 := mem_OfferedHandles.2 ⟨r, h1⟩
          rw [hO0] at this
          cases this
        · exact h1
      obtain ⟨d, hd1, hd2, hd3, hd4⟩ := hrej h r hmemT hr
      refine ⟨⟨d, hd1, hd2, hd3, List.mem_append_right _ hd4⟩, ?_, ?_⟩
      · rw [OfferedHandles_append, hO0, List.nil_append]
        exact List.count_eq_one_of_mem hnd (mem_OfferedHandles.2 ⟨r, hmemT⟩)
      · intro later hlater
        have hg : Guarded MaxValue (fun _ e => NotStartOf h e) out.1 later := by
          apply Guarded_of_forall MaxValue (NotStartOf h) later out.1 hwout
          intro e he
          cases e with
          | Start Request Now Slot => exact hlater Request Now Slot he
          | Tick _ _ _ _ => trivial
          | Complete _ => trivial
        obtain ⟨s2, hrun2, hw2', hstarted2, T2, hT2, hO2⟩ :=
          Run_rule_guarded MaxValue (fun _ e => NotStartOf h e) (NeverOffered h out.1)
            (fun t e t1 hwt hP hV hstep => Step_NeverOffered MaxValue h out.1 t e t1 hwt hP hV hstep)
            later out.1 hwout
            ⟨by
              intro d1 hf1
              rw [hd1] at hf1
              cases hf1
              exact hd2, [], by simp, by simp [OfferedHandles]⟩ hg
        refine ⟨s2, T2, hrun2, hT2, hO2, ?_⟩
        intro hsel
        obtain ⟨h2, d2, hout, hf⟩ := FindNextEasyHandle_true MaxValue _ _ hsel
        cases hout
        have hfind2 := TMap.Find_of_mem hw2'.2 hf.mem
        have := hstarted2 d2 hfind2
        rw [hf.started] at this
        cases this
  · have htick : HttpThreadTick MaxValue s n RunningRequests Messages AddResults
        = Result.ok s := by
      unfold HttpThreadTick
      simp only [hw.1, if_false, gt_iff_lt, hn]
    refine ⟨s0, s, s, [], [], hctor, hrun, htick, by simp, fun h => absurd h hn, rfl,
      by simp, rfl, fun h => absurd h hn, by simp [ReportedDone, AcceptedHandles], hbody, ?_⟩
    intro h r hmem
    cases hmem

/-- The statement of C6 on one pending request whose add the multiplexer rejects with the
code 2: the tick offers handle 1, the request is told the code 2, the entry ends started and
not in flight, and handle 1 is neither offered nor selected again later. -/
theorem rejected_admission_not_retried_witness :
    (1 : CURLM) ≠ 0 ∧
    ∃ s0 s s1 T,
      FCurlHttpManager.ctor 1 none none = Result.ok s0 ∧
      Run 1000 s0 [Event.Start ⟨1, 1⟩ 10 0] = Result.ok s ∧
      HttpThreadTick 1000 s 1 0 [] (fun _ => 2) = Result.ok s1 ∧
      s1.Trace = s.Trace ++ T ∧
      Call.curl_multi_add_handle 1 2 ∈ T ∧
      s1.NumRequestsAddedToMulti = s.NumRequestsAddedToMulti ∧
      (∃ d, TMap.Find s1.HandlesToRequests 1 = some d ∧ d.bProcessingStarted = true ∧
        d.bAddedToMulti = false ∧ Call.SetAddToCurlMultiResult d.Request 2 ∈ T) ∧
      (OfferedHandles T).count 1 = 1 ∧
      ∀ later : List Event,
        (∀ Request Now Slot, Event.Start Request Now Slot ∈ later →
          Request.EasyHandle ≠ 1) →
        ∃ s2 T2, Run 1000 s1 later = Result.ok s2 ∧ s2.Trace = s1.Trace ++ T2 ∧
          1 ∉ OfferedHandles T2 ∧
          FindNextEasyHandle 1000 s2.HandlesToRequests ≠ (true, some 1) := by
  refine ⟨by decide, ?_⟩
  obtain ⟨s0, s, s1, T, es, hctor, hrun, htick, hT, _, _, _, _, hfirst, _, _, hrej⟩ :=
    rejected_admission_not_retried 1000 1 none none [Event.Start ⟨1, 1⟩ 10 0] 1 0 []
      (fun _ => 2) (by decide)
  have hs0 : s0 = ⟨1, 0, 0, 0, [], [], []⟩ := by
    have : FCurlHttpManager.ctor 1 none none = Result.ok ⟨1, 0, 0, 0, [], [], []⟩ := rfl
    rw [this] at hctor
    cases hctor
    rfl
  subst hs0
  have hs : s = ⟨1, 0, 0, 0, [(1, ⟨10, false, false, ⟨1, 1⟩⟩)], [], [Call.RegistryAdd 1]⟩ := by
    have : Run 1000 ⟨1, 0, 0, 0, [], [], []⟩ [Event.Start ⟨1, 1⟩ 10 0] =
        Result.ok ⟨1, 0, 0, 0, [(1, ⟨10, false, false, ⟨1, 1⟩⟩)], [],
          [Call.RegistryAdd 1]⟩ := rfl
    rw [this] at hrun
    cases hrun
    rfl
  subst hs
  have hs1 : s1 = ⟨1, 0, 0, 0, [(1, ⟨10, true, false, ⟨1, 1⟩⟩)], [],
      [Call.RegistryAdd 1, Call.curl_multi_perform, Call.curl_multi_add_handle 1 2,
        Call.SetAddToCurlMultiResult ⟨1, 1⟩ 2]⟩ := by
    have : HttpThreadTick 1000
        ⟨1, 0, 0, 0, [(1, ⟨10, false, false, ⟨1, 1⟩⟩)], [], [Call.RegistryAdd 1]⟩ 1 0 []
        (fun _ => 2) =
        Result.ok ⟨1, 0, 0, 0, [(1, ⟨10, true, false, ⟨1, 1⟩⟩)], [],
          [Call.RegistryAdd 1, Call.curl_multi_perform, Call.curl_multi_add_handle 1 2,
            Call.SetAddToCurlMultiResult ⟨1, 1⟩ 2]⟩ := rfl
    rw [this] at htick
    cases htick
    rfl
  have hmem : Call.curl_multi_add_handle 1 2 ∈ T :=
    hfirst (by decide) 1 (by decide) (by decide)
  obtain ⟨h1, h2, h3⟩ := hrej 1 2 hmem (by decide)
  refine ⟨_, _, s1, T, rfl, rfl, htick, hT, hmem, ?_, h1, h2, h3⟩
  rw [hs1]
  rfl

end CurlHttp
